import Mathlib

/-!
# Synchronization structures of `pr_bc_opt` (dist_apps/experimental/pr_bc_opt/pr_bc_opt_sync.hh)

Shallow embedding of the four sync structures `APSPReduce`, `APSPBroadcast`,
`DependencyReduce` and `DependencyBroadcast`.

* `uint32_t` values are natural numbers; the code only compares and copies them.
* `ShortPathType` is an unsigned counter of `pathBits` bits: `+=` wraps modulo `2 ^ pathBits`.
* `float` values are elements of an arbitrary type `F` with a zero and an addition.
* The per-node vectors are lists; `v[i]` reads with `List.getD` and writes with `List.set`.
  Reading or writing outside the vector is undefined in the source, so statements that
  depend on a slot carry the hypothesis that the index is in range.
* `assert(c)` aborts when `c` is false: a call ends either `returned` or `aborted`, and both
  carry the node as the call left it.
-/

namespace PrBcOpt

/-- Constants that the header uses and does not declare: the sentinel `infinity` and the
width in bits of `ShortPathType`. -/
structure Config where
  infinity : Nat
  pathBits : Nat
deriving DecidableEq

/-- The fields of `struct NodeData` that the sync structures touch. -/
structure NodeData (F : Type) where
  minDistances : List Nat
  shortestPathNumbers : List Nat
  dependencyValues : List F
  sentFlag : List Bool
  roundIndexToSend : Nat
deriving DecidableEq

/-- The payload `galois::TupleOfThree<uint32_t, uint32_t, ShortPathType>`. -/
structure TupleOfThree where
  first : Nat
  second : Nat
  third : Nat
deriving DecidableEq

/-- How a call on a node ends: it returns a value, or an assertion fails.  Both carry the
node as the call left it. -/
inductive Outcome (ρ σ : Type) where
  | returned (r : ρ) (node : σ)
  | aborted (node : σ)
deriving DecidableEq

/-- The node a call left behind, however it ended. -/
def Outcome.node {ρ σ : Type} : Outcome ρ σ → σ
  | .returned _ n => n
  | .aborted n => n

/-- Modelled from the spec: `galois::min`, the runtime's in-place minimum, whose header is
not among the sources.  The spec names `min` as a reduce operator that merges a contributed
value into the master's field; `reduce` uses the value it yields as the slot's previous
content ("reset shortest paths if min dist changed").  The pair is
(previous content of the slot, new content of the slot). -/
def galois.min (a b : Nat) : Nat × Nat :=
  (a, if a > b then b else a)

/-- Modelled from the spec: `galois::atomicAdd` on a `float` slot, whose header is not among
the sources ("atomic add" in the spec): the new content of the slot. -/
def galois.atomicAdd {F : Type} [Add F] (a b : F) : F :=
  a + b

section Sync

variable {F : Type}

/-- Lines 84-96 of `APSPReduce::reduce`: choose the index to send, after the distance and the
path count of `rIndex` have been updated. -/
def APSPReduce.select (cfg : Config) (node : NodeData F) (rIndex : Nat) :
    Outcome Bool (NodeData F) :=
  if node.roundIndexToSend = cfg.infinity ∨
      node.minDistances.getD rIndex 0 < node.minDistances.getD node.roundIndexToSend 0 then
    if node.sentFlag.getD rIndex false then
      .aborted node
    else
      .returned true { node with roundIndexToSend := rIndex }
  else if node.minDistances.getD rIndex 0 = node.minDistances.getD node.roundIndexToSend 0 then
    if rIndex < node.roundIndexToSend then
      if node.sentFlag.getD rIndex false then
        .aborted node
      else
        .returned true { node with roundIndexToSend := rIndex }
    else
      .returned true node
  else
    .returned true node

/-- Embedding of `APSPReduce::reduce` (lines 55-105). -/
def APSPReduce.reduce (cfg : Config) (node : NodeData F) (y : TupleOfThree) :
    Outcome Bool (NodeData F) :=
  let rIndex := y.first
  if rIndex ≠ cfg.infinity then
    let rDistance := y.second
    let rNumPaths := y.third
    let m := galois.min (node.minDistances.getD rIndex 0) rDistance
    let old := m.1
    let node1 : NodeData F := { node with minDistances := node.minDistances.set rIndex m.2 }
    if old > rDistance then
      if rNumPaths = 0 then
        .aborted node1
      else
        APSPReduce.select cfg
          { node1 with
            shortestPathNumbers := node1.shortestPathNumbers.set rIndex rNumPaths }
          rIndex
    else if old = rDistance then
      APSPReduce.select cfg
        { node1 with
          shortestPathNumbers := node1.shortestPathNumbers.set rIndex
            ((node1.shortestPathNumbers.getD rIndex 0 + rNumPaths) % 2 ^ cfg.pathBits) }
        rIndex
    else
      APSPReduce.select cfg node1 rIndex
  else
    .returned false node

/-- Embedding of `APSPReduce::extract` (lines 27-47): the payload and the node after the
call. -/
def APSPReduce.extract (cfg : Config) (node : NodeData F) : TupleOfThree × NodeData F :=
  let indexToGet := node.roundIndexToSend
  if indexToGet ≠ cfg.infinity then
    (⟨indexToGet, node.minDistances.getD indexToGet 0,
        node.shortestPathNumbers.getD indexToGet 0⟩,
      { node with shortestPathNumbers := node.shortestPathNumbers.set indexToGet 0 })
  else
    (⟨indexToGet, cfg.infinity, 0⟩, node)

/-- Embedding of `APSPReduce::reset` (lines 111-115). -/
def APSPReduce.reset (cfg : Config) (node : NodeData F) : NodeData F :=
  if node.roundIndexToSend ≠ cfg.infinity then
    { node with shortestPathNumbers := node.shortestPathNumbers.set node.roundIndexToSend 0 }
  else
    node

/-- Embedding of `APSPBroadcast::extract` (lines 121-141); the node is `const`, so only the
payload is returned, and `none` is the failed `assert(c != 0)`. -/
def APSPBroadcast.extract (cfg : Config) (node : NodeData F) : Option TupleOfThree :=
  let indexToGet := node.roundIndexToSend
  if indexToGet ≠ cfg.infinity then
    let b := node.minDistances.getD indexToGet 0
    let c := node.shortestPathNumbers.getD indexToGet 0
    if c ≠ 0 then some ⟨indexToGet, b, c⟩ else none
  else
    some ⟨indexToGet, cfg.infinity, 0⟩

/-- Embedding of `APSPBroadcast::setVal` (lines 148-159). -/
def APSPBroadcast.setVal (cfg : Config) (node : NodeData F) (y : TupleOfThree) : NodeData F :=
  let rIndex := y.first
  if rIndex ≠ cfg.infinity then
    { node with
      roundIndexToSend := rIndex
      minDistances := node.minDistances.set rIndex y.second
      shortestPathNumbers := node.shortestPathNumbers.set rIndex y.third }
  else
    node

/-- Embedding of `DependencyReduce::extract` (lines 170-180). -/
def DependencyReduce.extract [Zero F] (cfg : Config) (node : NodeData F) : Nat × F :=
  let indexToGet := node.roundIndexToSend
  if indexToGet ≠ cfg.infinity then
    (indexToGet, node.dependencyValues.getD indexToGet 0)
  else
    (indexToGet, 0)

/-- Embedding of `DependencyReduce::reduce` (lines 188-203).  `galois::gError` only prints;
the failed `assert(node.roundIndexToSend == rIndex)` that follows it is the abort. -/
def DependencyReduce.reduce [Zero F] [Add F] (cfg : Config) (node : NodeData F) (y : Nat × F) :
    Outcome Bool (NodeData F) :=
  let rIndex := y.1
  if rIndex ≠ cfg.infinity then
    if node.roundIndexToSend ≠ rIndex then
      .aborted node
    else
      let rToAdd := y.2
      .returned true
        { node with
          dependencyValues := node.dependencyValues.set rIndex
            (galois.atomicAdd (node.dependencyValues.getD rIndex 0) rToAdd) }
  else
    .returned false node

/-- Embedding of `DependencyReduce::reset` (lines 209-213). -/
def DependencyReduce.reset [Zero F] (cfg : Config) (node : NodeData F) : NodeData F :=
  if node.roundIndexToSend ≠ cfg.infinity then
    { node with dependencyValues := node.dependencyValues.set node.roundIndexToSend 0 }
  else
    node

/-- Embedding of `DependencyBroadcast::extract` (lines 219-230). -/
def DependencyBroadcast.extract [Zero F] (cfg : Config) (node : NodeData F) : Nat × F :=
  let indexToGet := node.roundIndexToSend
  if indexToGet ≠ cfg.infinity then
    (indexToGet, node.dependencyValues.getD indexToGet 0)
  else
    (indexToGet, 0)

/-- Embedding of `DependencyBroadcast::setVal` (lines 237-244); the abort is the failed
`assert(node.roundIndexToSend == rIndex)`. -/
def DependencyBroadcast.setVal (cfg : Config) (node : NodeData F) (y : Nat × F) :
    Outcome Unit (NodeData F) :=
  let rIndex := y.1
  if rIndex ≠ cfg.infinity then
    let rDep := y.2
    if node.roundIndexToSend ≠ rIndex then
      .aborted node
    else
      .returned () { node with dependencyValues := node.dependencyValues.set rIndex rDep }
  else
    .returned () node


/-- A finite sequence of `APSPReduce::reduce` calls on one node, in arrival order; the run
stops at the first failed assertion. -/
def APSPReduce.reduceAll (cfg : Config) (node : NodeData F) :
    List TupleOfThree → Outcome Unit (NodeData F)
  | [] => .returned () node
  | y :: ys =>
    match APSPReduce.reduce cfg node y with
    | .returned _ node' => APSPReduce.reduceAll cfg node' ys
    | .aborted node' => .aborted node'

/-- What the pointer arguments of a batched hook reach, together with the nodes of the
graph: `unsigned long int*` / `uint64_t*` (bit-vector words), `unsigned int*` (offsets),
`ValTy*` (values), `size_t*` and `DataCommMode*` (one cell each).  `DataCommMode` is an
enumeration declared outside this header; its values are numbered here. -/
structure BatchMemory (V F : Type) where
  bitvec : List Nat
  offsets : List Nat
  values : List V
  count : Nat
  dataMode : Nat
  nodes : List (NodeData F)
deriving DecidableEq

/-- Embedding of `APSPReduce::extract_reset_batch` with six parameters (lines 49-51): the
returned flag and the memory after the call. -/
def APSPReduce.extract_reset_batch (_from : Nat) (mem : BatchMemory TupleOfThree F) :
    Bool × BatchMemory TupleOfThree F :=
  (false, mem)

/-- Embedding of `APSPReduce::extract_reset_batch(unsigned, ValTy*)` (line 53). -/
def APSPReduce.extract_reset_batch2 (_from : Nat) (mem : BatchMemory TupleOfThree F) :
    Bool × BatchMemory TupleOfThree F :=
  (false, mem)

/-- Embedding of `APSPReduce::reduce_batch` (lines 107-108); `size_t` and `DataCommMode` are
passed by value. -/
def APSPReduce.reduce_batch (_from : Nat) (mem : BatchMemory TupleOfThree F) (_size : Nat)
    (_mode : Nat) : Bool × BatchMemory TupleOfThree F :=
  (false, mem)

/-- Embedding of `APSPBroadcast::extract_batch` with six parameters (lines 143-144). -/
def APSPBroadcast.extract_batch (_from : Nat) (mem : BatchMemory TupleOfThree F) :
    Bool × BatchMemory TupleOfThree F :=
  (false, mem)

/-- Embedding of `APSPBroadcast::extract_batch(unsigned, ValTy*)` (line 146). -/
def APSPBroadcast.extract_batch2 (_from : Nat) (mem : BatchMemory TupleOfThree F) :
    Bool × BatchMemory TupleOfThree F :=
  (false, mem)

/-- Embedding of `APSPBroadcast::setVal_batch` (lines 161-162). -/
def APSPBroadcast.setVal_batch (_from : Nat) (mem : BatchMemory TupleOfThree F) (_size : Nat)
    (_mode : Nat) : Bool × BatchMemory TupleOfThree F :=
  (false, mem)

/-- Embedding of `DependencyReduce::extract_reset_batch` with six parameters
(lines 182-184). -/
def DependencyReduce.extract_reset_batch (_from : Nat) (mem : BatchMemory (Nat × F) F) :
    Bool × BatchMemory (Nat × F) F :=
  (false, mem)

/-- Embedding of `DependencyReduce::extract_reset_batch(unsigned, ValTy*)` (line 186). -/
def DependencyReduce.extract_reset_batch2 (_from : Nat) (mem : BatchMemory (Nat × F) F) :
    Bool × BatchMemory (Nat × F) F :=
  (false, mem)

/-- Embedding of `DependencyReduce::reduce_batch` (lines 205-206). -/
def DependencyReduce.reduce_batch (_from : Nat) (mem : BatchMemory (Nat × F) F) (_size : Nat)
    (_mode : Nat) : Bool × BatchMemory (Nat × F) F :=
  (false, mem)

/-- Embedding of `DependencyBroadcast::extract_batch` with six parameters (lines 232-233). -/
def DependencyBroadcast.extract_batch (_from : Nat) (mem : BatchMemory (Nat × F) F) :
    Bool × BatchMemory (Nat × F) F :=
  (false, mem)

/-- Embedding of `DependencyBroadcast::extract_batch(unsigned, ValTy*)` (line 235). -/
def DependencyBroadcast.extract_batch2 (_from : Nat) (mem : BatchMemory (Nat × F) F) :
    Bool × BatchMemory (Nat × F) F :=
  (false, mem)

/-- Embedding of `DependencyBroadcast::setVal_batch` (lines 246-247). -/
def DependencyBroadcast.setVal_batch (_from : Nat) (mem : BatchMemory (Nat × F) F) (_size : Nat)
    (_mode : Nat) : Bool × BatchMemory (Nat × F) F :=
  (false, mem)

end Sync

/-- The two ways a field is moved in a synchronization round. -/
inductive SyncPath where
  | batched
  | perNode
deriving DecidableEq

/-- Modelled from the spec: the caller of the batched hooks, which is not among the sources:
"a component may decline specialized bulk encoding and fall back to the general per-node
path".  The argument is the flag the hook returned. -/
def syncPath (accepted : Bool) : SyncPath :=
  if accepted then .batched else .perNode

/-- The minimum of `init` and the values of `ds`. -/
def minOver (init : Nat) (ds : List Nat) : Nat :=
  ds.foldl min init

/-- The distances received for index `k`, in arrival order. -/
def receivedDistances (k : Nat) (ys : List TupleOfThree) : List Nat :=
  (ys.filter (fun y => y.first = k)).map (fun y => y.second)

/-- The sum of the path counts received for index `k` with distance `D`. -/
def receivedPaths (k D : Nat) (ys : List TupleOfThree) : Nat :=
  ((ys.filter (fun y => y.first = k ∧ y.second = D)).map (fun y => y.third)).sum

/-! ### Concrete data -/

/-- A configuration: the sentinel is a quarter of the largest `uint32_t`, the path counter
has 64 bits. -/
def cfg64 : Config := ⟨1073741823, 64⟩

/-- A master that has not yet chosen an index to send: two sources, both at distance 10. -/
def freshNode : NodeData Int :=
  { minDistances := [10, 10]
    shortestPathNumbers := [0, 0]
    dependencyValues := [0, 0]
    sentFlag := [false, false]
    roundIndexToSend := 1073741823 }

/-- A master working on source 0, which it reaches at distance 3 along 2 shortest paths. -/
def busyNode : NodeData Int :=
  { minDistances := [3, 10]
    shortestPathNumbers := [2, 0]
    dependencyValues := [5, 7]
    sentFlag := [false, false]
    roundIndexToSend := 0 }

/-- A mirror of the node above that holds stale values. -/
def mirrorNode : NodeData Int :=
  { minDistances := [8, 9]
    shortestPathNumbers := [1, 1]
    dependencyValues := [0, 0]
    sentFlag := [false, false]
    roundIndexToSend := 1 }

/-- Some memory for the batched hooks. -/
def someMemory : BatchMemory TupleOfThree Int :=
  { bitvec := [5], offsets := [0, 2], values := [⟨0, 3, 2⟩], count := 1, dataMode := 0,
    nodes := [busyNode, mirrorNode] }
end PrBcOpt

/-!
# Barriers (src/Barrier.cpp)

* Values of type `unsigned` are natural numbers below `2 ^ 32`; arithmetic on them is taken
  modulo `2 ^ 32` (`u32`).  The `int` counter of the distributed barrier wraps into
  `[-2 ^ 31, 2 ^ 31)` (`i32`), as `std::atomic<int>` arithmetic does.
* Per-thread and per-package storage are lists indexed by thread id and package id.
* A pointer into the storage is the index of the node it points into (and, for a pointer to
  an array element, the index of the slot); the null pointer is `none`.
* `MCSBarrier::wait` is a step function: a step of a thread runs the code up to and
  including its next access to the shared storage, one test of a spin loop being one step,
  and a schedule is the list of the threads that step, in order.  Accesses take effect in
  the order of the schedule.
* The parts of `StupidDistBarrier::wait` are run without interference from other threads: a
  spin loop whose condition holds when it is reached does not end, which is the result
  `spins`.
-/

namespace Barrier

/-- The value of an `unsigned` expression: arithmetic modulo `2 ^ 32`. -/
def u32 (x : Nat) : Nat :=
  x % 2 ^ 32

/-- The value of an `int` expression, wrapped into `[-2 ^ 31, 2 ^ 31)`. -/
def i32 (x : Int) : Int :=
  (x + 2 ^ 31) % 2 ^ 32 - 2 ^ 31

/-- How a call ends when no other thread interferes: it returns, it spins on a condition
that holds, or an assertion fails.  Each carries the state as the call left it. -/
inductive Run (σ : Type) where
  | returned (s : σ)
  | spins (s : σ)
  | aborted (s : σ)
deriving DecidableEq

/-- The record `MCSBarrier::treenode`.  `parentpointer` points at slot `s` of
`childnotready` of node `p` (the pair `(p, s)`); each of the two `childpointers` points at
`parentsense` of a node. -/
structure MCSBarrier.treenode where
  parentpointer : Option (Nat × Nat)
  childpointers : List (Option Nat)
  havechild : List Bool
  childnotready : List Bool
  parentsense : Bool
  sense : Bool
deriving DecidableEq

/-- The part of a node that `_reinit` alone writes: the child flags and the pointers. -/
def MCSBarrier.shape (n : MCSBarrier.treenode) :
    List Bool × Option (Nat × Nat) × List (Option Nat) :=
  (n.havechild, n.parentpointer, n.childpointers)

/-- A node for reads outside the storage, which the source never performs. -/
def MCSBarrier.noNode : MCSBarrier.treenode :=
  ⟨none, [], [], [], false, false⟩

/-- Embedding of `MCSBarrier::_reinit` (lines 98-112): every node of the storage has all its
fields assigned. -/
def MCSBarrier._reinit (nodes : List MCSBarrier.treenode) (P : Nat) :
    List MCSBarrier.treenode :=
  (List.range nodes.length).map fun i =>
    { sense := true
      parentsense := false
      childnotready := (List.range 4).map fun j => decide (u32 (4 * i + j + 1) < P)
      havechild := (List.range 4).map fun j => decide (u32 (4 * i + j + 1) < P)
      parentpointer := if i = 0 then none else some ((i - 1) / 4, (i - 1) % 4)
      childpointers :=
        [if u32 (2 * i + 1) ≥ P then none else some (u32 (2 * i + 1)),
          if u32 (2 * i + 2) ≥ P then none else some (u32 (2 * i + 2))] }

/-- The node `i` of the storage after `f` has been applied to it. -/
def MCSBarrier.update (nodes : List MCSBarrier.treenode) (i : Nat)
    (f : MCSBarrier.treenode → MCSBarrier.treenode) : List MCSBarrier.treenode :=
  nodes.set i (f (nodes.getD i MCSBarrier.noNode))

/-- The assignment `*n.childpointers[k] = v` seen from the node whose `parentsense` is
written. -/
def MCSBarrier.setParentsense (v : Bool) (m : MCSBarrier.treenode) : MCSBarrier.treenode :=
  { m with parentsense := v }

/-- One statement `if (n.childpointers[k]) *n.childpointers[k] = n.sense;` of
`MCSBarrier::wait`, for the pointer `child` and the sense `v`. -/
def MCSBarrier.signal (nodes : List MCSBarrier.treenode) (child : Option Nat) (v : Bool) :
    List MCSBarrier.treenode :=
  match child with
  | some c => MCSBarrier.update nodes c (MCSBarrier.setParentsense v)
  | none => nodes

/-- The statement `n.sense = !n.sense` (line 144). -/
def MCSBarrier.flip (n : MCSBarrier.treenode) : MCSBarrier.treenode :=
  { n with sense := !n.sense }

/-- One pass of the loop `for (i < 4) n.childnotready[i] = n.havechild[i]` (lines 130-131),
for slot `i`. -/
def MCSBarrier.rearm (i : Nat) (n : MCSBarrier.treenode) : MCSBarrier.treenode :=
  { n with childnotready := n.childnotready.set i (n.havechild.getD i false) }

/-- The assignment `*n.parentpointer = false` (line 134) seen from the parent, whose slot
`s` is written. -/
def MCSBarrier.arrived (s : Nat) (m : MCSBarrier.treenode) : MCSBarrier.treenode :=
  { m with childnotready := m.childnotready.set s false }

/-- The place of a thread in `MCSBarrier::wait`: outside a call (`idle`), or in a call and
before the statement named: the test of `childnotready[j]` in the condition of the loop of
lines 126-129 (`check j`), the assignment to `childnotready[i]` of line 131 (`rearm i`), the
statement of lines 132-134 (`notify`), the test of the loop of lines 135-137 (`sense`), the
statement of lines 140-141 or 142-143 (`signal 0`, `signal 1`), and line 144 (`flip`). -/
inductive MCSBarrier.PC where
  | idle
  | check (j : Fin 4)
  | rearm (i : Fin 4)
  | notify
  | sense
  | signal (k : Fin 2)
  | flip
deriving DecidableEq

/-- The threads that use one `MCSBarrier`: the storage, the place of every thread, and for
every thread the number of calls of `wait` it has made and the number of calls from which
it has returned.  The two counts are not read by `wait`. -/
structure MCSBarrier.Threads where
  nodes : List MCSBarrier.treenode
  pc : List MCSBarrier.PC
  entered : List Nat
  returned : List Nat
deriving DecidableEq

/-- The node of thread `tid`. -/
def MCSBarrier.Threads.node (w : MCSBarrier.Threads) (tid : Nat) : MCSBarrier.treenode :=
  w.nodes.getD tid MCSBarrier.noNode

/-- The place of thread `tid`. -/
def MCSBarrier.Threads.place (w : MCSBarrier.Threads) (tid : Nat) : MCSBarrier.PC :=
  w.pc.getD tid .idle

/-- The number of calls of `wait` that thread `tid` has made. -/
def MCSBarrier.Threads.calls (w : MCSBarrier.Threads) (tid : Nat) : Nat :=
  w.entered.getD tid 0

/-- The number of calls of `wait` from which thread `tid` has returned. -/
def MCSBarrier.Threads.returns (w : MCSBarrier.Threads) (tid : Nat) : Nat :=
  w.returned.getD tid 0

/-- The state in which thread `tid` has moved to the place `pc`. -/
def MCSBarrier.Threads.goto (w : MCSBarrier.Threads) (tid : Nat) (pc : MCSBarrier.PC) :
    MCSBarrier.Threads :=
  { w with pc := w.pc.set tid pc }

/-- Embedding of `MCSBarrier::wait` (lines 124-145) as the next step of thread `tid`.  An
idle thread calls `wait`.  The condition of the first loop reads the four flags one after
the other; a flag that is set sends the thread through `asmPause` back to the first test.
A thread at the second loop stays there while `parentsense` differs from `sense`.  After
line 144 the call returns. -/
def MCSBarrier.step (w : MCSBarrier.Threads) (tid : Nat) : MCSBarrier.Threads :=
  let n := w.node tid
  match w.place tid with
  | .idle =>
    { w.goto tid (.check 0) with entered := w.entered.set tid (w.calls tid + 1) }
  | .check j =>
    if n.childnotready.getD j false then w.goto tid (.check 0)
    else w.goto tid (if h : j.val + 1 < 4 then .check ⟨j.val + 1, h⟩ else .rearm 0)
  | .rearm i =>
    { w.goto tid (if h : i.val + 1 < 4 then .rearm ⟨i.val + 1, h⟩ else .notify) with
      nodes := MCSBarrier.update w.nodes tid (MCSBarrier.rearm i) }
  | .notify =>
    match n.parentpointer with
    | some (p, s) =>
      { w.goto tid .sense with nodes := MCSBarrier.update w.nodes p (MCSBarrier.arrived s) }
    | none => w.goto tid (.signal 0)
  | .sense =>
    if n.parentsense ≠ n.sense then w else w.goto tid (.signal 0)
  | .signal k =>
    { w.goto tid (if h : k.val + 1 < 2 then .signal ⟨k.val + 1, h⟩ else .flip) with
      nodes := MCSBarrier.signal w.nodes (n.childpointers.getD k none) n.sense }
  | .flip =>
    { w.goto tid .idle with
      nodes := MCSBarrier.update w.nodes tid MCSBarrier.flip
      returned := w.returned.set tid (w.returns tid + 1) }

/-- The steps of a schedule, in order. -/
def MCSBarrier.run (w : MCSBarrier.Threads) : List Nat → MCSBarrier.Threads
  | [] => w
  | tid :: rest => MCSBarrier.run (MCSBarrier.step w tid) rest

/-- The state after `_reinit(P)`, before any thread has called `wait`. -/
def MCSBarrier.start (nodes : List MCSBarrier.treenode) (P : Nat) : MCSBarrier.Threads :=
  { nodes := MCSBarrier._reinit nodes P
    pc := List.replicate nodes.length .idle
    entered := List.replicate nodes.length 0
    returned := List.replicate nodes.length 0 }

/-- The places of a call in the order of the code, `idle` being 0 and `flip` 13. -/
def MCSBarrier.PC.rank : MCSBarrier.PC → Nat
  | .idle => 0
  | .check j => 1 + j.val
  | .rearm i => 5 + i.val
  | .notify => 9
  | .sense => 10
  | .signal k => 11 + k.val
  | .flip => 13

/-- How far thread `tid` has come: 14 for every completed call and the rank of its place in
the current one. -/
def MCSBarrier.Threads.position (w : MCSBarrier.Threads) (tid : Nat) : Nat :=
  14 * w.returns tid + (w.place tid).rank

/-- The number of calls in which thread `tid` has reached a place of rank `k` or more, for
`1 <= k <= 13`: the completed calls, and the current one if the thread is that far. -/
def MCSBarrier.Threads.count (w : MCSBarrier.Threads) (k tid : Nat) : Nat :=
  (w.position tid + 14 - k) / 14

/-- The lists of a state have the length of the storage, and the arrays of flags of every
node have length 4. -/
def MCSBarrier.Threads.Sized (w : MCSBarrier.Threads) (size : Nat) : Prop :=
  w.nodes.length = size ∧ w.pc.length = size ∧ w.entered.length = size ∧
  w.returned.length = size ∧
  ∀ t, t < size → (w.node t).childnotready.length = 4 ∧ (w.node t).havechild.length = 4

/-- What every schedule of the threads below `P` keeps true after `_reinit(P)`, in terms of
the counts of the places reached.  The shape of the storage is the one `_reinit` gave it.
A thread has made as many calls as it has reached the first test.  Its `sense` is true
after an even number of returns.  Slot `j` of node `u` is set exactly when its child
`c = 4u+j+1` takes part and has notified as often as `u` has rearmed the slot; `u` has
passed the test of the slot at most as often as `c` has notified.  The `parentsense` of a
thread `a > 0` is true exactly when its parent in the wake-up tree has signalled it an odd
number of times, and `a` has left its second loop at most that many times. -/
def MCSBarrier.Invariant (nodes : List MCSBarrier.treenode) (P : Nat)
    (w : MCSBarrier.Threads) : Prop :=
  w.Sized nodes.length ∧
  w.nodes.map MCSBarrier.shape = (MCSBarrier._reinit nodes P).map MCSBarrier.shape ∧
  (∀ u, u < P → w.calls u = w.count 1 u) ∧
  (∀ u, u < P → (w.node u).sense = decide (w.position u / 14 % 2 = 0)) ∧
  (∀ u j, u < P → j < 4 →
    (4 * u + j + 1 < P →
      (w.node u).childnotready.getD j false =
          decide (w.count 10 (4 * u + j + 1) = w.count (6 + j) u) ∧
        w.count (2 + j) u ≤ w.count 10 (4 * u + j + 1)) ∧
    (P ≤ 4 * u + j + 1 → (w.node u).childnotready.getD j false = false)) ∧
  (∀ a, 1 ≤ a → a < P →
    (w.node a).parentsense = decide (w.count (12 + (a - 1) % 2) ((a - 1) / 2) % 2 = 1) ∧
    w.count 11 a ≤ w.count (12 + (a - 1) % 2) ((a - 1) / 2))

/-- The functions of `Galois::Runtime::LL` that `TopoBarrier` calls; they are declared
outside the sources, so they are parameters. -/
structure Topology where
  getMaxPackageForThread : Nat → Nat
  getPackageForThread : Nat → Nat
  isPackageLeader : Nat → Bool

/-- The record `TopoBarrier::treenode`; a pointer to a node is the package it belongs to. -/
structure TopoBarrier.treenode where
  parentpointer : Option Nat
  childpointers : List (Option Nat)
  havechild : Nat
  childnotready : Nat
  parentsense : Nat
deriving DecidableEq

/-- The members of `TopoBarrier`: one node per package and one sense per thread. -/
structure TopoBarrier where
  nodes : List TopoBarrier.treenode
  sense : List Nat
deriving DecidableEq

/-- A node for reads outside the storage, which the source never performs. -/
def TopoBarrier.noNode : TopoBarrier.treenode :=
  ⟨none, [], 0, 0, 0⟩

/-- The two statements `++n.childnotready; ++n.havechild;` of `TopoBarrier::_reinit`. -/
def TopoBarrier.bump (n : TopoBarrier.treenode) : TopoBarrier.treenode :=
  { n with childnotready := u32 (n.childnotready + 1), havechild := u32 (n.havechild + 1) }

/-- The local `pkgs` of `TopoBarrier::_reinit` (line 172); `P - 1` is an `unsigned`
subtraction. -/
def TopoBarrier.pkgs (LL : Topology) (P : Nat) : Nat :=
  u32 (LL.getMaxPackageForThread (u32 (P + (2 ^ 32 - 1))) + 1)

/-- The body of the first loop of `TopoBarrier::_reinit` (lines 174-191) for package `i`,
applied to the node of that package. -/
def TopoBarrier.initNode (LL : Topology) (P i : Nat) (n : TopoBarrier.treenode) :
    TopoBarrier.treenode :=
  let n0 : TopoBarrier.treenode := { n with childnotready := 0, havechild := 0 }
  let n1 := (List.range 4).foldl
    (fun m j => if u32 (4 * i + j + 1) < TopoBarrier.pkgs LL P then TopoBarrier.bump m else m) n0
  let n2 := (List.range P).foldl
    (fun m j =>
      if LL.getPackageForThread j = i ∧ ¬ LL.isPackageLeader j then TopoBarrier.bump m else m) n1
  { n2 with
    parentpointer := if i = 0 then none else some ((i - 1) / 4)
    childpointers :=
      [if u32 (2 * i + 1) ≥ TopoBarrier.pkgs LL P then none else some (u32 (2 * i + 1)),
        if u32 (2 * i + 2) ≥ TopoBarrier.pkgs LL P then none else some (u32 (2 * i + 2))]
    parentsense := 0 }

/-- Embedding of `TopoBarrier::_reinit` (lines 171-195). -/
def TopoBarrier._reinit (LL : Topology) (b : TopoBarrier) (P : Nat) : TopoBarrier :=
  { nodes := (List.range (TopoBarrier.pkgs LL P)).foldl
      (fun ns i => ns.set i (TopoBarrier.initNode LL P i (ns.getD i TopoBarrier.noNode))) b.nodes
    sense := (List.range P).foldl (fun s i => s.set i 1) b.sense }

/-- The number of child packages of package `i` in the 4-ary tree over `pkgs` packages. -/
def TopoBarrier.childPackages (pkgs i : Nat) : Nat :=
  (List.range 4).countP fun j => 4 * i + j + 1 < pkgs

/-- The number of threads below `P` that belong to package `i` and are not its leader. -/
def TopoBarrier.followers (LL : Topology) (P i : Nat) : Nat :=
  (List.range P).countP fun t => LL.getPackageForThread t = i ∧ ¬ LL.isPackageLeader t

/-- The number of threads below `P` that belong to package `i` and are its leader. -/
def TopoBarrier.leaders (LL : Topology) (P i : Nat) : Nat :=
  (List.range P).countP fun t => LL.getPackageForThread t = i ∧ LL.isPackageLeader t

/-- The members of `StupidDistBarrier`, one object per host. -/
structure StupidDistBarrier where
  gsense : Nat
  sense : List Nat
  count : Int
deriving DecidableEq

/-- Modelled from the spec: `NetworkInterface::broadcast`, which is declared outside the
sources ("reliable point-to-point send and broadcast"; the caller notes "broadcast skips
us"): the hosts that receive a message broadcast by `networkHostID`. -/
def broadcast (networkHostNum networkHostID : Nat) : List Nat :=
  (List.range networkHostNum).filter fun h => h ≠ networkHostID

/-- Embedding of `StupidDistBarrier::reinit` (lines 274-279). -/
def StupidDistBarrier.reinit (b : StupidDistBarrier) (_val : Nat) : Run StupidDistBarrier :=
  let b1 := { b with sense := b.sense.map fun _ => 1 }
  if b1.count = 0 then .returned { b1 with gsense := 0 } else .aborted b1

/-- Lines 282-287 of `StupidDistBarrier::wait`, run by thread `tid` of host
`networkHostID`: the assertion, the broadcast and `--count`.  The result carries the
destinations of the messages sent. -/
def StupidDistBarrier.wait_arrive (networkHostNum networkHostID tid : Nat)
    (b : StupidDistBarrier) : Run (List Nat × StupidDistBarrier) :=
  if b.sense.getD tid 0 = u32 (b.gsense + 1) then
    .returned (broadcast networkHostNum networkHostID, { b with count := i32 (b.count - 1) })
  else
    .aborted ([], b)

/-- Line 291 of `StupidDistBarrier::wait`, run by the thread with `getTID() == 0`:
`count += networkHostNum * activeThreads`. -/
def StupidDistBarrier.wait_expect (networkHostNum activeThreads : Nat)
    (b : StupidDistBarrier) : StupidDistBarrier :=
  { b with count := i32 (b.count + i32 (u32 (networkHostNum * activeThreads))) }

/-- Lines 292-301 of `StupidDistBarrier::wait`, run by thread `tid`: the spin loop and what
follows it.  The calls of `doNetworkWork` run the landing pads of the messages that have
arrived; they are the separate step `broadcastLandingPad`. -/
def StupidDistBarrier.wait_release (tid : Nat) (b : StupidDistBarrier) :
    Run StupidDistBarrier :=
  if tid = 0 then
    if b.count > 0 then .spins b
    else
      .returned
        { b with
          gsense := u32 (b.gsense + 1)
          sense := b.sense.set tid (u32 (b.sense.getD tid 0 + 1)) }
  else
    if b.sense.getD tid 0 ≠ b.gsense then .spins b
    else .returned { b with sense := b.sense.set tid (u32 (b.sense.getD tid 0 + 1)) }

/-- Embedding of `StupidDistBarrier::broadcastLandingPad` (lines 308-311). -/
def StupidDistBarrier.broadcastLandingPad (b : StupidDistBarrier) : StupidDistBarrier :=
  { b with count := i32 (b.count - 1) }

/-- A barrier for reads outside the list of hosts. -/
def StupidDistBarrier.noBarrier : StupidDistBarrier :=
  ⟨0, [], 0⟩

/-- All hosts of a run: the barrier object of every host and the destinations of the
landing-pad messages that have been sent and not yet delivered. -/
structure World where
  hosts : List StupidDistBarrier
  inflight : List Nat
deriving DecidableEq

/-- The steps of the hosts: thread `tid` of `host` runs the part of `wait` before its spin
loop (`arrive`, and `expect` for thread 0), or leaves the spin loop (`release`); `deliver`
runs the landing pad of one message that has reached `host`. -/
inductive Event where
  | arrive (host tid : Nat)
  | expect (host : Nat)
  | release (host tid : Nat)
  | deliver (host : Nat)
deriving DecidableEq

/-- One step of the hosts; `none` when the step cannot be taken in this state (no such host,
a failed assertion, a spin loop that does not end, no message to deliver). -/
def World.step (networkHostNum activeThreads : Nat) (w : World) : Event → Option World
  | .arrive h tid =>
    if h < w.hosts.length then
      match StupidDistBarrier.wait_arrive networkHostNum h tid
          (w.hosts.getD h StupidDistBarrier.noBarrier) with
      | .returned (msgs, b) => some { hosts := w.hosts.set h b, inflight := w.inflight ++ msgs }
      | _ => none
    else none
  | .expect h =>
    if h < w.hosts.length then
      some { w with
        hosts := w.hosts.set h
          (StupidDistBarrier.wait_expect networkHostNum activeThreads
            (w.hosts.getD h StupidDistBarrier.noBarrier)) }
    else none
  | .release h tid =>
    if h < w.hosts.length then
      match StupidDistBarrier.wait_release tid (w.hosts.getD h StupidDistBarrier.noBarrier) with
      | .returned b => some { w with hosts := w.hosts.set h b }
      | _ => none
    else none
  | .deliver h =>
    if h < w.hosts.length ∧ h ∈ w.inflight then
      some
        { hosts := w.hosts.set h
            (StupidDistBarrier.broadcastLandingPad (w.hosts.getD h StupidDistBarrier.noBarrier))
          inflight := w.inflight.erase h }
    else none

/-- A sequence of steps, in the order in which they are taken. -/
def World.run (networkHostNum activeThreads : Nat) (w : World) : List Event → Option World
  | [] => some w
  | e :: es =>
    match World.step networkHostNum activeThreads w e with
    | some w1 => World.run networkHostNum activeThreads w1 es
    | none => none

/-- The number of steps `arrive` of `host` in a sequence. -/
def arrivals (host : Nat) (es : List Event) : Nat :=
  es.countP fun e => match e with
    | .arrive h _ => h = host
    | _ => false

/-- The number of steps `deliver` of `host` in a sequence. -/
def deliveries (host : Nat) (es : List Event) : Nat :=
  es.count (.deliver host)

/-- The number of steps `expect` of `host` in a sequence. -/
def expects (host : Nat) (es : List Event) : Nat :=
  es.count (.expect host)

/-- The number of steps `release` of thread `tid` of `host` in a sequence. -/
def releases (host tid : Nat) (es : List Event) : Nat :=
  es.count (.release host tid)

/-- The number of steps `arrive` of all hosts in a sequence. -/
def allArrivals (es : List Event) : Nat :=
  es.countP fun e => match e with
    | .arrive _ _ => true
    | _ => false

/-- The threads of `host` that take a step `arrive` in a sequence, in order. -/
def arrivalTids (host : Nat) (es : List Event) : List Nat :=
  es.filterMap fun e => match e with
    | .arrive h t => if h = host then some t else none
    | _ => none

/-- A barrier whose fields hold values of their types: `gsense` and every `sense` below
`2 ^ 32`, `count` in the range of `int`. -/
def StupidDistBarrier.typed (b : StupidDistBarrier) : Prop :=
  b.gsense < 2 ^ 32 ∧ (∀ t, b.sense.getD t 0 < 2 ^ 32) ∧ -2 ^ 31 ≤ b.count ∧ b.count < 2 ^ 31

/-- The state in which every host has just constructed its barrier for `T` threads. -/
def World.fresh (H T : Nat) : World :=
  { hosts := List.replicate H ⟨0, List.replicate T 1, 0⟩, inflight := [] }

/-- A machine with two packages of two threads each: threads 0 and 1 in package 0, threads
2 and 3 in package 1, the even thread of a package being its leader. -/
def twoPackages : Topology :=
  { getMaxPackageForThread := fun t => t / 2
    getPackageForThread := fun t => t / 2
    isPackageLeader := fun t => t % 2 = 0 }

/-- A `TopoBarrier` for the machine above, in an arbitrary state. -/
def TopoBarrier.stale : TopoBarrier :=
  { nodes := [⟨some 7, [some 3], 9, 2, 5⟩, TopoBarrier.noNode], sense := [4, 0, 6, 2] }

/-- One complete round of two hosts with two threads each: all arrivals, then all
deliveries, then all releases. -/
def fullRound : List Event :=
  [.arrive 0 0, .expect 0, .arrive 0 1, .arrive 1 0, .expect 1, .arrive 1 1,
    .deliver 1, .deliver 1, .deliver 0, .deliver 0,
    .release 1 0, .release 1 1, .release 0 0, .release 0 1]

/-- The start of a round of two hosts with two threads each in which host 1 receives the
notifications of host 0 and releases its threads, while the notifications for host 0 are
still in flight. -/
def host1First : List Event :=
  [.arrive 0 0, .expect 0, .arrive 0 1, .arrive 1 0, .expect 1, .arrive 1 1,
    .deliver 1, .deliver 1, .release 1 0, .release 1 1]

end Barrier

/-!
# The SSSP tutorial (lonestar/tutorial_examples/SSSPsimple.cpp)
-/

namespace SSSPsimple

/-- The type `UpdateRequest`, `std::pair<unsigned, GNode>`: a distance and a node, the node
being its index in the graph. -/
abbrev UpdateRequest : Type :=
  Nat × Nat

/-- The global `unsigned stepShift = 11` (line 35). -/
def stepShift : Nat :=
  11

/-- Embedding of `UpdateRequestIndexer::operator()` (lines 88-92); `shift` is the value of
the global `stepShift` at the call.  The shift of a 32-bit `unsigned` is defined for
`shift < 32`. -/
def UpdateRequestIndexer (shift : Nat) (val : UpdateRequest) : Nat :=
  val.1 >>> shift

end SSSPsimple

/-!
# Conversion of `katana::Result` to Python (libkatana_python_native, ErrorHandling.h)

The caster reads of the interpreter only the attributes of the module `katana`, and sets of
it only the error indicator.  A thrown `pybind11::error_already_set` is the result
`Except.error`, which carries the error indicator at the throw.
-/

namespace ErrorHandling

/-- What the caster reads of the error of a failed result: the text that `Write` produces
and the name of the category of its error code. -/
structure ErrorInfo where
  written : String
  categoryName : String
deriving DecidableEq

/-- The type `katana::Result<T>`, declared outside the sources: a value or an error. -/
inductive Result (T : Type) where
  | success (value : T)
  | failure (error : ErrorInfo)
deriving DecidableEq

/-- The exception class of the error indicator: an attribute of the module `katana`, or
`PyExc_RuntimeError`. -/
inductive ErrorType (Obj : Type) where
  | attribute (cls : Obj)
  | runtimeError
deriving DecidableEq

/-- The error that `eas` carries when the class could not be found. -/
inductive LookupError where
  | importFailed
  | noAttribute
deriving DecidableEq

/-- The Python error indicator: the exception class, the message, and the error it was
raised from (`raise_from`), if any. -/
structure PyError (Obj : Type) where
  type : ErrorType Obj
  message : String
  cause : Option LookupError
deriving DecidableEq

/-- Embedding of `cast_if_needed` (lines 11-15); `pybind11::cast` belongs to pybind11 and is
the parameter `toPython`. -/
def cast_if_needed {T Obj : Type} (toPython : T → Obj) (v : T) : Obj :=
  toPython v

/-- Embedding of the specialization of `cast_if_needed` for `pybind11::object`
(lines 17-22). -/
def cast_if_needed_object {Obj : Type} (v : Obj) : Obj :=
  v

/-- Embedding of `type_caster<katana::Result<T>>::load` (lines 32-35). -/
def type_caster.load : Bool :=
  false

/-- Embedding of `type_caster<katana::Result<T>>::cast` (lines 37-61).  `katana` is the
result of importing the module `katana`: `none` when the import raises, else the lookup of
an attribute by name (`none` when the lookup raises). -/
def type_caster.cast {T Obj : Type} (toPython : T → Obj)
    (katana : Option (String → Option Obj)) (src : Result T) : Except (PyError Obj) Obj :=
  match src with
  | .success value => .ok (cast_if_needed toPython value)
  | .failure error =>
    let ss := error.written
    let fallback (eas : LookupError) : PyError Obj :=
      { type := .runtimeError
        message := ss ++ " (error code category is " ++ error.categoryName ++
          " which does not have a custom exception class)"
        cause := some eas }
    match katana with
    | some katana_module =>
      match katana_module error.categoryName with
      | some error_type => .error { type := .attribute error_type, message := ss, cause := none }
      | none => .error (fallback .noAttribute)
    | none => .error (fallback .importFailed)

end ErrorHandling


/-!
# The system barrier (src/Barrier.cpp, lines 323-345)
-/

namespace Barrier

/-- The three function-local statics behind `getSystemBarrier`: `num`, the `TopoBarrier b`
of `getSystemBarrier` and the `StupidDistBarrier b` of `getDistBarrier`.  A static object
that has not been constructed yet, because control has not passed its declaration, is
`none`. -/
structure Statics where
  num : Nat
  topo : Option TopoBarrier
  dist : Option StupidDistBarrier
deriving DecidableEq

/-- The statics before the first call: `static unsigned num = ~0`. -/
def Statics.start : Statics :=
  ⟨2 ^ 32 - 1, none, none⟩

/-- Thread `i` can be reached from thread 0 by following wake-up pointers: thread 0 is
where the release starts, and a thread that has been reached writes through each of its
`childpointers` that is not null (lines 139-144 of `MCSBarrier::wait`). -/
inductive MCSBarrier.Reachable (nodes : List MCSBarrier.treenode) : Nat → Prop where
  | root : MCSBarrier.Reachable nodes 0
  | child (q k i : Nat) : MCSBarrier.Reachable nodes q →
      (nodes.getD q MCSBarrier.noNode).childpointers.getD k none = some i →
      MCSBarrier.Reachable nodes i

end Barrier

/-!
# Relaxation of an edge in the SSSP tutorial (SSSPsimple.cpp, lines 41-67)
-/

namespace SSSPsimple

/-- The global `graph`: the distance of every node (`graph.getData`), and for every node
its outgoing edges, each with its destination (`getEdgeDst`) and its weight
(`getEdgeData`). -/
structure Graph where
  data : List Nat
  edges : List (List (Nat × Nat))
deriving DecidableEq

/-- Embedding of `relax_edge` (lines 41-53): the edge `ii` is the pair of its destination
and its weight, `ctx` holds the requests pushed so far, most recent last.  The sum is an
`unsigned` sum. -/
def relax_edge (graph : Graph) (src_data : Nat) (ii : Nat × Nat) (ctx : List UpdateRequest) :
    Graph × List UpdateRequest :=
  let dst := ii.1
  let edge_data := ii.2
  let dst_data := graph.data.getD dst 0
  let newDist := Barrier.u32 (src_data + edge_data)
  if newDist < dst_data then
    ({ graph with data := graph.data.set dst newDist }, ctx ++ [(newDist, dst)])
  else
    (graph, ctx)

/-- Embedding of `SSSP::operator()` (lines 56-67).  `data` is a reference: every call of
`relax_edge` reads the distance of the active node as it is then. -/
def SSSP.operator (graph : Graph) (req : UpdateRequest) (ctx : List UpdateRequest) :
    Graph × List UpdateRequest :=
  let active_node := req.2
  if req.1 > graph.data.getD active_node 0 then
    (graph, ctx)
  else
    (graph.edges.getD active_node []).foldl
      (fun s ii => relax_edge s.1 (s.1.data.getD active_node 0) ii s.2) (graph, ctx)

/-- A graph of three nodes: node 0 at distance 0, the others at `DIST_INFINITY`. -/
def smallGraph : Graph :=
  ⟨[0, 4294967295, 4294967295], [[(1, 5), (2, 9)], [(2, 3)], []]⟩

end SSSPsimple

/-!
# Tracing (exp/src/Tracer.cpp)

The state is that of one host.  A `void*` is the address it holds.
-/

namespace Tracer

/-- The arguments of one call of `gDebug`: one line of diagnostic output. -/
inductive Line where
  | SEND (src remote owner ptr : Nat) (v : Int)
  | RECV (src owner ptr : Nat) (v : Int)
  | REQS (src dest reqFor owner ptr : Nat)
  | REQR (src reqFor owner ptr : Nat)
  | BCast (host source : Nat)
  | Starting (host : Nat) (name : String)
  | Stopping (host : Nat) (name : String)
deriving DecidableEq

/-- A call of one of the seven `_do` functions with its arguments: what `sendAlt` carries
to the receiving host. -/
inductive Call where
  | trace_obj_send_do (src owner ptr remote : Nat)
  | trace_obj_recv_do (src owner ptr : Nat)
  | trace_req_send_do (src owner ptr dest reqFor : Nat)
  | trace_req_recv_do (src owner ptr reqFor : Nat)
  | trace_bcast_recv_do (host source : Nat)
  | trace_loop_start_do (host : Nat) (name : String)
  | trace_loop_end_do (host : Nat) (name : String)
deriving DecidableEq

/-- The globals `doTrace` and `count` of one host, the lines it has logged and the
messages it has handed to the network (destination and call), both oldest first. -/
structure State where
  doTrace : Bool
  count : Int
  log : List Line
  sent : List (Nat × Call)
deriving DecidableEq

/-- The state at program start: `bool doTrace = true`, `static int count`. -/
def State.start : State :=
  ⟨true, 0, [], []⟩

/-- Modelled from the spec: `gDebug`, declared in `gio.h`, which is not among the sources
("optional diagnostic logging of send/receive/broadcast events"): the line is appended to
the log of the host. -/
def gDebug (l : Line) (s : State) : State :=
  { s with log := s.log ++ [l] }

/-- Modelled from the spec: `NetworkInterface::sendAlt`, declared in `Network.h`, which is
not among the sources ("reliable point-to-point send"): the call is handed to the network
for the host `dest`, where it will run. -/
def sendAlt (dest : Nat) (c : Call) (s : State) : State :=
  { s with sent := s.sent ++ [(dest, c)] }

/-- Embedding of `setTraceImpl` (lines 39-41). -/
def setTraceImpl (v : Bool) (s : State) : State :=
  { s with doTrace := v }

/-- Embedding of `trace_obj_send_do` (lines 52-55). -/
def trace_obj_send_do (src owner ptr remote : Nat) (s : State) : State :=
  let v := Barrier.i32 (s.count + 1)
  gDebug (.SEND src remote owner ptr v) { s with count := v }

/-- Embedding of `trace_obj_recv_do` (lines 57-60). -/
def trace_obj_recv_do (src owner ptr : Nat) (s : State) : State :=
  let v := Barrier.i32 (s.count - 1)
  gDebug (.RECV src owner ptr v) { s with count := v }

/-- Embedding of `trace_req_send_do` (lines 62-64). -/
def trace_req_send_do (src owner ptr dest reqFor : Nat) (s : State) : State :=
  gDebug (.REQS src dest reqFor owner ptr) s

/-- Embedding of `trace_req_recv_do` (lines 66-68). -/
def trace_req_recv_do (src owner ptr reqFor : Nat) (s : State) : State :=
  gDebug (.REQR src reqFor owner ptr) s

/-- Embedding of `trace_bcast_recv_do` (lines 70-72). -/
def trace_bcast_recv_do (host source : Nat) (s : State) : State :=
  gDebug (.BCast host source) s

/-- Embedding of `trace_loop_start_do` (lines 74-76). -/
def trace_loop_start_do (host : Nat) (name : String) (s : State) : State :=
  gDebug (.Starting host name) s

/-- Embedding of `trace_loop_end_do` (lines 78-80). -/
def trace_loop_end_do (host : Nat) (name : String) (s : State) : State :=
  gDebug (.Stopping host name) s

/-- The call that a message carries, run on the host that receives it. -/
def Call.run : Call → State → State
  | .trace_obj_send_do src owner ptr remote => Tracer.trace_obj_send_do src owner ptr remote
  | .trace_obj_recv_do src owner ptr => Tracer.trace_obj_recv_do src owner ptr
  | .trace_req_send_do src owner ptr dest reqFor => Tracer.trace_req_send_do src owner ptr dest reqFor
  | .trace_req_recv_do src owner ptr reqFor => Tracer.trace_req_recv_do src owner ptr reqFor
  | .trace_bcast_recv_do host source => Tracer.trace_bcast_recv_do host source
  | .trace_loop_start_do host name => Tracer.trace_loop_start_do host name
  | .trace_loop_end_do host name => Tracer.trace_loop_end_do host name

/-- Embedding of `trace_obj_send_impl` (lines 85-93).  `networkHostID` is the global of that
name, `traceLocal` the constant read from `GALOIS_TRACE_LOCAL`. -/
def trace_obj_send_impl (networkHostID : Nat) (traceLocal : Bool) (owner ptr remote : Nat)
    (s : State) : State :=
  if s.doTrace then
    if networkHostID = 0 ∨ traceLocal then
      trace_obj_send_do networkHostID owner ptr remote s
    else
      sendAlt 0 (.trace_obj_send_do networkHostID owner ptr remote) s
  else s

/-- Embedding of `trace_obj_recv_impl` (lines 95-103). -/
def trace_obj_recv_impl (networkHostID : Nat) (traceLocal : Bool) (owner ptr : Nat)
    (s : State) : State :=
  if s.doTrace then
    if networkHostID = 0 ∨ traceLocal then
      trace_obj_recv_do networkHostID owner ptr s
    else
      sendAlt 0 (.trace_obj_recv_do networkHostID owner ptr) s
  else s

/-- Embedding of `trace_req_send_impl` (lines 105-113). -/
def trace_req_send_impl (networkHostID : Nat) (traceLocal : Bool)
    (owner ptr dest reqFor : Nat) (s : State) : State :=
  if s.doTrace then
    if networkHostID = 0 ∨ traceLocal then
      trace_req_send_do networkHostID owner ptr dest reqFor s
    else
      sendAlt 0 (.trace_req_send_do networkHostID owner ptr dest reqFor) s
  else s

/-- Embedding of `trace_req_recv_impl` (lines 115-123). -/
def trace_req_recv_impl (networkHostID : Nat) (traceLocal : Bool) (owner ptr reqFor : Nat)
    (s : State) : State :=
  if s.doTrace then
    if networkHostID = 0 ∨ traceLocal then
      trace_req_recv_do networkHostID owner ptr reqFor s
    else
      sendAlt 0 (.trace_req_recv_do networkHostID owner ptr reqFor) s
  else s

/-- Embedding of `trace_bcast_recv_impl` (lines 125-133). -/
def trace_bcast_recv_impl (networkHostID : Nat) (traceLocal : Bool) (source : Nat)
    (s : State) : State :=
  if s.doTrace then
    if networkHostID = 0 ∨ traceLocal then
      trace_bcast_recv_do networkHostID source s
    else
      sendAlt 0 (.trace_bcast_recv_do networkHostID source) s
  else s

/-- Embedding of `trace_loop_start_impl` (lines 135-143). -/
def trace_loop_start_impl (networkHostID : Nat) (traceLocal : Bool) (name : String)
    (s : State) : State :=
  if s.doTrace then
    if networkHostID = 0 ∨ traceLocal then
      trace_loop_start_do networkHostID name s
    else
      sendAlt 0 (.trace_loop_start_do networkHostID name) s
  else s

/-- Embedding of `trace_loop_end_impl` (lines 145-153). -/
def trace_loop_end_impl (networkHostID : Nat) (traceLocal : Bool) (name : String)
    (s : State) : State :=
  if s.doTrace then
    if networkHostID = 0 ∨ traceLocal then
      trace_loop_end_do networkHostID name s
    else
      sendAlt 0 (.trace_loop_end_do networkHostID name) s
  else s

/-- A trace event as a caller raises it: one of the seven `_impl` functions with its
arguments. -/
inductive Event where
  | obj_send (owner ptr remote : Nat)
  | obj_recv (owner ptr : Nat)
  | req_send (owner ptr dest reqFor : Nat)
  | req_recv (owner ptr reqFor : Nat)
  | bcast_recv (source : Nat)
  | loop_start (name : String)
  | loop_end (name : String)
deriving DecidableEq

/-- The `_impl` function of an event, applied to its arguments. -/
def Event.impl (networkHostID : Nat) (traceLocal : Bool) : Event → State → State
  | .obj_send owner ptr remote => trace_obj_send_impl networkHostID traceLocal owner ptr remote
  | .obj_recv owner ptr => trace_obj_recv_impl networkHostID traceLocal owner ptr
  | .req_send owner ptr dest reqFor =>
    trace_req_send_impl networkHostID traceLocal owner ptr dest reqFor
  | .req_recv owner ptr reqFor => trace_req_recv_impl networkHostID traceLocal owner ptr reqFor
  | .bcast_recv source => trace_bcast_recv_impl networkHostID traceLocal source
  | .loop_start name => trace_loop_start_impl networkHostID traceLocal name
  | .loop_end name => trace_loop_end_impl networkHostID traceLocal name

/-- The `_do` call that the `_impl` function of an event makes or forwards. -/
def Event.call (networkHostID : Nat) : Event → Call
  | .obj_send owner ptr remote => .trace_obj_send_do networkHostID owner ptr remote
  | .obj_recv owner ptr => .trace_obj_recv_do networkHostID owner ptr
  | .req_send owner ptr dest reqFor => .trace_req_send_do networkHostID owner ptr dest reqFor
  | .req_recv owner ptr reqFor => .trace_req_recv_do networkHostID owner ptr reqFor
  | .bcast_recv source => .trace_bcast_recv_do networkHostID source
  | .loop_start name => .trace_loop_start_do networkHostID name
  | .loop_end name => .trace_loop_end_do networkHostID name

end Tracer

/-!
# The Python binding of `EntityTypeManager` (libkatana_python_native, EntityTypeManager.cpp)

A pointer to a manager is the address of the manager.  A thrown `py::value_error` is the
result `Except.error`, which carries the message.
-/

namespace EntityTypeManager

/-- The record `EntityType` (lines 14-30): the manager that owns the type, and its id. -/
structure EntityType where
  owner : Nat
  type_id : Nat
deriving DecidableEq

/-- Embedding of `EntityType::operator==` (lines 18-20). -/
def EntityType.eq (a other : EntityType) : Bool :=
  a.owner = other.owner && a.type_id = other.type_id

/-- Embedding of the overload of `is_subtype_of` that takes `EntityType` objects
(lines 66-76).  `IsSubtypeOf` is `katana::EntityTypeManager::IsSubtypeOf`, declared outside
the sources: applied to a manager and two type ids. -/
def is_subtype_of (IsSubtypeOf : Nat → Nat → Nat → Bool) (self : Nat)
    (sub_type super_type : EntityType) : Except String Bool :=
  if sub_type.owner ≠ self ∨ super_type.owner ≠ self then
    .error "EntityTypes must be owned by self."
  else
    .ok (IsSubtypeOf self sub_type.type_id super_type.type_id)

/-- Embedding of the overload of `is_subtype_of` that takes type ids (lines 77-82). -/
def is_subtype_of_id (IsSubtypeOf : Nat → Nat → Nat → Bool) (self : Nat)
    (sub_type super_type : Nat) : Bool :=
  IsSubtypeOf self sub_type super_type

/-- A subtype relation for the witnesses: on every manager, type `a` is a subtype of `b`
when `b` divides `a`. -/
def divides (_self a b : Nat) : Bool :=
  a % b = 0

end EntityTypeManager

namespace PrBcOpt

/-- The order in which `reduce` prefers indices: index `a` comes before index `b` when the
pair (stored distance, index) of `a` is smaller than that of `b`, the pairs being compared
first by distance and then by index. -/
abbrev precedes (minDistances : List Nat) (a b : Nat) : Prop :=
  minDistances.getD a 0 < minDistances.getD b 0 ∨
    (minDistances.getD a 0 = minDistances.getD b 0 ∧ a < b)

/-- The sum of the path counts received for index `k`, whatever their distance. -/
def receivedCount (k : Nat) (ys : List TupleOfThree) : Nat :=
  ((ys.filter (fun y => y.first = k)).map (fun y => y.third)).sum

/-- A master at the start of a round: no index chosen, both sources unreached. -/
def unreachedNode : NodeData Int :=
  { minDistances := [1073741823, 1073741823]
    shortestPathNumbers := [0, 0]
    dependencyValues := [0, 0]
    sentFlag := [false, false]
    roundIndexToSend := 1073741823 }

end PrBcOpt

/-!
# Residual PageRank, generated distributed version (loopTransform.cpp)

* `float` values are elements of an arbitrary type `F`; the operations on them that the
  code uses are the fields of `FloatOps`.
* `galois::for_each` applies the operator once to every node of the range, the operator
  pushing no work; the applications are taken one after the other, in the order of a
  schedule.
* One host is modelled.  What the other hosts contribute to a round, through `sync_push`
  and through the accumulator, is a parameter of the round.
-/

namespace LoopTransform

/-- The operations on `float` that the operators use. -/
structure FloatOps (F : Type) where
  zero : F
  add : F → F → F
  mul : F → F → F
  div : F → Nat → F
  gt : F → F → Bool

/-- The record `PR_NodeData` (lines 76-80). -/
structure PR_NodeData (F : Type) where
  value : F
  residual : F
  nout : Nat

/-- The local graph: the data of every node and, for every node, the destinations of its
outgoing edges. -/
structure Graph (F : Type) where
  data : List (PR_NodeData F)
  edges : List (List Nat)

section Operators

variable {F : Type}

/-- The data of a node; outside the graph, which the source never reads, a node of zeros. -/
def Graph.getData (ops : FloatOps F) (graph : Graph F) (n : Nat) : PR_NodeData F :=
  graph.data.getD n ⟨ops.zero, ops.zero, 0⟩

/-- Modelled from the spec: `galois::atomicAdd` on the residual of node `dst`, whose header
is not among the sources ("atomic add" in the spec). -/
def atomicAddResidual (ops : FloatOps F) (graph : Graph F) (dst : Nat) (delta : F) :
    Graph F :=
  { graph with
    data := graph.data.set dst
      { Graph.getData ops graph dst with
        residual := ops.add (Graph.getData ops graph dst).residual delta } }

/-- Embedding of `FirstItr_PageRank::operator()` (lines 183-199). -/
def FirstItr_PageRank.operator (ops : FloatOps F) (local_alpha : F) (graph : Graph F)
    (src : Nat) : Graph F :=
  let sdata := Graph.getData ops graph src
  let residual_old := sdata.residual
  let sdata1 : PR_NodeData F :=
    { sdata with residual := ops.zero, value := ops.add sdata.value residual_old }
  let graph1 : Graph F := { graph with data := graph.data.set src sdata1 }
  if sdata1.nout > 0 then
    let delta := ops.div (ops.mul residual_old local_alpha) sdata1.nout
    (graph.edges.getD src []).foldl (fun g dst => atomicAddResidual ops g dst delta) graph1
  else
    graph1

/-- Modelled from the spec: `galois::DGAccumulator<int>`, whose header is not among the
sources ("an external accumulator pattern (e.g., did any operator perform work this round)
reaching zero across all hosts"): the value accumulated on this host. -/
structure DGAccumulator where
  mdata : Int
deriving DecidableEq

/-- Modelled from the spec: `DGAccumulator::reset`. -/
def DGAccumulator.reset (_a : DGAccumulator) : DGAccumulator :=
  ⟨0⟩

/-- Modelled from the spec: `DGAccumulator::operator+=`, an `int` addition. -/
def DGAccumulator.add (a : DGAccumulator) (v : Int) : DGAccumulator :=
  ⟨Barrier.i32 (a.mdata + v)⟩

/-- Modelled from the spec: `DGAccumulator::reduce`, the sum of the values accumulated on
all hosts; `others` is the sum over the other hosts. -/
def DGAccumulator.reduce (a : DGAccumulator) (others : Int) : Int :=
  Barrier.i32 (a.mdata + others)

/-- Embedding of `PageRank::operator()` (lines 252-273): the graph and the accumulator
after the call. -/
def PageRank.operator (ops : FloatOps F) (local_tolerance local_alpha : F)
    (graph : Graph F) (accum : DGAccumulator) (src : Nat) : Graph F × DGAccumulator :=
  let sdata := Graph.getData ops graph src
  if ops.gt sdata.residual local_tolerance then
    let residual_old := sdata.residual
    let sdata1 : PR_NodeData F :=
      { sdata with residual := ops.zero, value := ops.add sdata.value residual_old }
    let graph1 : Graph F := { graph with data := graph.data.set src sdata1 }
    if sdata1.nout > 0 then
      let delta := ops.div (ops.mul residual_old local_alpha) sdata1.nout
      let accum1 := accum.add 1
      ((graph.edges.getD src []).foldl (fun g dst => atomicAddResidual ops g dst delta) graph1,
        accum1)
    else
      (graph1, accum)
  else
    (graph, accum)

/-- What the rest of the system contributes to round `r` on this host: the order in which
`for_each` applies the operator to the nodes, the effect of `sync_push` on the local graph
(`DistGraph` is not among the sources), and the sum of the accumulators of the other
hosts. -/
structure Environment (F : Type) where
  schedule : Nat → List Nat
  sync_push : Nat → Graph F → Graph F
  others : Nat → Int

/-- The call of `galois::for_each` in `PageRank::go` (line 245). -/
def PageRank.for_each (ops : FloatOps F) (tolerance alpha : F) (graph : Graph F)
    (accum : DGAccumulator) (schedule : List Nat) : Graph F × DGAccumulator :=
  schedule.foldl (fun s src => PageRank.operator ops tolerance alpha s.1 s.2 src) (graph, accum)

/-- The body of the `do` loop of `PageRank::go` (lines 212-246) in round `r`, followed by
the evaluation of its condition `DGAccumulator_accum.reduce()` (line 247): the graph and
the accumulator after the round, and the value of `reduce()`. -/
def PageRank.round (ops : FloatOps F) (tolerance alpha : F) (env : Environment F) (r : Nat)
    (graph : Graph F) (accum : DGAccumulator) : Graph F × DGAccumulator × Int :=
  let accum0 := accum.reset
  let s := PageRank.for_each ops tolerance alpha graph accum0 (env.schedule r)
  let graph1 := env.sync_push r s.1
  (graph1, s.2, s.2.reduce (env.others r))

/-- The `do ... while` loop of `PageRank::go` (lines 211-247), from round `r` on.  The
result is the graph and the accumulator after the loop and the number of the round after
the last one; `none` when the loop has not ended within `fuel` rounds. -/
def PageRank.loop (ops : FloatOps F) (tolerance alpha : F) (env : Environment F) :
    Nat → Nat → Graph F → DGAccumulator → Option (Graph F × DGAccumulator × Nat)
  | 0, _, _, _ => none
  | fuel + 1, r, graph, accum =>
    let s := PageRank.round ops tolerance alpha env r graph accum
    if s.2.2 ≠ 0 then PageRank.loop ops tolerance alpha env fuel (r + 1) s.1 s.2.1
    else some (s.1, s.2.1, r + 1)

/-- Embedding of `FirstItr_PageRank::go` (lines 149-182); `first` is the order in which
`for_each` applies the operator, `sync_first` the effect of `sync_push`. -/
def FirstItr_PageRank.go (ops : FloatOps F) (alpha : F) (first : List Nat)
    (sync_first : Graph F → Graph F) (graph : Graph F) : Graph F :=
  sync_first (first.foldl (fun g src => FirstItr_PageRank.operator ops alpha g src) graph)

/-- Embedding of `PageRank::go` (lines 208-249). -/
def PageRank.go (ops : FloatOps F) (tolerance alpha : F) (first : List Nat)
    (sync_first : Graph F → Graph F) (env : Environment F) (fuel : Nat) (graph : Graph F)
    (accum : DGAccumulator) : Option (Graph F × DGAccumulator × Nat) :=
  PageRank.loop ops tolerance alpha env fuel 0
    (FirstItr_PageRank.go ops alpha first sync_first graph) accum

/-- The graph and the accumulator at the start of round `r` of the loop that starts from
`graph` and `accum`, should the loop get that far. -/
def PageRank.atRound (ops : FloatOps F) (tolerance alpha : F) (env : Environment F)
    (graph : Graph F) (accum : DGAccumulator) : Nat → Graph F × DGAccumulator
  | 0 => (graph, accum)
  | r + 1 =>
    let s := PageRank.atRound ops tolerance alpha env graph accum r
    let t := PageRank.round ops tolerance alpha env r s.1 s.2
    (t.1, t.2.1)

/-- The nodes that perform propagation work when the operator is applied in the order of
`schedule`, starting from `graph`: those whose residual exceeds the tolerance and whose
`nout` is positive at the moment the operator is applied to them. -/
def PageRank.propagating (ops : FloatOps F) (tolerance alpha : F) :
    Graph F → List Nat → List Nat
  | _, [] => []
  | graph, src :: rest =>
    (if ops.gt (Graph.getData ops graph src).residual tolerance = true ∧
        (Graph.getData ops graph src).nout > 0 then [src] else []) ++
      PageRank.propagating ops tolerance alpha
        (PageRank.operator ops tolerance alpha graph ⟨0⟩ src).1 rest

/-- The nodes of this host that perform propagation work in round `r` of the loop that
starts from `graph` and `accum`. -/
def PageRank.workers (ops : FloatOps F) (tolerance alpha : F) (env : Environment F)
    (graph : Graph F) (accum : DGAccumulator) (r : Nat) : List Nat :=
  PageRank.propagating ops tolerance alpha
    (PageRank.atRound ops tolerance alpha env graph accum r).1 (env.schedule r)

end Operators

/-- Integers in place of `float`, for the witnesses. -/
def intOps : FloatOps Int :=
  ⟨0, fun a b => a + b, fun a b => a * b, fun a n => a / n, fun a b => decide (a > b)⟩

/-- A graph of three nodes with the edges 0 -> 1, 0 -> 2, 1 -> 0 and 1 -> 2; node 0 holds a
residual. -/
def threeNodes : Graph Int :=
  ⟨[⟨0, 8, 2⟩, ⟨0, 0, 2⟩, ⟨0, 0, 0⟩], [[1, 2], [0, 2], []]⟩

/-- One host on its own: every round visits the nodes 0, 1, 2 in this order, `sync_push`
has nothing to exchange, and there are no other accumulators. -/
def alone : Environment Int :=
  ⟨fun _ => [0, 1, 2], fun _ g => g, fun _ => 0⟩

end LoopTransform

/-!
# The top of the ranking (lonestar/pagerank/PageRank-push.cpp, lines 74-128)

* The `float` values of the keys are elements of a linearly ordered type `V`: `==` and `<`
  are the comparisons of floats none of which is a NaN.
* The `double` values of the nodes are elements of a type `D`; the two operations that turn
  them into keys are the fields of `Normalize`.
* A `std::map` is the list of its entries in the order of its keys, least first.
-/

namespace PageRankPush

/-- The record `TopPair` (lines 74-86). -/
structure TopPair (V : Type) where
  value : V
  id : Nat
deriving DecidableEq

/-- The operations of `printTop` on values: `sum += n.value` and `n.value / sum`. -/
structure Normalize (D V : Type) where
  zero : V
  add : V → D → V
  div : D → V → V

/-- The values of `float` under comparison: a value is NaN, for which `number` gives
`none`, or it is a number, and `number` gives its place among the numbers (one and the same
place for the two zeros). -/
structure FloatOrder (V R : Type) where
  number : V → Option R

section Top

variable {D V R : Type} [LinearOrder R]

/-- The comparison `==` of `float`: false when an operand is NaN. -/
def FloatOrder.eq (fo : FloatOrder V R) (a b : V) : Bool :=
  match fo.number a, fo.number b with
  | some x, some y => decide (x = y)
  | _, _ => false

/-- The comparison `<` of `float`: false when an operand is NaN. -/
def FloatOrder.lt (fo : FloatOrder V R) (a b : V) : Bool :=
  match fo.number a, fo.number b with
  | some x, some y => decide (x < y)
  | _, _ => false

/-- Embedding of `TopPair::operator<` (lines 81-85). -/
def TopPair.lt (fo : FloatOrder V R) (a b : TopPair V) : Bool :=
  if fo.eq a.value b.value then decide (a.id > b.id) else fo.lt a.value b.value

/-- The member `insert` of `std::map<Pair, GNode>`: the entry is put at its place in the
order of the keys, unless the search meets an entry whose key is equivalent to the new key
(neither is less than the other), in which case the map is left as it is. -/
def Top.insert (fo : FloatOrder V R) (kv : TopPair V × Nat) :
    List (TopPair V × Nat) → List (TopPair V × Nat)
  | [] => [kv]
  | e :: rest =>
    if kv.1.lt fo e.1 then kv :: e :: rest
    else if e.1.lt fo kv.1 then e :: Top.insert fo kv rest
    else e :: rest

/-- The body of the selection loop of `printTop` (lines 104-118) for the node `src` with
the normalized value `value`.  `none` is the dereference of `top.begin()` on an empty
map. -/
def printTop.step (fo : FloatOrder V R) (topn : Int) (top : List (TopPair V × Nat))
    (value : V) (src : Nat) : Option (List (TopPair V × Nat)) :=
  let key : TopPair V := ⟨value, src⟩
  if Barrier.i32 top.length < topn then
    some (Top.insert fo (key, src) top)
  else
    match top with
    | [] => none
    | b :: rest =>
      if b.1.lt fo key then some (Top.insert fo (key, src) rest)
      else some (b :: rest)

/-- The selection loop of `printTop` over the nodes `src`, `src + 1`, ... whose values are
`values`. -/
def printTop.select (fo : FloatOrder V R) (nz : Normalize D V) (topn : Int) (sum : V) :
    List (TopPair V × Nat) → Nat → List D → Option (List (TopPair V × Nat))
  | top, _, [] => some top
  | top, src, n :: rest =>
    match printTop.step fo topn top (nz.div n sum) src with
    | none => none
    | some top1 => printTop.select fo nz topn sum top1 (src + 1) rest

/-- The first loop of `printTop` (lines 96-100): the sum of the values. -/
def printTop.sum (nz : Normalize D V) (graph : List D) : V :=
  graph.foldl (fun sum n => nz.add sum n) nz.zero

/-- The map `top` after the selection loop of `printTop`; the graph is the list of the
values of its nodes, node `i` being the `i`-th. -/
def printTop.top (fo : FloatOrder V R) (nz : Normalize D V) (graph : List D) (topn : Int) :
    Option (List (TopPair V × Nat)) :=
  printTop.select fo nz topn (printTop.sum nz graph) [] 0 graph

/-- Embedding of `printTop` (lines 88-128): the lines printed after the header, each with
its rank, value and id. -/
def printTop (fo : FloatOrder V R) (nz : Normalize D V) (graph : List D) (topn : Int) :
    Option (List (Nat × V × Nat)) :=
  match printTop.top fo nz graph topn with
  | none => none
  | some top => some ((top.reverse.enumFrom 1).map fun e => (e.1, e.2.1.value, e.2.1.id))

/-- The keys of the nodes `src`, `src + 1`, ... with the values `values`, normalized by
`sum`, each with the node it belongs to. -/
def keysFrom (nz : Normalize D V) (sum : V) : Nat → List D → List (TopPair V × Nat)
  | _, [] => []
  | src, n :: rest => (⟨nz.div n sum, src⟩, src) :: keysFrom nz sum (src + 1) rest

/-- The keys of all nodes of the graph. -/
def keys (nz : Normalize D V) (graph : List D) : List (TopPair V × Nat) :=
  keysFrom nz (printTop.sum nz graph) 0 graph

/-- What the selection loop of `printTop` keeps true when no value is NaN, `seen` being the
keys of the nodes visited so far and `src` the next node: the map is in the order of its
keys; its entries are keys that have been seen; the ids seen are below `src` and the values
seen are numbers; the map holds `topn` entries, or all that have been seen if these are
fewer; and a key that has been seen and is not in the map is less than every key of the
map, which is then full. -/
def printTop.Invariant (fo : FloatOrder V R) (topn : Int)
    (top seen : List (TopPair V × Nat)) (src : Nat) : Prop :=
  top.Pairwise (fun a b => a.1.lt fo b.1 = true) ∧
  (∀ e ∈ top, e ∈ seen) ∧
  (∀ e ∈ seen, e.1.id < src ∧ fo.number e.1.value ≠ none) ∧
  (top.length : Int) = min topn (seen.length : Int) ∧
  (∀ k ∈ seen, k ∈ top ∨ ((top.length : Int) = topn ∧ ∀ e ∈ top, k.1.lt fo e.1 = true))

end Top

/-- Values for the examples, in place of `float`: NaN, an infinity, or a rational
number. -/
inductive Sample where
  | nan
  | inf (negative : Bool)
  | fin (q : Rat)
deriving DecidableEq

/-- The place of a sample value among the numbers. -/
def sampleOrder : FloatOrder Sample (WithBot (WithTop Rat)) :=
  ⟨fun v =>
    match v with
    | .nan => none
    | .inf true => some ⊥
    | .inf false => some ((⊤ : WithTop Rat) : WithBot (WithTop Rat))
    | .fin q => some ((q : WithTop Rat) : WithBot (WithTop Rat))⟩

/-- The sum and the quotient of the examples, the node values being rational: a sum with
NaN is NaN and a sum with an infinity is that infinity; `0 / 0` is NaN, another value
divided by zero is an infinity, a value divided by an infinity is zero, and a quotient by
NaN is NaN. -/
def sampleOps : Normalize Rat Sample :=
  ⟨.fin 0,
    fun a d =>
      match a with
      | .nan => .nan
      | .inf b => .inf b
      | .fin q => .fin (q + d),
    fun d a =>
      match a with
      | .nan => .nan
      | .inf _ => .fin 0
      | .fin q =>
        if q = 0 then (if d = 0 then .nan else .inf (decide (d < 0))) else .fin (d / q)⟩

end PageRankPush
namespace PrBcOpt

/-! ### Lemmas on `APSPReduce::reduce` -/

section Lemmas

variable {F : Type}

theorem select_returned {cfg : Config} {node node' : NodeData F} {r : Nat} {b : Bool}
    (h : APSPReduce.select cfg node r = .returned b node') :
    b = true ∧ node'.minDistances = node.minDistances ∧
      node'.shortestPathNumbers = node.shortestPathNumbers ∧
      node'.dependencyValues = node.dependencyValues ∧
      node'.sentFlag = node.sentFlag ∧
      (node'.roundIndexToSend = r ∨ node'.roundIndexToSend = node.roundIndexToSend) := by
  unfold APSPReduce.select at h
  split_ifs at h <;> simp at h <;> obtain ⟨rfl, rfl⟩ := h <;> simp

theorem select_not_aborted {cfg : Config} {node : NodeData F} {r : Nat}
    (hf : node.sentFlag.getD r false = false) :
    ∃ node', APSPReduce.select cfg node r = .returned true node' := by
  unfold APSPReduce.select
  split_ifs <;> simp_all

theorem reduce_returned {cfg : Config} {node node' : NodeData F} {y : TupleOfThree} {b : Bool}
    (h : APSPReduce.reduce cfg node y = .returned b node') (hy : y.first ≠ cfg.infinity) :
    b = true ∧
      node'.minDistances =
        node.minDistances.set y.first (min (node.minDistances.getD y.first 0) y.second) ∧
      node'.shortestPathNumbers =
        (if node.minDistances.getD y.first 0 > y.second then
          node.shortestPathNumbers.set y.first y.third
        else if node.minDistances.getD y.first 0 = y.second then
          node.shortestPathNumbers.set y.first
            ((node.shortestPathNumbers.getD y.first 0 + y.third) % 2 ^ cfg.pathBits)
        else node.shortestPathNumbers) ∧
      node'.dependencyValues = node.dependencyValues ∧
      node'.sentFlag = node.sentFlag := by
  unfold APSPReduce.reduce at h
  simp only [hy, ne_eq, not_false_eq_true, if_true, galois.min] at h
  have hmin : (if node.minDistances.getD y.first 0 > y.second then y.second
      else node.minDistances.getD y.first 0) = min (node.minDistances.getD y.first 0) y.second := by
    split_ifs with h1
    · exact (Nat.min_eq_right (Nat.le_of_lt h1)).symm
    · exact (Nat.min_eq_left (Nat.le_of_not_lt h1)).symm
  rw [hmin] at h
  split_ifs at h with h1 h2 h3
  · obtain ⟨hb, h1', h2', h3', h4', -⟩ := select_returned h
    exact ⟨hb, h1', by rw [h2', if_pos h1], h3', h4'⟩
  · obtain ⟨hb, h1', h2', h3', h4', -⟩ := select_returned h
    exact ⟨hb, h1', by rw [h2', if_neg h1, if_pos h3], h3', h4'⟩
  · obtain ⟨hb, h1', h2', h3', h4', -⟩ := select_returned h
    exact ⟨hb, h1', by rw [h2', if_neg h1, if_neg h3], h3', h4'⟩


theorem select_returned_index {cfg : Config} {node node' : NodeData F} {r : Nat} {b : Bool}
    (h : APSPReduce.select cfg node r = .returned b node') :
    node'.roundIndexToSend =
      (if node.roundIndexToSend = cfg.infinity ∨
          node.minDistances.getD r 0 < node.minDistances.getD node.roundIndexToSend 0 then r
        else if node.minDistances.getD r 0 = node.minDistances.getD node.roundIndexToSend 0 ∧
          r < node.roundIndexToSend then r
        else node.roundIndexToSend) := by
  unfold APSPReduce.select at h
  split_ifs at h with h1 h2 h3 h4 h5
  · cases h; rw [if_pos h1]
  · cases h; rw [if_neg h1, if_pos ⟨h3, h4⟩]
  · cases h; rw [if_neg h1, if_neg (fun hh => h4 hh.2)]
  · cases h; rw [if_neg h1, if_neg (fun hh => h3 hh.1)]

theorem reduce_not_aborted (cfg : Config) (node : NodeData F) (y : TupleOfThree)
    (hc : y.third ≠ 0) (hf : node.sentFlag.getD y.first false = false) :
    ∃ b node', APSPReduce.reduce cfg node y = .returned b node' := by
  unfold APSPReduce.reduce
  by_cases hy : y.first = cfg.infinity
  · exact ⟨false, node, by simp [hy]⟩
  · simp only [hy, ne_eq, not_false_eq_true, if_true, hc, if_false]
    split_ifs
    all_goals
      exact ⟨true, select_not_aborted hf⟩

theorem reduce_returned_index {cfg : Config} {node node' : NodeData F} {y : TupleOfThree}
    {b : Bool} (h : APSPReduce.reduce cfg node y = .returned b node')
    (hy : y.first ≠ cfg.infinity) :
    node'.roundIndexToSend =
      (if node.roundIndexToSend = cfg.infinity ∨
          node'.minDistances.getD y.first 0 < node'.minDistances.getD node.roundIndexToSend 0
        then y.first
        else if node'.minDistances.getD y.first 0 =
            node'.minDistances.getD node.roundIndexToSend 0 ∧
          y.first < node.roundIndexToSend then y.first
        else node.roundIndexToSend) := by
  have hmd := (reduce_returned h hy).2.1
  unfold APSPReduce.reduce at h
  simp only [hy, ne_eq, not_false_eq_true, if_true] at h
  split_ifs at h with h1 h2 h3
  all_goals
    have hs := select_returned_index h
    have hm := (select_returned h).2.1
    rw [hm]
    exact hs


theorem getD_set_self {α : Type} (l : List α) (i : Nat) (v d : α) (h : i < l.length) :
    (l.set i v).getD i d = v := by
  simp [List.getD_eq_getElem?_getD, h]

theorem getD_set_ne {α : Type} (l : List α) (i j : Nat) (v d : α) (h : i ≠ j) :
    (l.set i v).getD j d = l.getD j d := by
  simp [List.getD_eq_getElem?_getD, List.getElem?_set_ne h]

theorem reduceAll_cons_returned {cfg : Config} {node node' : NodeData F} {y : TupleOfThree}
    {b : Bool} (h : APSPReduce.reduce cfg node y = .returned b node') (ys : List TupleOfThree) :
    APSPReduce.reduceAll cfg node (y :: ys) = APSPReduce.reduceAll cfg node' ys := by
  simp [APSPReduce.reduceAll, h]

theorem tie_break_pair {cfg : Config} (node : NodeData F) (a b d ca cb : Nat)
    (hinf : node.roundIndexToSend = cfg.infinity) (hab : a ≠ b)
    (ha : a ≠ cfg.infinity) (hb : b ≠ cfg.infinity)
    (hla : a < node.minDistances.length) (hlb : b < node.minDistances.length)
    (hfa : node.sentFlag.getD a false = false) (hfb : node.sentFlag.getD b false = false)
    (hda : d ≤ node.minDistances.getD a 0) (hdb : d ≤ node.minDistances.getD b 0)
    (hca : ca ≠ 0) (hcb : cb ≠ 0) :
    ∃ n, APSPReduce.reduceAll cfg node [⟨a, d, ca⟩, ⟨b, d, cb⟩] = .returned () n ∧
      n.roundIndexToSend = min a b ∧ n.minDistances.getD a 0 = d ∧
      n.minDistances.getD b 0 = d := by
  obtain ⟨b1, n1, h1⟩ := reduce_not_aborted cfg node ⟨a, d, ca⟩ hca hfa
  obtain ⟨-, hmd1, -, -, hsf1⟩ := reduce_returned h1 ha
  have hr1 := reduce_returned_index h1 ha
  simp only [hinf, true_or, if_true] at hr1
  simp only [Nat.min_eq_right hda] at hmd1
  obtain ⟨b2, n2, h2⟩ := reduce_not_aborted cfg n1 ⟨b, d, cb⟩ hcb
    (by rw [hsf1]; exact hfb)
  obtain ⟨-, hmd2, -, -, -⟩ := reduce_returned h2 hb
  have hr2 := reduce_returned_index h2 hb
  have hb1 : n1.minDistances.getD b 0 = node.minDistances.getD b 0 := by
    rw [hmd1]; exact getD_set_ne _ _ _ _ _ hab
  simp only [hb1, Nat.min_eq_right hdb] at hmd2
  have hgb : n2.minDistances.getD b 0 = d := by
    rw [hmd2]; exact getD_set_self _ _ _ _ (by rw [hmd1, List.length_set]; exact hlb)
  have hga : n2.minDistances.getD a 0 = d := by
    rw [hmd2, getD_set_ne _ _ _ _ _ (Ne.symm hab), hmd1]
    exact getD_set_self _ _ _ _ hla
  refine ⟨n2, ?_, ?_, hga, hgb⟩
  · rw [reduceAll_cons_returned h1, reduceAll_cons_returned h2]; rfl
  · rw [hr2, hr1]
    simp only [ha, false_or, hgb, hga, lt_irrefl, if_false, true_and]
    split_ifs with hlt
    · exact (Nat.min_eq_right (Nat.le_of_lt hlt)).symm
    · exact (Nat.min_eq_left (Nat.le_of_not_lt hlt)).symm


theorem minOver_le_init (init : Nat) (ds : List Nat) : minOver init ds ≤ init := by
  induction ds generalizing init with
  | nil => exact Nat.le_refl _
  | cons d ds ih =>
    exact Nat.le_trans (ih (min init d)) (Nat.min_le_left _ _)

theorem minOver_perm {ds ds' : List Nat} (h : ds.Perm ds') (init : Nat) :
    minOver init ds = minOver init ds' := by
  unfold minOver
  induction h generalizing init with
  | nil => rfl
  | cons x _ ih => exact ih (min init x)
  | swap x y l =>
    simp only [List.foldl_cons]
    rw [Nat.min_assoc, Nat.min_comm y x, ← Nat.min_assoc]
  | trans _ _ ih1 ih2 => exact (ih1 init).trans (ih2 init)

theorem getD_set_min (l : List Nat) (k v : Nat) :
    (l.set k (min (l.getD k 0) v)).getD k 0 = min (l.getD k 0) v := by
  by_cases h : k < l.length
  · exact getD_set_self _ _ _ _ h
  · have hk : l.length ≤ k := Nat.le_of_not_lt h
    rw [List.set_eq_of_length_le hk, List.getD_eq_default _ _ hk]
    exact (Nat.zero_min _).symm

theorem reduce_slot_minDistances {cfg : Config} {node node' : NodeData F} {y : TupleOfThree}
    {b : Bool} (h : APSPReduce.reduce cfg node y = .returned b node')
    (hy : y.first ≠ cfg.infinity) (k : Nat) :
    node'.minDistances.getD k 0 =
      (if y.first = k then min (node.minDistances.getD k 0) y.second
        else node.minDistances.getD k 0) := by
  rw [(reduce_returned h hy).2.1]
  split_ifs with hk
  · subst hk; exact getD_set_min _ _ _
  · exact getD_set_ne _ _ _ _ _ hk

theorem reduceAll_minDistances {cfg : Config} (ys : List TupleOfThree) (k : Nat) :
    ∀ {node node' : NodeData F}, APSPReduce.reduceAll cfg node ys = .returned () node' →
      (∀ y ∈ ys, y.first ≠ cfg.infinity) →
      node'.minDistances.getD k 0 =
        minOver (node.minDistances.getD k 0) (receivedDistances k ys) := by
  induction ys with
  | nil =>
    intro node node' h _
    cases h
    rfl
  | cons y ys ih =>
    intro node node' h hs
    have hy : y.first ≠ cfg.infinity := hs y (List.mem_cons_self _ _)
    unfold APSPReduce.reduceAll at h
    cases hr : APSPReduce.reduce cfg node y with
    | aborted n1 => rw [hr] at h; cases h
    | returned b n1 =>
      rw [hr] at h
      rw [ih h (fun z hz => hs z (List.mem_cons_of_mem _ hz)), reduce_slot_minDistances hr hy k]
      unfold receivedDistances minOver
      by_cases hk : y.first = k
      · simp [hk]
      · simp [hk]

theorem reduceAll_not_aborted {cfg : Config} (ys : List TupleOfThree) :
    ∀ (node : NodeData F),
      (∀ y ∈ ys, y.third ≠ 0 ∧ node.sentFlag.getD y.first false = false) →
      ∃ node', APSPReduce.reduceAll cfg node ys = .returned () node' := by
  induction ys with
  | nil => intro node _; exact ⟨node, rfl⟩
  | cons y ys ih =>
    intro node hs
    obtain ⟨hc, hf⟩ := hs y (List.mem_cons_self _ _)
    obtain ⟨b, n1, h1⟩ := reduce_not_aborted cfg node y hc hf
    have hsf : n1.sentFlag = node.sentFlag := by
      by_cases hy : y.first = cfg.infinity
      · unfold APSPReduce.reduce at h1
        simp only [hy, ne_eq, not_true_eq_false, if_false] at h1
        cases h1; rfl
      · exact (reduce_returned h1 hy).2.2.2.2
    obtain ⟨n, hn⟩ := ih n1 (fun z hz => by
      rw [hsf]; exact hs z (List.mem_cons_of_mem _ hz))
    exact ⟨n, by rw [reduceAll_cons_returned h1]; exact hn⟩


theorem reduce_slot_paths {cfg : Config} {node node' : NodeData F} {y : TupleOfThree}
    {b : Bool} (h : APSPReduce.reduce cfg node y = .returned b node')
    (hy : y.first ≠ cfg.infinity) (k : Nat) (hk : k < node.shortestPathNumbers.length) :
    node'.shortestPathNumbers.length = node.shortestPathNumbers.length ∧
    node'.shortestPathNumbers.getD k 0 =
      (if y.first = k then
        (if node.minDistances.getD k 0 > y.second then y.third
          else if node.minDistances.getD k 0 = y.second then
            (node.shortestPathNumbers.getD k 0 + y.third) % 2 ^ cfg.pathBits
          else node.shortestPathNumbers.getD k 0)
        else node.shortestPathNumbers.getD k 0) := by
  rw [(reduce_returned h hy).2.2.1]
  by_cases hyk : y.first = k
  · subst hyk
    rw [if_pos rfl]
    split_ifs
    · exact ⟨List.length_set _ _ _, getD_set_self _ _ _ _ hk⟩
    · exact ⟨List.length_set _ _ _, getD_set_self _ _ _ _ hk⟩
    · exact ⟨rfl, rfl⟩
  · rw [if_neg hyk]
    split_ifs
    · exact ⟨List.length_set _ _ _, getD_set_ne _ _ _ _ _ hyk⟩
    · exact ⟨List.length_set _ _ _, getD_set_ne _ _ _ _ _ hyk⟩
    · exact ⟨rfl, rfl⟩

theorem minOver_cons (init d : Nat) (ds : List Nat) :
    minOver init (d :: ds) = minOver (min init d) ds := rfl

theorem receivedDistances_cons_self (y : TupleOfThree) (ys : List TupleOfThree) :
    receivedDistances y.first (y :: ys) = y.second :: receivedDistances y.first ys := by
  simp [receivedDistances]

theorem receivedDistances_cons_ne {k : Nat} {y : TupleOfThree} (h : y.first ≠ k)
    (ys : List TupleOfThree) : receivedDistances k (y :: ys) = receivedDistances k ys := by
  simp [receivedDistances, h]

theorem receivedPaths_cons (k D : Nat) (y : TupleOfThree) (ys : List TupleOfThree) :
    receivedPaths k D (y :: ys) =
      (if y.first = k ∧ y.second = D then y.third else 0) + receivedPaths k D ys := by
  unfold receivedPaths
  by_cases h : y.first = k ∧ y.second = D
  · simp [h]
  · rw [if_neg h]
    simp [List.filter_cons, h]

theorem reduceAll_paths {cfg : Config} (ys : List TupleOfThree) (k : Nat) :
    ∀ {node node' : NodeData F}, APSPReduce.reduceAll cfg node ys = .returned () node' →
      (∀ y ∈ ys, y.first ≠ cfg.infinity) →
      (∀ y ∈ ys, y.third < 2 ^ cfg.pathBits) →
      k < node.shortestPathNumbers.length →
      node.shortestPathNumbers.getD k 0 < 2 ^ cfg.pathBits →
      node'.shortestPathNumbers.getD k 0 =
        ((if node.minDistances.getD k 0 =
              minOver (node.minDistances.getD k 0) (receivedDistances k ys)
            then node.shortestPathNumbers.getD k 0 else 0) +
          receivedPaths k (minOver (node.minDistances.getD k 0) (receivedDistances k ys)) ys) %
          2 ^ cfg.pathBits := by
  induction ys with
  | nil =>
    intro node node' h _ _ _ hs0
    cases h
    simp only [minOver, receivedDistances, receivedPaths, List.filter_nil, List.map_nil,
      List.foldl_nil, List.sum_nil, if_true, Nat.add_zero, Nat.mod_eq_of_lt hs0]
  | cons y ys ih =>
    intro node node' h hs hc hk hs0
    have hy : y.first ≠ cfg.infinity := hs y (List.mem_cons_self _ _)
    have hcy : y.third < 2 ^ cfg.pathBits := hc y (List.mem_cons_self _ _)
    unfold APSPReduce.reduceAll at h
    cases hr : APSPReduce.reduce cfg node y with
    | aborted n1 => rw [hr] at h; cases h
    | returned b n1 =>
      rw [hr] at h
      obtain ⟨hlen, hsp⟩ := reduce_slot_paths hr hy k hk
      have hmd := reduce_slot_minDistances hr hy k
      have hs1 : n1.shortestPathNumbers.getD k 0 < 2 ^ cfg.pathBits := by
        rw [hsp]
        split_ifs
        · exact hcy
        · exact Nat.mod_lt _ (Nat.pos_of_ne_zero (by positivity))
        · exact hs0
        · exact hs0
      have ih' := ih h (fun z hz => hs z (List.mem_cons_of_mem _ hz))
        (fun z hz => hc z (List.mem_cons_of_mem _ hz)) (by rw [hlen]; exact hk) hs1
      rw [ih', receivedPaths_cons]
      by_cases hyk : y.first = k
      · subst hyk
        rw [receivedDistances_cons_self, minOver_cons]
        rw [if_pos rfl] at hmd hsp
        rw [← hmd]
        have hD := minOver_le_init (n1.minDistances.getD y.first 0)
          (receivedDistances y.first ys)
        generalize minOver (n1.minDistances.getD y.first 0) (receivedDistances y.first ys) = D
          at hD ⊢
        rw [hsp]
        rw [hmd] at hD ⊢
        rcases Nat.lt_trichotomy (node.minDistances.getD y.first 0) y.second with hlt | heq | hgt
        · have hm : min (node.minDistances.getD y.first 0) y.second =
              node.minDistances.getD y.first 0 := Nat.min_eq_left (Nat.le_of_lt hlt)
          rw [hm] at hD ⊢
          have h1 : ¬ node.minDistances.getD y.first 0 > y.second := Nat.lt_asymm hlt
          have h2 : ¬ node.minDistances.getD y.first 0 = y.second := Nat.ne_of_lt hlt
          have h3 : ¬ y.second = D := by omega
          simp only [if_neg h1, if_neg h2, true_and, if_neg h3, Nat.zero_add]
        · have hm : min (node.minDistances.getD y.first 0) y.second = y.second := by
            rw [heq]; exact Nat.min_self _
          rw [hm] at hD ⊢
          have h1 : ¬ node.minDistances.getD y.first 0 > y.second := by omega
          simp only [heq, gt_iff_lt, lt_irrefl, if_false, if_true]
          by_cases hd : y.second = D
          · simp only [if_pos hd, true_and, if_true, Nat.mod_add_mod, Nat.add_assoc]
          · simp only [if_neg hd, true_and, if_false, Nat.zero_add]
        · have hm : min (node.minDistances.getD y.first 0) y.second = y.second :=
            Nat.min_eq_right (Nat.le_of_lt hgt)
          rw [hm] at hD ⊢
          have h2 : ¬ node.minDistances.getD y.first 0 = D := by omega
          simp only [if_pos hgt, if_neg h2, Nat.zero_add]
          by_cases hd : y.second = D
          · simp only [if_pos hd, true_and, if_true]
          · simp only [if_neg hd, true_and, if_false, Nat.zero_add]
      · rw [receivedDistances_cons_ne hyk]
        rw [if_neg hyk] at hmd hsp
        rw [hmd, hsp]
        simp only [hyk, false_and, if_false, Nat.zero_add]

end Lemmas

/-! ### Claims on the synchronization structures -/

section Claims

variable {F : Type}

/-- C1: with no index chosen yet, two payloads of equal distance `d` for indices `i < j`
(neither the sentinel, both in range, neither sent, `d` no larger than the stored distances,
non-zero path counts) leave `roundIndexToSend = i` and both stored distances equal to `d`,
whichever of the two arrives first. -/
theorem reduce_tie_break_order_independent (cfg : Config) (node : NodeData F)
    (i j d ci cj : Nat)
    (hinf : node.roundIndexToSend = cfg.infinity) (hij : i < j)
    (hi : i ≠ cfg.infinity) (hj : j ≠ cfg.infinity) (hlen : j < node.minDistances.length)
    (hfi : node.sentFlag.getD i false = false) (hfj : node.sentFlag.getD j false = false)
    (hdi : d ≤ node.minDistances.getD i 0) (hdj : d ≤ node.minDistances.getD j 0)
    (hci : ci ≠ 0) (hcj : cj ≠ 0) :
    (∃ n, APSPReduce.reduceAll cfg node [⟨i, d, ci⟩, ⟨j, d, cj⟩] = .returned () n ∧
      n.roundIndexToSend = i ∧ n.minDistances.getD i 0 = d ∧ n.minDistances.getD j 0 = d) ∧
    (∃ n, APSPReduce.reduceAll cfg node [⟨j, d, cj⟩, ⟨i, d, ci⟩] = .returned () n ∧
      n.roundIndexToSend = i ∧ n.minDistances.getD i 0 = d ∧ n.minDistances.getD j 0 = d) := by
  have hli : i < node.minDistances.length := Nat.lt_trans hij hlen
  constructor
  · obtain ⟨n, hn, hr, ha, hb⟩ := tie_break_pair node i j d ci cj hinf (Nat.ne_of_lt hij)
      hi hj hli hlen hfi hfj hdi hdj hci hcj
    exact ⟨n, hn, by rw [hr]; exact Nat.min_eq_left (Nat.le_of_lt hij), ha, hb⟩
  · obtain ⟨n, hn, hr, ha, hb⟩ := tie_break_pair node j i d cj ci hinf (Nat.ne_of_gt hij)
      hj hi hlen hli hfj hfi hdj hdi hcj hci
    exact ⟨n, hn, by rw [hr]; exact Nat.min_eq_right (Nat.le_of_lt hij), hb, ha⟩

/-- Witness of C1: indices 0 and 1 with distance 3 give `roundIndexToSend = 0` in both
arrival orders. -/
theorem reduce_tie_break_order_independent_witness :
    (∃ n, APSPReduce.reduceAll cfg64 freshNode [⟨0, 3, 1⟩, ⟨1, 3, 1⟩] = .returned () n ∧
      n.roundIndexToSend = 0 ∧ n.minDistances.getD 0 0 = 3 ∧ n.minDistances.getD 1 0 = 3) ∧
    (∃ n, APSPReduce.reduceAll cfg64 freshNode [⟨1, 3, 1⟩, ⟨0, 3, 1⟩] = .returned () n ∧
      n.roundIndexToSend = 0 ∧ n.minDistances.getD 0 0 = 3 ∧ n.minDistances.getD 1 0 = 3) :=
  reduce_tie_break_order_independent cfg64 freshNode 0 1 3 1 1 (by decide) (by decide)
    (by decide) (by decide) (by decide) (by decide) (by decide) (by decide) (by decide)
    (by decide) (by decide)

/-- C2: after a completed sequence of `reduce` calls with non-sentinel payloads the stored
distance of every index `k` is the minimum of its initial value and the distances received
for `k`; every completed permutation of the sequence ends with the same value; and the
sequence completes whenever every payload carries a non-zero path count for an index that
has not been sent. -/
theorem reduce_distance_converges (cfg : Config) (node : NodeData F)
    (ys : List TupleOfThree) (k : Nat) (hs : ∀ y ∈ ys, y.first ≠ cfg.infinity) :
    (∀ node', APSPReduce.reduceAll cfg node ys = .returned () node' →
      node'.minDistances.getD k 0 =
        minOver (node.minDistances.getD k 0) (receivedDistances k ys)) ∧
    (∀ ys' n1 n2, ys'.Perm ys → APSPReduce.reduceAll cfg node ys = .returned () n1 →
      APSPReduce.reduceAll cfg node ys' = .returned () n2 →
      n2.minDistances.getD k 0 = n1.minDistances.getD k 0) ∧
    ((∀ y ∈ ys, y.third ≠ 0 ∧ node.sentFlag.getD y.first false = false) →
      ∃ node', APSPReduce.reduceAll cfg node ys = .returned () node') := by
  refine ⟨fun node' h => reduceAll_minDistances ys k h hs, ?_,
    fun h => reduceAll_not_aborted ys node h⟩
  intro ys' n1 n2 hp h1 h2
  have hs' : ∀ y ∈ ys', y.first ≠ cfg.infinity := fun y hy => hs y (hp.mem_iff.mp hy)
  rw [reduceAll_minDistances ys k h1 hs, reduceAll_minDistances ys' k h2 hs']
  exact minOver_perm ((hp.filter _).map _) _

/-- Witness of C2: from distance 10, the payloads with distances 7, 3 and 5 for index 0
(and one for index 1) leave distance 3 at index 0. -/
theorem reduce_distance_converges_witness :
    (∀ y ∈ [(⟨0, 7, 1⟩ : TupleOfThree), ⟨1, 4, 2⟩, ⟨0, 3, 1⟩, ⟨0, 5, 6⟩],
      y.first ≠ cfg64.infinity) ∧
    ∃ node', APSPReduce.reduceAll cfg64 freshNode [⟨0, 7, 1⟩, ⟨1, 4, 2⟩, ⟨0, 3, 1⟩, ⟨0, 5, 6⟩] =
        .returned () node' ∧ node'.minDistances.getD 0 0 = 3 := by
  have h := reduce_distance_converges cfg64 freshNode
    [⟨0, 7, 1⟩, ⟨1, 4, 2⟩, ⟨0, 3, 1⟩, ⟨0, 5, 6⟩] 0 (by decide)
  obtain ⟨node', hn⟩ := h.2.2 (by decide)
  exact ⟨by decide, node', hn, (h.1 node' hn).trans (by decide)⟩

/-- C3: for payloads that all carry the index `k` (not the sentinel, in range, counts within
the width of `ShortPathType`), every completed arrival order leaves at `k` the minimum `D`
of the initial and the received distances, and the path count
(initial count if the initial distance is `D`, else 0) + (sum of the received counts with
distance `D`), modulo `2 ^ pathBits`; the run completes in every order when all counts are
non-zero and `k` has not been sent. -/
theorem reduce_path_count_order_independent (cfg : Config) (node : NodeData F)
    (ys : List TupleOfThree) (k : Nat) (hk : k ≠ cfg.infinity) (hidx : ∀ y ∈ ys, y.first = k)
    (hty : ∀ y ∈ ys, y.third < 2 ^ cfg.pathBits)
    (hlen : k < node.shortestPathNumbers.length)
    (hs0 : node.shortestPathNumbers.getD k 0 < 2 ^ cfg.pathBits) :
    (∀ ys' node', ys'.Perm ys → APSPReduce.reduceAll cfg node ys' = .returned () node' →
      node'.minDistances.getD k 0 =
          minOver (node.minDistances.getD k 0) (ys.map (fun y => y.second)) ∧
      node'.shortestPathNumbers.getD k 0 =
        ((if node.minDistances.getD k 0 =
              minOver (node.minDistances.getD k 0) (ys.map (fun y => y.second))
            then node.shortestPathNumbers.getD k 0 else 0) +
          ((ys.filter (fun y => y.second =
              minOver (node.minDistances.getD k 0) (ys.map (fun y => y.second)))).map
            (fun y => y.third)).sum) % 2 ^ cfg.pathBits) ∧
    ((∀ y ∈ ys, y.third ≠ 0) → node.sentFlag.getD k false = false →
      ∀ ys', ys'.Perm ys → ∃ node', APSPReduce.reduceAll cfg node ys' = .returned () node') := by
  have hrd : receivedDistances k ys = ys.map (fun y => y.second) := by
    unfold receivedDistances
    rw [List.filter_eq_self.mpr (fun y hy => by simpa using hidx y hy)]
  have hrp : ∀ D, receivedPaths k D ys =
      ((ys.filter (fun y => y.second = D)).map (fun y => y.third)).sum := by
    intro D
    unfold receivedPaths
    congr 2
    apply List.filter_congr
    intro y hy
    simp [hidx y hy]
  constructor
  · intro ys' node' hp h
    have hs' : ∀ y ∈ ys', y.first ≠ cfg.infinity := fun y hy => by
      rw [hidx y (hp.mem_iff.mp hy)]; exact hk
    have hty' : ∀ y ∈ ys', y.third < 2 ^ cfg.pathBits := fun y hy => hty y (hp.mem_iff.mp hy)
    have hd : minOver (node.minDistances.getD k 0) (receivedDistances k ys') =
        minOver (node.minDistances.getD k 0) (ys.map (fun y => y.second)) := by
      rw [← hrd]; exact minOver_perm ((hp.filter _).map _) _
    have hpaths : ∀ D, receivedPaths k D ys' = receivedPaths k D ys := fun D =>
      ((hp.filter _).map _).sum_eq
    refine ⟨?_, ?_⟩
    · rw [reduceAll_minDistances ys' k h hs', hd]
    · rw [reduceAll_paths ys' k h hs' hty' hlen hs0, hd, hpaths, hrp]
  · intro hc hf ys' hp
    apply reduceAll_not_aborted
    intro y hy
    have hy' := hp.mem_iff.mp hy
    exact ⟨hc y hy', by rw [hidx y hy']; exact hf⟩

/-- Witness of C3: from distance 10, the payloads (0, 3, 4), (0, 7, 1), (0, 3, 5), in the
order 7, 3, 3, leave distance 3 and 9 paths. -/
theorem reduce_path_count_order_independent_witness :
    ∃ node', APSPReduce.reduceAll cfg64 freshNode [⟨0, 7, 1⟩, ⟨0, 3, 4⟩, ⟨0, 3, 5⟩] =
        .returned () node' ∧
      node'.minDistances.getD 0 0 = 3 ∧ node'.shortestPathNumbers.getD 0 0 = 9 := by
  have h := reduce_path_count_order_independent cfg64 freshNode
    [⟨0, 3, 4⟩, ⟨0, 7, 1⟩, ⟨0, 3, 5⟩] 0 (by decide) (by decide) (by decide) (by decide)
    (by decide)
  have hp : List.Perm [(⟨0, 7, 1⟩ : TupleOfThree), ⟨0, 3, 4⟩, ⟨0, 3, 5⟩]
      [⟨0, 3, 4⟩, ⟨0, 7, 1⟩, ⟨0, 3, 5⟩] := List.Perm.swap _ _ _
  obtain ⟨node', hn⟩ := h.2 (by decide) (by decide) _ hp
  obtain ⟨h1, h2⟩ := h.1 _ node' hp hn
  exact ⟨node', hn, h1.trans (by decide), h2.trans (by decide)⟩

/-- C4: broadcast round trip.  For a master `m` whose `roundIndexToSend` is not the sentinel
and whose path count at that index is non-zero, and a mirror `r` whose vectors hold that
index, `extract` on `m` yields a payload `v`, and after `setVal(r, v)` the mirror extracts
the same payload: its `roundIndexToSend`, distance and path count at the index are the
master's. -/
theorem broadcast_round_trip (cfg : Config) (m r : NodeData F)
    (hm : m.roundIndexToSend ≠ cfg.infinity)
    (hc : m.shortestPathNumbers.getD m.roundIndexToSend 0 ≠ 0)
    (hr1 : m.roundIndexToSend < r.minDistances.length)
    (hr2 : m.roundIndexToSend < r.shortestPathNumbers.length) :
    ∃ v, APSPBroadcast.extract cfg m = some v ∧
      APSPBroadcast.extract cfg (APSPBroadcast.setVal cfg r v) = APSPBroadcast.extract cfg m ∧
      (APSPBroadcast.setVal cfg r v).roundIndexToSend = m.roundIndexToSend ∧
      (APSPBroadcast.setVal cfg r v).minDistances.getD m.roundIndexToSend 0 =
        m.minDistances.getD m.roundIndexToSend 0 ∧
      (APSPBroadcast.setVal cfg r v).shortestPathNumbers.getD m.roundIndexToSend 0 =
        m.shortestPathNumbers.getD m.roundIndexToSend 0 := by
  have he : APSPBroadcast.extract cfg m =
      some ⟨m.roundIndexToSend, m.minDistances.getD m.roundIndexToSend 0,
        m.shortestPathNumbers.getD m.roundIndexToSend 0⟩ := by
    unfold APSPBroadcast.extract
    simp only [hm, hc, ne_eq, not_false_eq_true, if_true]
  have hsv : APSPBroadcast.setVal cfg r
      ⟨m.roundIndexToSend, m.minDistances.getD m.roundIndexToSend 0,
        m.shortestPathNumbers.getD m.roundIndexToSend 0⟩ =
      { r with
        roundIndexToSend := m.roundIndexToSend
        minDistances := r.minDistances.set m.roundIndexToSend
          (m.minDistances.getD m.roundIndexToSend 0)
        shortestPathNumbers := r.shortestPathNumbers.set m.roundIndexToSend
          (m.shortestPathNumbers.getD m.roundIndexToSend 0) } := by
    unfold APSPBroadcast.setVal
    simp only [hm, ne_eq, not_false_eq_true, if_true]
  refine ⟨_, he, ?_, ?_, ?_, ?_⟩
  · rw [he, hsv]
    unfold APSPBroadcast.extract
    simp only [hm, ne_eq, not_false_eq_true, if_true, getD_set_self _ _ _ _ hr1,
      getD_set_self _ _ _ _ hr2, hc]
  · rw [hsv]
  · rw [hsv]; exact getD_set_self _ _ _ _ hr1
  · rw [hsv]; exact getD_set_self _ _ _ _ hr2

/-- Witness of C4: the master at index 0 (distance 3, 2 paths) overwrites a stale mirror. -/
theorem broadcast_round_trip_witness :
    ∃ v, APSPBroadcast.extract cfg64 busyNode = some v ∧
      APSPBroadcast.extract cfg64 (APSPBroadcast.setVal cfg64 mirrorNode v) =
        APSPBroadcast.extract cfg64 busyNode ∧
      (APSPBroadcast.setVal cfg64 mirrorNode v).roundIndexToSend = busyNode.roundIndexToSend ∧
      (APSPBroadcast.setVal cfg64 mirrorNode v).minDistances.getD busyNode.roundIndexToSend 0 =
        busyNode.minDistances.getD busyNode.roundIndexToSend 0 ∧
      (APSPBroadcast.setVal cfg64 mirrorNode v).shortestPathNumbers.getD
          busyNode.roundIndexToSend 0 =
        busyNode.shortestPathNumbers.getD busyNode.roundIndexToSend 0 :=
  broadcast_round_trip cfg64 busyNode mirrorNode (by decide) (by decide) (by decide)
    (by decide)

/-- C5: broadcast idempotence.  `APSPBroadcast::setVal` applied twice with the same payload
gives the node of one application, for every node and payload; `DependencyBroadcast::setVal`,
when `node.roundIndexToSend` is the payload's index, returns, and applied again with the same
payload returns the same node. -/
theorem setVal_idempotent (cfg : Config) (node : NodeData F) (v : TupleOfThree) (w : Nat × F) :
    APSPBroadcast.setVal cfg (APSPBroadcast.setVal cfg node v) v =
        APSPBroadcast.setVal cfg node v ∧
    (node.roundIndexToSend = w.1 →
      ∃ n, DependencyBroadcast.setVal cfg node w = .returned () n ∧
        DependencyBroadcast.setVal cfg n w = .returned () n) := by
  constructor
  · unfold APSPBroadcast.setVal
    by_cases hv : v.first = cfg.infinity
    · simp only [hv, ne_eq, not_true_eq_false, if_false]
    · simp only [hv, ne_eq, not_false_eq_true, if_true, List.set_set]
  · intro hw
    unfold DependencyBroadcast.setVal
    by_cases hv : w.1 = cfg.infinity
    · exact ⟨node, by simp only [hv, ne_eq, not_true_eq_false, if_false, and_self]⟩
    · refine ⟨{ node with dependencyValues := node.dependencyValues.set w.1 w.2 }, ?_⟩
      simp only [hv, hw, ne_eq, not_false_eq_true, not_true_eq_false, if_true, if_false,
        List.set_set, and_self]

/-- Witness of C5: the dependency value 9 for index 0 is written twice into a node working
on index 0. -/
theorem setVal_idempotent_witness :
    busyNode.roundIndexToSend = ((0, 9) : Nat × Int).1 ∧
    ∃ n, DependencyBroadcast.setVal cfg64 busyNode (0, 9) = .returned () n ∧
      DependencyBroadcast.setVal cfg64 n (0, 9) = .returned () n :=
  ⟨by decide, (setVal_idempotent cfg64 busyNode ⟨0, 3, 2⟩ (0, 9)).2 (by decide)⟩

/-- C6: a payload whose selector is the sentinel changes nothing: both `reduce` operators
return false with the node as it was, and both `setVal` operators leave the node as it
was. -/
theorem sentinel_payload_is_noop [Zero F] [Add F] (cfg : Config) (node : NodeData F)
    (y : TupleOfThree) (w : Nat × F) (hy : y.first = cfg.infinity) (hw : w.1 = cfg.infinity) :
    APSPReduce.reduce cfg node y = .returned false node ∧
    DependencyReduce.reduce cfg node w = .returned false node ∧
    APSPBroadcast.setVal cfg node y = node ∧
    DependencyBroadcast.setVal cfg node w = .returned () node := by
  refine ⟨?_, ?_, ?_, ?_⟩
  · unfold APSPReduce.reduce
    simp only [hy, ne_eq, not_true_eq_false, if_false]
  · unfold DependencyReduce.reduce
    simp only [hw, ne_eq, not_true_eq_false, if_false]
  · unfold APSPBroadcast.setVal
    simp only [hy, ne_eq, not_true_eq_false, if_false]
  · unfold DependencyBroadcast.setVal
    simp only [hw, ne_eq, not_true_eq_false, if_false]

/-- Witness of C6: sentinel payloads with non-trivial values on a node that is working on
index 0. -/
theorem sentinel_payload_is_noop_witness :
    APSPReduce.reduce cfg64 busyNode ⟨1073741823, 1, 4⟩ = .returned false busyNode ∧
    DependencyReduce.reduce cfg64 busyNode (1073741823, 6) = .returned false busyNode ∧
    APSPBroadcast.setVal cfg64 busyNode ⟨1073741823, 1, 4⟩ = busyNode ∧
    DependencyBroadcast.setVal cfg64 busyNode (1073741823, 6) = .returned () busyNode :=
  sentinel_payload_is_noop cfg64 busyNode ⟨1073741823, 1, 4⟩ (1073741823, 6) (by decide)
    (by decide)

/-- Counterexample to C7: a master working on index 0 at distance 3 receives the longer
distance 5 for index 0; `reduce` returns true and the node is exactly as before. -/
theorem reduce_true_without_change :
    APSPReduce.reduce cfg64 busyNode ⟨0, 5, 1⟩ = .returned true busyNode ∧
    ¬ (∀ (node : NodeData Int) (y : TupleOfThree) (b : Bool) (node' : NodeData Int),
        APSPReduce.reduce cfg64 node y = .returned b node' → (b = true ↔ node' ≠ node)) := by
  have h : APSPReduce.reduce cfg64 busyNode ⟨0, 5, 1⟩ = .returned true busyNode := by decide
  exact ⟨h, fun hall => ((hall busyNode ⟨0, 5, 1⟩ true busyNode h).mp rfl) rfl⟩

/-- C7 as amended: a returning `reduce` returns true exactly when the payload's index is not
the sentinel; when it returns false the node is unchanged, so every change of the node is
reported by true. -/
theorem reduce_true_iff_not_sentinel (cfg : Config) (node node' : NodeData F)
    (y : TupleOfThree) (b : Bool) (h : APSPReduce.reduce cfg node y = .returned b node') :
    (b = true ↔ y.first ≠ cfg.infinity) ∧ (b = false → node' = node) ∧
      (node' ≠ node → b = true) := by
  have hfalse : b = false → node' = node := by
    intro hb
    by_cases hy : y.first = cfg.infinity
    · unfold APSPReduce.reduce at h
      simp only [hy, ne_eq, not_true_eq_false, if_false] at h
      cases h; rfl
    · rw [(reduce_returned h hy).1] at hb
      cases hb
  refine ⟨?_, hfalse, ?_⟩
  · by_cases hy : y.first = cfg.infinity
    · unfold APSPReduce.reduce at h
      simp only [hy, ne_eq, not_true_eq_false, if_false] at h
      cases h
      simp [hy]
    · simp [hy, (reduce_returned h hy).1]
  · intro hne
    cases b with
    | true => rfl
    | false => exact absurd (hfalse rfl) hne

/-- Witness of C7 as amended: a shorter distance for index 1 arrives at a master working on
index 0. -/
theorem reduce_true_iff_not_sentinel_witness :
    APSPReduce.reduce cfg64 busyNode ⟨1, 2, 4⟩ =
        .returned true
          { busyNode with
            minDistances := [3, 2], shortestPathNumbers := [2, 4], roundIndexToSend := 1 } ∧
      ((true = true ↔ (⟨1, 2, 4⟩ : TupleOfThree).first ≠ cfg64.infinity) ∧
        (true = false →
          { busyNode with
            minDistances := [3, 2], shortestPathNumbers := [2, 4], roundIndexToSend := 1 } =
            busyNode) ∧
        ({ busyNode with
            minDistances := [3, 2], shortestPathNumbers := [2, 4], roundIndexToSend := 1 } ≠
            busyNode → true = true)) :=
  ⟨by decide, reduce_true_iff_not_sentinel cfg64 busyNode _ ⟨1, 2, 4⟩ true (by decide)⟩

/-- C8: `reset` zeroes only the accumulation slot of the current round.  When
`roundIndexToSend` is not the sentinel (and is in range), `APSPReduce::reset` leaves 0 in
`shortestPathNumbers[roundIndexToSend]` and `DependencyReduce::reset` leaves 0 in
`dependencyValues[roundIndexToSend]`; every other index of that vector, its length and every
other field are unchanged; with the sentinel the node is unchanged; and a second `reset`
changes nothing more. -/
theorem reset_zeroes_current_slot [Zero F] (cfg : Config) (node : NodeData F) :
    ((node.roundIndexToSend ≠ cfg.infinity →
        node.roundIndexToSend < node.shortestPathNumbers.length →
        (APSPReduce.reset cfg node).shortestPathNumbers.getD node.roundIndexToSend 0 = 0) ∧
      (∀ j, j ≠ node.roundIndexToSend →
        (APSPReduce.reset cfg node).shortestPathNumbers.getD j 0 =
          node.shortestPathNumbers.getD j 0) ∧
      (APSPReduce.reset cfg node).shortestPathNumbers.length =
        node.shortestPathNumbers.length ∧
      (APSPReduce.reset cfg node).minDistances = node.minDistances ∧
      (APSPReduce.reset cfg node).dependencyValues = node.dependencyValues ∧
      (APSPReduce.reset cfg node).sentFlag = node.sentFlag ∧
      (APSPReduce.reset cfg node).roundIndexToSend = node.roundIndexToSend ∧
      (node.roundIndexToSend = cfg.infinity → APSPReduce.reset cfg node = node) ∧
      APSPReduce.reset cfg (APSPReduce.reset cfg node) = APSPReduce.reset cfg node) ∧
    ((node.roundIndexToSend ≠ cfg.infinity →
        node.roundIndexToSend < node.dependencyValues.length →
        (DependencyReduce.reset cfg node).dependencyValues.getD node.roundIndexToSend 0 = 0) ∧
      (∀ j, j ≠ node.roundIndexToSend →
        (DependencyReduce.reset cfg node).dependencyValues.getD j 0 =
          node.dependencyValues.getD j 0) ∧
      (DependencyReduce.reset cfg node).dependencyValues.length =
        node.dependencyValues.length ∧
      (DependencyReduce.reset cfg node).minDistances = node.minDistances ∧
      (DependencyReduce.reset cfg node).shortestPathNumbers = node.shortestPathNumbers ∧
      (DependencyReduce.reset cfg node).sentFlag = node.sentFlag ∧
      (DependencyReduce.reset cfg node).roundIndexToSend = node.roundIndexToSend ∧
      (node.roundIndexToSend = cfg.infinity → DependencyReduce.reset cfg node = node) ∧
      DependencyReduce.reset cfg (DependencyReduce.reset cfg node) =
        DependencyReduce.reset cfg node) := by
  by_cases h : node.roundIndexToSend = cfg.infinity
  · have h1 : APSPReduce.reset cfg node = node := by
      unfold APSPReduce.reset
      simp only [h, ne_eq, not_true_eq_false, if_false]
    have h2 : DependencyReduce.reset cfg node = node := by
      unfold DependencyReduce.reset
      simp only [h, ne_eq, not_true_eq_false, if_false]
    rw [h1, h1, h2, h2]
    exact ⟨⟨fun hne => absurd h hne, fun _ _ => rfl, rfl, rfl, rfl, rfl, rfl, fun _ => rfl, rfl⟩,
      ⟨fun hne => absurd h hne, fun _ _ => rfl, rfl, rfl, rfl, rfl, rfl, fun _ => rfl, rfl⟩⟩
  · have h1 : ∀ n : NodeData F, n.roundIndexToSend = node.roundIndexToSend →
        APSPReduce.reset cfg n =
          { n with shortestPathNumbers := n.shortestPathNumbers.set node.roundIndexToSend 0 } := by
      intro n hn
      unfold APSPReduce.reset
      simp only [hn, h, ne_eq, not_false_eq_true, if_true]
    have h2 : ∀ n : NodeData F, n.roundIndexToSend = node.roundIndexToSend →
        DependencyReduce.reset cfg n =
          { n with dependencyValues := n.dependencyValues.set node.roundIndexToSend 0 } := by
      intro n hn
      unfold DependencyReduce.reset
      simp only [hn, h, ne_eq, not_false_eq_true, if_true]
    refine ⟨⟨?_, ?_, ?_, ?_, ?_, ?_, ?_, ?_, ?_⟩, ⟨?_, ?_, ?_, ?_, ?_, ?_, ?_, ?_, ?_⟩⟩
    · intro _ hlen
      rw [h1 node rfl]; exact getD_set_self _ _ _ _ hlen
    · intro j hj
      rw [h1 node rfl]; exact getD_set_ne _ _ _ _ _ (Ne.symm hj)
    · rw [h1 node rfl]; exact List.length_set _ _ _
    · rw [h1 node rfl]
    · rw [h1 node rfl]
    · rw [h1 node rfl]
    · rw [h1 node rfl]
    · intro hh; exact absurd hh h
    · rw [h1 node rfl, h1]
      · simp only [List.set_set]
      · rfl
    · intro _ hlen
      rw [h2 node rfl]; exact getD_set_self _ _ _ _ hlen
    · intro j hj
      rw [h2 node rfl]; exact getD_set_ne _ _ _ _ _ (Ne.symm hj)
    · rw [h2 node rfl]; exact List.length_set _ _ _
    · rw [h2 node rfl]
    · rw [h2 node rfl]
    · rw [h2 node rfl]
    · rw [h2 node rfl]
    · intro hh; exact absurd hh h
    · rw [h2 node rfl, h2]
      · simp only [List.set_set]
      · rfl

/-- Witness of C8: on a master working on index 0 with 2 paths and dependency 5, the two
resets leave 0 in slot 0 and keep slot 1. -/
theorem reset_zeroes_current_slot_witness :
    busyNode.roundIndexToSend ≠ cfg64.infinity ∧
    busyNode.roundIndexToSend < busyNode.shortestPathNumbers.length ∧
    busyNode.roundIndexToSend < busyNode.dependencyValues.length ∧
    (APSPReduce.reset cfg64 busyNode).shortestPathNumbers.getD busyNode.roundIndexToSend 0 = 0 ∧
    (DependencyReduce.reset cfg64 busyNode).dependencyValues.getD
      busyNode.roundIndexToSend 0 = 0 ∧
    APSPReduce.reset cfg64 busyNode = { busyNode with shortestPathNumbers := [0, 0] } ∧
    DependencyReduce.reset cfg64 busyNode = { busyNode with dependencyValues := [0, 7] } :=
  ⟨by decide, by decide, by decide,
    (reset_zeroes_current_slot cfg64 busyNode).1.1 (by decide) (by decide),
    (reset_zeroes_current_slot cfg64 busyNode).2.1 (by decide) (by decide),
    by decide, by decide⟩

/-- C9: a payload for an index that is neither the sentinel nor the index the master is
working on makes `DependencyReduce::reduce` fail its assertion, and the node, its
`dependencyValues` included, is as it was: nothing is added. -/
theorem dependency_reduce_wrong_index_aborts [Zero F] [Add F] (cfg : Config)
    (node : NodeData F) (y : Nat × F) (h1 : y.1 ≠ cfg.infinity)
    (h2 : y.1 ≠ node.roundIndexToSend) :
    DependencyReduce.reduce cfg node y = .aborted node ∧
      (DependencyReduce.reduce cfg node y).node.dependencyValues = node.dependencyValues := by
  have h : DependencyReduce.reduce cfg node y = .aborted node := by
    unfold DependencyReduce.reduce
    simp only [h1, Ne.symm h2, ne_eq, not_false_eq_true, if_true]
  exact ⟨h, by rw [h]; rfl⟩

/-- Witness of C9: a dependency contribution for index 1 reaches a master working on
index 0. -/
theorem dependency_reduce_wrong_index_aborts_witness :
    ((1, 4) : Nat × Int).1 ≠ cfg64.infinity ∧ ((1, 4) : Nat × Int).1 ≠ busyNode.roundIndexToSend ∧
    DependencyReduce.reduce cfg64 busyNode (1, 4) = .aborted busyNode ∧
      (DependencyReduce.reduce cfg64 busyNode (1, 4)).node.dependencyValues =
        busyNode.dependencyValues :=
  ⟨by decide, by decide,
    dependency_reduce_wrong_index_aborts cfg64 busyNode (1, 4) (by decide) (by decide)⟩

/-- C10: every batched hook of the four structures returns false and leaves the buffers
behind its pointers and the nodes as they were, so the caller takes the per-node path. -/
theorem batched_hooks_decline (src size mode : Nat) (mem : BatchMemory TupleOfThree F)
    (dmem : BatchMemory (Nat × F) F) :
    (APSPReduce.extract_reset_batch src mem = (false, mem) ∧
      APSPReduce.extract_reset_batch2 src mem = (false, mem) ∧
      APSPReduce.reduce_batch src mem size mode = (false, mem) ∧
      APSPBroadcast.extract_batch src mem = (false, mem) ∧
      APSPBroadcast.extract_batch2 src mem = (false, mem) ∧
      APSPBroadcast.setVal_batch src mem size mode = (false, mem) ∧
      DependencyReduce.extract_reset_batch src dmem = (false, dmem) ∧
      DependencyReduce.extract_reset_batch2 src dmem = (false, dmem) ∧
      DependencyReduce.reduce_batch src dmem size mode = (false, dmem) ∧
      DependencyBroadcast.extract_batch src dmem = (false, dmem) ∧
      DependencyBroadcast.extract_batch2 src dmem = (false, dmem) ∧
      DependencyBroadcast.setVal_batch src dmem size mode = (false, dmem)) ∧
    (syncPath (APSPReduce.extract_reset_batch src mem).1 = .perNode ∧
      syncPath (APSPReduce.extract_reset_batch2 src mem).1 = .perNode ∧
      syncPath (APSPReduce.reduce_batch src mem size mode).1 = .perNode ∧
      syncPath (APSPBroadcast.extract_batch src mem).1 = .perNode ∧
      syncPath (APSPBroadcast.extract_batch2 src mem).1 = .perNode ∧
      syncPath (APSPBroadcast.setVal_batch src mem size mode).1 = .perNode ∧
      syncPath (DependencyReduce.extract_reset_batch src dmem).1 = .perNode ∧
      syncPath (DependencyReduce.extract_reset_batch2 src dmem).1 = .perNode ∧
      syncPath (DependencyReduce.reduce_batch src dmem size mode).1 = .perNode ∧
      syncPath (DependencyBroadcast.extract_batch src dmem).1 = .perNode ∧
      syncPath (DependencyBroadcast.extract_batch2 src dmem).1 = .perNode ∧
      syncPath (DependencyBroadcast.setVal_batch src dmem size mode).1 = .perNode) :=
  ⟨⟨rfl, rfl, rfl, rfl, rfl, rfl, rfl, rfl, rfl, rfl, rfl, rfl⟩,
    ⟨rfl, rfl, rfl, rfl, rfl, rfl, rfl, rfl, rfl, rfl, rfl, rfl⟩⟩

end Claims

end PrBcOpt

/-! ### Claims on the SSSP indexer -/

namespace SSSPsimple

/-- C15: the indexer routes a request to `distance >> stepShift`, which is the quotient of
the distance by `2 ^ stepShift`; it is monotone in the distance; and with `stepShift = 11`
two requests get the same bucket exactly when their distances have the same quotient by
2048. -/
theorem indexer_monotone_and_buckets :
    (∀ (shift : Nat) (val : UpdateRequest),
      UpdateRequestIndexer shift val = val.1 / 2 ^ shift) ∧
    (∀ (shift : Nat) (a b : UpdateRequest), a.1 ≤ b.1 →
      UpdateRequestIndexer shift a ≤ UpdateRequestIndexer shift b) ∧
    (∀ a b : UpdateRequest,
      UpdateRequestIndexer stepShift a = UpdateRequestIndexer stepShift b ↔
        a.1 / 2048 = b.1 / 2048) := by
  refine ⟨fun shift val => Nat.shiftRight_eq_div_pow _ _, ?_, ?_⟩
  · intro shift a b h
    unfold UpdateRequestIndexer
    rw [Nat.shiftRight_eq_div_pow, Nat.shiftRight_eq_div_pow]
    exact Nat.div_le_div_right h
  · intro a b
    unfold UpdateRequestIndexer stepShift
    rw [Nat.shiftRight_eq_div_pow, Nat.shiftRight_eq_div_pow]

/-- Witness of C15: the distances 2047 and 2048 go to the buckets 0 and 1, in this order. -/
theorem indexer_monotone_and_buckets_witness :
    ((2047, 7) : UpdateRequest).1 ≤ ((2048, 3) : UpdateRequest).1 ∧
    UpdateRequestIndexer stepShift (2047, 7) = 0 ∧
    UpdateRequestIndexer stepShift (2048, 3) = 1 ∧
    UpdateRequestIndexer stepShift (2047, 7) ≤ UpdateRequestIndexer stepShift (2048, 3) :=
  ⟨by decide, by decide, by decide,
    indexer_monotone_and_buckets.2.1 stepShift (2047, 7) (2048, 3) (by decide)⟩

end SSSPsimple

/-! ### Claims on the conversion of `katana::Result` -/

namespace ErrorHandling

/-- C16: the cast of a result returns normally exactly when the result is a success, and
then it returns the converted value; for a failure it throws with the error indicator set:
to the attribute of the module `katana` named after the category of the error code, with
the written error as message, when the import and the lookup succeed, and otherwise to
`RuntimeError`, with the category name appended to the message, raised from the lookup
error. -/
theorem cast_returns_iff_success {T Obj : Type} (toPython : T → Obj)
    (katana : Option (String → Option Obj)) (src : Result T) :
    ((∃ obj, type_caster.cast toPython katana src = .ok obj) ↔ ∃ value, src = .success value) ∧
    (∀ value, src = .success value →
      type_caster.cast toPython katana src = .ok (toPython value)) ∧
    (∀ error, src = .failure error →
      (∀ katana_module error_type, katana = some katana_module →
        katana_module error.categoryName = some error_type →
        type_caster.cast toPython katana src =
          .error { type := .attribute error_type, message := error.written, cause := none }) ∧
      (∀ katana_module, katana = some katana_module →
        katana_module error.categoryName = none →
        type_caster.cast toPython katana src =
          .error
            { type := .runtimeError
              message := error.written ++ " (error code category is " ++ error.categoryName ++
                " which does not have a custom exception class)"
              cause := some .noAttribute }) ∧
      (katana = none →
        type_caster.cast toPython katana src =
          .error
            { type := .runtimeError
              message := error.written ++ " (error code category is " ++ error.categoryName ++
                " which does not have a custom exception class)"
              cause := some .importFailed })) := by
  cases src with
  | success value =>
    refine ⟨⟨fun _ => ⟨value, rfl⟩, fun _ => ⟨toPython value, rfl⟩⟩, ?_, ?_⟩
    · intro v hv
      cases hv
      rfl
    · intro e he
      cases he
  | failure error =>
    refine ⟨⟨?_, ?_⟩, ?_, ?_⟩
    · rintro ⟨obj, h⟩
      unfold type_caster.cast at h
      cases katana with
      | none => cases h
      | some m =>
        dsimp only at h
        cases hm : m error.categoryName with
        | none => rw [hm] at h; cases h
        | some c => rw [hm] at h; cases h
    · rintro ⟨v, hv⟩
      cases hv
    · intro v hv
      cases hv
    · intro e he
      cases he
      refine ⟨?_, ?_, ?_⟩
      · intro m c hk hm
        subst hk
        unfold type_caster.cast
        dsimp only
        rw [hm]
      · intro m hk hm
        subst hk
        unfold type_caster.cast
        dsimp only
        rw [hm]
      · intro hk
        subst hk
        rfl

/-- Witness of C16: a failed result whose category has no class in the module. -/
theorem cast_returns_iff_success_witness :
    type_caster.cast (fun n : Nat => n) (some fun name => if name = "ErrorCode" then some 1 else none)
        (.failure ⟨"not found", "ArrowError"⟩) =
      .error
        { type := .runtimeError
          message := "not found" ++ " (error code category is " ++ "ArrowError" ++
            " which does not have a custom exception class)"
          cause := some .noAttribute } :=
  ((cast_returns_iff_success (fun n : Nat => n)
      (some fun name => if name = "ErrorCode" then some 1 else none)
      (.failure ⟨"not found", "ArrowError"⟩)).2.2 ⟨"not found", "ArrowError"⟩ rfl).2.1
    (fun name => if name = "ErrorCode" then some 1 else none) rfl (by decide)

end ErrorHandling

/-! ### Lemmas and claims on the barriers -/

namespace Barrier

theorem range_four : List.range 4 = [0, 1, 2, 3] := by
  decide

theorem u32_of_lt {x : Nat} (h : x < 2 ^ 32) : u32 x = x :=
  Nat.mod_eq_of_lt h

/-- The number of children of node `i` in the 4-ary tree over `P` nodes, summed over the
first `n` nodes. -/
theorem sum_children (P n : Nat) :
    ((List.range n).map fun i => (List.range 4).countP fun j => 4 * i + j + 1 < P).sum =
      min (4 * n) (P - 1) := by
  rw [range_four]
  induction n with
  | zero => simp
  | succ n ih =>
    rw [List.range_succ, List.map_append, List.sum_append, ih]
    simp only [List.map_cons, List.map_nil, List.sum_cons, List.sum_nil, List.countP_cons,
      List.countP_nil, decide_eq_true_eq]
    split_ifs <;> omega

theorem mcs_reinit_length (nodes : List MCSBarrier.treenode) (P : Nat) :
    (MCSBarrier._reinit nodes P).length = nodes.length := by
  simp [MCSBarrier._reinit]

theorem mcs_reinit_getD (nodes : List MCSBarrier.treenode) (P i : Nat)
    (h : i < nodes.length) :
    (MCSBarrier._reinit nodes P).getD i MCSBarrier.noNode =
      { sense := true
        parentsense := false
        childnotready := (List.range 4).map fun j => decide (u32 (4 * i + j + 1) < P)
        havechild := (List.range 4).map fun j => decide (u32 (4 * i + j + 1) < P)
        parentpointer := if i = 0 then none else some ((i - 1) / 4, (i - 1) % 4)
        childpointers :=
          [if u32 (2 * i + 1) ≥ P then none else some (u32 (2 * i + 1)),
            if u32 (2 * i + 2) ≥ P then none else some (u32 (2 * i + 2))] } := by
  unfold MCSBarrier._reinit
  rw [List.getD_eq_getElem?_getD, List.getElem?_map, List.getElem?_range h]
  rfl

theorem getD_map_range_four (f : Nat → Bool) (j : Nat) (h : j < 4) :
    ((List.range 4).map f).getD j false = f j := by
  rw [range_four]
  have hj : j = 0 ∨ j = 1 ∨ j = 2 ∨ j = 3 := by omega
  rcases hj with rfl | rfl | rfl | rfl <;> rfl

theorem count_true_map_range_four (f : Nat → Bool) :
    ((List.range 4).map f).count true = (List.range 4).countP fun j => f j = true := by
  rw [List.count_eq_countP, List.countP_map]
  apply List.countP_congr
  intro j _
  simp

/-- C17: `_reinit(P)` with `1 <= P <= nodes.size()` (and a storage small enough for
`4 * i + j + 1` not to wrap) builds the 4-ary arrival tree: slot `j` of node `i` is flagged
in `havechild` and in `childnotready` exactly when `4 * i + j + 1 < P`; thread `i` in
`[1, P)` points at slot `(i - 1) % 4` of node `(i - 1) / 4`, which is flagged; thread 0 has
no parent; and `P - 1` slots are flagged in all. -/
theorem mcs_reinit_builds_arrival_tree (nodes : List MCSBarrier.treenode) (P : Nat)
    (h1 : 1 ≤ P) (h2 : P ≤ nodes.length) (h3 : 4 * nodes.length < 2 ^ 32) :
    (∀ i j, i < nodes.length → j < 4 →
      ((((MCSBarrier._reinit nodes P).getD i MCSBarrier.noNode).havechild.getD j false = true ↔
          4 * i + j + 1 < P) ∧
        (((MCSBarrier._reinit nodes P).getD i MCSBarrier.noNode).childnotready.getD j false =
          true ↔ 4 * i + j + 1 < P))) ∧
    (∀ i, 1 ≤ i → i < P →
      ((MCSBarrier._reinit nodes P).getD i MCSBarrier.noNode).parentpointer =
          some ((i - 1) / 4, (i - 1) % 4) ∧
        ((MCSBarrier._reinit nodes P).getD ((i - 1) / 4) MCSBarrier.noNode).havechild.getD
          ((i - 1) % 4) false = true) ∧
    ((MCSBarrier._reinit nodes P).getD 0 MCSBarrier.noNode).parentpointer = none ∧
    ((MCSBarrier._reinit nodes P).map fun n => n.havechild.count true).sum = P - 1 := by
  have hflag : ∀ i j, i < nodes.length → j < 4 →
      (decide (u32 (4 * i + j + 1) < P) = true ↔ 4 * i + j + 1 < P) := by
    intro i j hi hj
    rw [u32_of_lt (by omega), decide_eq_true_eq]
  refine ⟨?_, ?_, ?_, ?_⟩
  · intro i j hi hj
    rw [mcs_reinit_getD nodes P i hi]
    dsimp only
    rw [getD_map_range_four _ j hj]
    exact ⟨hflag i j hi hj, hflag i j hi hj⟩
  · intro i hi1 hiP
    have hi : i < nodes.length := Nat.lt_of_lt_of_le hiP h2
    have hp : (i - 1) / 4 < nodes.length := by omega
    rw [mcs_reinit_getD nodes P i hi, mcs_reinit_getD nodes P _ hp]
    dsimp only
    refine ⟨by rw [if_neg (by omega)], ?_⟩
    rw [getD_map_range_four _ _ (Nat.mod_lt _ (by decide))]
    rw [hflag _ _ hp (Nat.mod_lt _ (by decide))]
    omega
  · rw [mcs_reinit_getD nodes P 0 (by omega)]
    rfl
  · have hmap : ((MCSBarrier._reinit nodes P).map fun n => n.havechild.count true) =
        (List.range nodes.length).map fun i =>
          (List.range 4).countP fun j => 4 * i + j + 1 < P := by
      unfold MCSBarrier._reinit
      rw [List.map_map]
      apply List.map_congr_left
      intro i hi
      rw [List.mem_range] at hi
      simp only [Function.comp]
      rw [count_true_map_range_four]
      apply List.countP_congr
      intro j hj
      rw [List.mem_range] at hj
      rw [decide_eq_true_eq, decide_eq_true_eq, decide_eq_true_eq, u32_of_lt (by omega)]
    rw [hmap, sum_children]
    omega

/-- Witness of C17: a storage of six nodes, all six participating. -/
theorem mcs_reinit_builds_arrival_tree_witness :
    ((MCSBarrier._reinit (List.replicate 6 MCSBarrier.noNode) 6).map
      fun n => n.havechild.count true).sum = 6 - 1 :=
  (mcs_reinit_builds_arrival_tree (List.replicate 6 MCSBarrier.noNode) 6 (by decide)
    (by decide) (by decide)).2.2.2

theorem mcs_update_length (nodes : List MCSBarrier.treenode) (i : Nat)
    (f : MCSBarrier.treenode → MCSBarrier.treenode) :
    (MCSBarrier.update nodes i f).length = nodes.length := by
  simp [MCSBarrier.update]

theorem mcs_getD_update_self (nodes : List MCSBarrier.treenode) (i : Nat)
    (f : MCSBarrier.treenode → MCSBarrier.treenode) (h : i < nodes.length) :
    (MCSBarrier.update nodes i f).getD i MCSBarrier.noNode =
      f (nodes.getD i MCSBarrier.noNode) := by
  unfold MCSBarrier.update
  rw [List.getD_eq_getElem?_getD, List.getElem?_set_self h]
  rfl

theorem mcs_getD_update_ne (nodes : List MCSBarrier.treenode) (i k : Nat)
    (f : MCSBarrier.treenode → MCSBarrier.treenode) (h : i ≠ k) :
    (MCSBarrier.update nodes i f).getD k MCSBarrier.noNode =
      nodes.getD k MCSBarrier.noNode := by
  unfold MCSBarrier.update
  rw [List.getD_eq_getElem?_getD, List.getElem?_set_ne h, ← List.getD_eq_getElem?_getD]

theorem mcs_update_id (nodes : List MCSBarrier.treenode) (i : Nat)
    (f : MCSBarrier.treenode → MCSBarrier.treenode)
    (h : f (nodes.getD i MCSBarrier.noNode) = nodes.getD i MCSBarrier.noNode) :
    MCSBarrier.update nodes i f = nodes := by
  unfold MCSBarrier.update
  rw [h]
  apply List.ext_getElem?
  intro k
  by_cases hk : i = k
  · subst hk
    by_cases hi : i < nodes.length
    · rw [List.getElem?_set_self hi, List.getD_eq_getElem?_getD, List.getElem?_eq_getElem hi]
      rfl
    · rw [List.set_eq_of_length_le (Nat.le_of_not_lt hi)]
  · rw [List.getElem?_set_ne hk]

theorem mcs_update_update (nodes : List MCSBarrier.treenode) (i : Nat)
    (f g : MCSBarrier.treenode → MCSBarrier.treenode) :
    MCSBarrier.update (MCSBarrier.update nodes i f) i g =
      MCSBarrier.update nodes i fun n => g (f n) := by
  by_cases hi : i < nodes.length
  · unfold MCSBarrier.update
    rw [List.set_set]
    congr 2
    rw [List.getD_eq_getElem?_getD, List.getElem?_set_self hi]
    rfl
  · unfold MCSBarrier.update
    rw [List.set_eq_of_length_le (Nat.le_of_not_lt hi),
      List.set_eq_of_length_le (Nat.le_of_not_lt hi),
      List.set_eq_of_length_le (Nat.le_of_not_lt hi)]

/-- An update that keeps the part `g` of every node keeps `g` of the whole storage. -/
theorem mcs_map_update {β : Type} (g : MCSBarrier.treenode → β) (nodes : List MCSBarrier.treenode)
    (i : Nat) (f : MCSBarrier.treenode → MCSBarrier.treenode) (h : ∀ n, g (f n) = g n) :
    (MCSBarrier.update nodes i f).map g = nodes.map g := by
  apply List.ext_getElem?
  intro k
  rw [List.getElem?_map, List.getElem?_map]
  by_cases hk : i = k
  · subst hk
    by_cases hi : i < nodes.length
    · unfold MCSBarrier.update
      rw [List.getElem?_set_self hi, List.getD_eq_getElem?_getD, List.getElem?_eq_getElem hi]
      simp [h]
    · unfold MCSBarrier.update
      rw [List.set_eq_of_length_le (Nat.le_of_not_lt hi)]
  · unfold MCSBarrier.update
    rw [List.getElem?_set_ne hk]

theorem mcs_signal_map {β : Type} (g : MCSBarrier.treenode → β)
    (hg : ∀ (n : MCSBarrier.treenode) (v : Bool), g { n with parentsense := v } = g n)
    (nodes : List MCSBarrier.treenode) (child : Option Nat) (v : Bool) :
    (MCSBarrier.signal nodes child v).map g = nodes.map g := by
  cases child with
  | none => rfl
  | some c => exact mcs_map_update g nodes c (MCSBarrier.setParentsense v) (fun n => hg n v)

theorem mcs_signal_length (nodes : List MCSBarrier.treenode) (child : Option Nat) (v : Bool) :
    (MCSBarrier.signal nodes child v).length = nodes.length := by
  cases child with
  | none => rfl
  | some c => exact mcs_update_length nodes c (MCSBarrier.setParentsense v)

theorem getD_list_map {α β : Type} (g : α → β) (l : List α) (k : Nat) (d : α)
    (h : k < l.length) : g (l.getD k d) = (l.map g).getD k (g d) := by
  rw [List.getD_eq_getElem?_getD, List.getD_eq_getElem?_getD, List.getElem?_map,
    List.getElem?_eq_getElem h]
  rfl

end Barrier

/-! ### Steps of `MCSBarrier::wait` -/

namespace Barrier

theorem list_getD_set {α : Type} (l : List α) (i j : Nat) (a d : α) :
    (l.set i a).getD j d = if i = j ∧ i < l.length then a else l.getD j d := by
  rw [List.getD_eq_getElem?_getD, List.getD_eq_getElem?_getD]
  by_cases hij : i = j
  · subst hij
    by_cases hi : i < l.length
    · rw [List.getElem?_set_self hi, if_pos ⟨rfl, hi⟩]
      rfl
    · rw [List.set_eq_of_length_le (Nat.le_of_not_lt hi), if_neg (fun h => hi h.2)]
  · rw [List.getElem?_set_ne hij, if_neg (fun h => hij h.1)]

theorem mcs_step_shape (w : MCSBarrier.Threads) (tid : Nat) :
    (MCSBarrier.step w tid).nodes.map MCSBarrier.shape = w.nodes.map MCSBarrier.shape := by
  unfold MCSBarrier.step
  dsimp only
  split
  · rfl
  · split_ifs <;> rfl
  · exact mcs_map_update MCSBarrier.shape _ _ _ (fun n => rfl)
  · split
    · exact mcs_map_update MCSBarrier.shape _ _ _ (fun n => rfl)
    · rfl
  · split_ifs <;> rfl
  · exact mcs_signal_map MCSBarrier.shape (fun n v => rfl) _ _ _
  · exact mcs_map_update MCSBarrier.shape _ _ _ (fun n => rfl)

theorem mcs_node_update (nodes : List MCSBarrier.treenode) (i u : Nat)
    (f : MCSBarrier.treenode → MCSBarrier.treenode) :
    (MCSBarrier.update nodes i f).getD u MCSBarrier.noNode =
      if i = u ∧ i < nodes.length then f (nodes.getD i MCSBarrier.noNode)
      else nodes.getD u MCSBarrier.noNode := by
  unfold MCSBarrier.update
  rw [list_getD_set]

/-- What a step can do to a node: nothing, or one of the four assignments of `wait`. -/
theorem mcs_step_node (w : MCSBarrier.Threads) (tid u : Nat) :
    (MCSBarrier.step w tid).node u = w.node u ∨
    (∃ i, (MCSBarrier.step w tid).node u = MCSBarrier.rearm i (w.node u)) ∨
    (∃ s, (MCSBarrier.step w tid).node u = MCSBarrier.arrived s (w.node u)) ∨
    (∃ v, (MCSBarrier.step w tid).node u = MCSBarrier.setParentsense v (w.node u)) ∨
    (MCSBarrier.step w tid).node u = MCSBarrier.flip (w.node u) := by
  have hup : ∀ (i : Nat) (f : MCSBarrier.treenode → MCSBarrier.treenode),
      (MCSBarrier.update w.nodes i f).getD u MCSBarrier.noNode = w.node u ∨
      (MCSBarrier.update w.nodes i f).getD u MCSBarrier.noNode = f (w.node u) := by
    intro i f
    rw [mcs_node_update]
    split_ifs with h
    · right
      rw [h.1]
      rfl
    · left
      rfl
  unfold MCSBarrier.step
  dsimp only
  split
  · exact Or.inl rfl
  · split_ifs <;> exact Or.inl rfl
  · rename_i i _
    rcases hup tid (MCSBarrier.rearm i) with h | h
    · exact Or.inl h
    · exact Or.inr (Or.inl ⟨i, h⟩)
  · split
    · rename_i p s _
      rcases hup p (MCSBarrier.arrived s) with h | h
      · exact Or.inl h
      · exact Or.inr (Or.inr (Or.inl ⟨s, h⟩))
    · exact Or.inl rfl
  · split_ifs <;> exact Or.inl rfl
  · rename_i k _
    cases hc : (w.node tid).childpointers.getD k none with
    | none => exact Or.inl rfl
    | some c =>
      rcases hup c (MCSBarrier.setParentsense (w.node tid).sense) with h | h
      · exact Or.inl h
      · exact Or.inr (Or.inr (Or.inr (Or.inl ⟨_, h⟩)))
  · rcases hup tid MCSBarrier.flip with h | h
    · exact Or.inl h
    · exact Or.inr (Or.inr (Or.inr (Or.inr h)))

theorem mcs_step_lengths (w : MCSBarrier.Threads) (tid : Nat) :
    (MCSBarrier.step w tid).nodes.length = w.nodes.length ∧
    (MCSBarrier.step w tid).pc.length = w.pc.length ∧
    (MCSBarrier.step w tid).entered.length = w.entered.length ∧
    (MCSBarrier.step w tid).returned.length = w.returned.length := by
  have hn := congrArg List.length (mcs_step_shape w tid)
  rw [List.length_map, List.length_map] at hn
  refine ⟨hn, ?_⟩
  unfold MCSBarrier.step
  dsimp only
  split
  · simp [MCSBarrier.Threads.goto]
  · split_ifs <;> simp [MCSBarrier.Threads.goto]
  · simp [MCSBarrier.Threads.goto]
  · split <;> simp [MCSBarrier.Threads.goto]
  · split_ifs <;> simp [MCSBarrier.Threads.goto]
  · simp [MCSBarrier.Threads.goto]
  · simp [MCSBarrier.Threads.goto]

theorem mcs_step_sized (w : MCSBarrier.Threads) (tid size : Nat) (h : w.Sized size) :
    (MCSBarrier.step w tid).Sized size := by
  obtain ⟨h1, h2, h3, h4, h5⟩ := h
  obtain ⟨l1, l2, l3, l4⟩ := mcs_step_lengths w tid
  refine ⟨l1.trans h1, l2.trans h2, l3.trans h3, l4.trans h4, ?_⟩
  intro t ht
  have := h5 t ht
  rcases mcs_step_node w tid t with h | ⟨i, h⟩ | ⟨s, h⟩ | ⟨v, h⟩ | h <;> rw [h]
  · exact this
  · simpa [MCSBarrier.rearm] using this
  · simpa [MCSBarrier.arrived] using this
  · simpa [MCSBarrier.setParentsense] using this
  · simpa [MCSBarrier.flip] using this

theorem mcs_place_goto (w : MCSBarrier.Threads) (tid u : Nat) (pc : MCSBarrier.PC) :
    (w.goto tid pc).place u = if tid = u ∧ tid < w.pc.length then pc else w.place u := by
  unfold MCSBarrier.Threads.place MCSBarrier.Threads.goto
  dsimp only
  rw [list_getD_set]

/-- A step of thread `tid` leaves the place, the counts and the `sense` of every other
thread as they are. -/
theorem mcs_step_frame (w : MCSBarrier.Threads) (tid u : Nat) (h : u ≠ tid) :
    (MCSBarrier.step w tid).place u = w.place u ∧
    (MCSBarrier.step w tid).calls u = w.calls u ∧
    (MCSBarrier.step w tid).returns u = w.returns u ∧
    ((MCSBarrier.step w tid).node u).sense = (w.node u).sense := by
  have hne : ¬ (tid = u ∧ tid < w.pc.length) := fun hh => h hh.1.symm
  have hpl : ∀ pc, (w.goto tid pc).place u = w.place u := by
    intro pc
    rw [mcs_place_goto, if_neg hne]
  have hsense : ((MCSBarrier.step w tid).node u).sense = (w.node u).sense := by
    unfold MCSBarrier.step
    dsimp only
    split
    · rfl
    · split_ifs <;> rfl
    · unfold MCSBarrier.Threads.node MCSBarrier.Threads.goto
      dsimp only
      rw [mcs_node_update]
      split_ifs with hh
      · exact absurd hh.1.symm h
      · rfl
    · split
      · unfold MCSBarrier.Threads.node MCSBarrier.Threads.goto
        dsimp only
        rw [mcs_node_update]
        split_ifs with hh
        · rw [hh.1]
          rfl
        · rfl
      · rfl
    · split_ifs <;> rfl
    · rcases mcs_step_node w tid u with hn | ⟨i, hn⟩ | ⟨s, hn⟩ | ⟨v, hn⟩ | hn
      all_goals
        unfold MCSBarrier.Threads.node MCSBarrier.Threads.goto
        dsimp only
        unfold MCSBarrier.signal
        split
        · rw [mcs_node_update]
          split_ifs with hh
          · rw [hh.1]
            rfl
          · rfl
        · rfl
    · unfold MCSBarrier.Threads.node MCSBarrier.Threads.goto
      dsimp only
      rw [mcs_node_update]
      split_ifs with hh
      · exact absurd hh.1.symm h
      · rfl
  refine ⟨?_, ?_, ?_, hsense⟩
  · unfold MCSBarrier.step
    dsimp only
    split
    · exact hpl _
    · split_ifs <;> exact hpl _
    · exact hpl _
    · split <;> exact hpl _
    · split_ifs
      · rfl
      · exact hpl _
    · exact hpl _
    · exact hpl _
  · unfold MCSBarrier.step
    dsimp only
    split
    · unfold MCSBarrier.Threads.calls MCSBarrier.Threads.goto
      dsimp only
      rw [list_getD_set, if_neg (fun hh => h hh.1.symm)]
    · split_ifs <;> rfl
    · rfl
    · split <;> rfl
    · split_ifs <;> rfl
    · rfl
    · rfl
  · unfold MCSBarrier.step
    dsimp only
    split
    · rfl
    · split_ifs <;> rfl
    · rfl
    · split <;> rfl
    · split_ifs <;> rfl
    · rfl
    · unfold MCSBarrier.Threads.returns MCSBarrier.Threads.goto
      dsimp only
      rw [list_getD_set, if_neg (fun hh => h hh.1.symm)]

theorem mcs_rank_check (j : Fin 4) :
    (if h : j.val + 1 < 4 then MCSBarrier.PC.check ⟨j.val + 1, h⟩
      else MCSBarrier.PC.rearm 0).rank = 2 + j.val := by
  split_ifs with h
  · unfold MCSBarrier.PC.rank
    dsimp only
    omega
  · have : j.val = 3 := by omega
    rw [this]
    rfl

theorem mcs_rank_rearm (i : Fin 4) :
    (if h : i.val + 1 < 4 then MCSBarrier.PC.rearm ⟨i.val + 1, h⟩
      else MCSBarrier.PC.notify).rank = 6 + i.val := by
  split_ifs with h
  · unfold MCSBarrier.PC.rank
    dsimp only
    omega
  · have : i.val = 3 := by omega
    rw [this]
    rfl

theorem mcs_rank_signal (k : Fin 2) :
    (if h : k.val + 1 < 2 then MCSBarrier.PC.signal ⟨k.val + 1, h⟩
      else MCSBarrier.PC.flip).rank = 12 + k.val := by
  split_ifs with h
  · unfold MCSBarrier.PC.rank
    dsimp only
    omega
  · have : k.val = 1 := by omega
    rw [this]
    rfl

/-- The place of the stepping thread after it has moved. -/
theorem mcs_place_goto_self (w : MCSBarrier.Threads) (tid : Nat) (pc : MCSBarrier.PC)
    (h : tid < w.pc.length) : (w.goto tid pc).place tid = pc := by
  rw [mcs_place_goto, if_pos ⟨rfl, h⟩]

/-- A step that only moves the stepping thread to a place of rank `r`. -/
theorem mcs_goto_effect (w : MCSBarrier.Threads) (tid r : Nat) (pc : MCSBarrier.PC)
    (h : tid < w.pc.length) (hr : pc.rank = r) :
    (w.goto tid pc).position tid = 14 * w.returns tid + r ∧
    (w.goto tid pc).calls tid = w.calls tid ∧
    (w.goto tid pc).returns tid = w.returns tid ∧
    (w.goto tid pc).nodes = w.nodes := by
  refine ⟨?_, rfl, rfl, rfl⟩
  unfold MCSBarrier.Threads.position
  rw [mcs_place_goto_self w tid pc h, hr]
  rfl

theorem mcs_start_sized (nodes : List MCSBarrier.treenode) (P : Nat) :
    (MCSBarrier.start nodes P).Sized nodes.length := by
  refine ⟨mcs_reinit_length nodes P, List.length_replicate _ _, List.length_replicate _ _,
    List.length_replicate _ _, ?_⟩
  intro t ht
  unfold MCSBarrier.Threads.node MCSBarrier.start
  dsimp only
  rw [mcs_reinit_getD nodes P t ht]
  exact ⟨by simp, by simp⟩

end Barrier

namespace Barrier

theorem mcs_flag_set (l : List Bool) (i j : Nat) (v : Bool) (h : l.length = 4) (hi : i < 4) :
    (l.set i v).getD j false = if j = i then v else l.getD j false := by
  rw [list_getD_set]
  by_cases hij : i = j
  · rw [if_pos ⟨hij, by omega⟩, if_pos hij.symm]
  · rw [if_neg (fun hh => hij hh.1), if_neg (fun hh => hij hh.symm)]

theorem mcs_step_idle (w : MCSBarrier.Threads) (size tid : Nat) (hs : w.Sized size)
    (ht : tid < size) (hp : w.place tid = .idle) :
    w.position tid = 14 * w.returns tid ∧
    (MCSBarrier.step w tid).position tid = w.position tid + 1 ∧
    (MCSBarrier.step w tid).calls tid = w.calls tid + 1 ∧
    (MCSBarrier.step w tid).returns tid = w.returns tid ∧
    (MCSBarrier.step w tid).nodes = w.nodes := by
  have hstep : MCSBarrier.step w tid =
      { w.goto tid (.check 0) with entered := w.entered.set tid (w.calls tid + 1) } := by
    unfold MCSBarrier.step
    rw [hp]
  have hpos : w.position tid = 14 * w.returns tid := by
    unfold MCSBarrier.Threads.position
    rw [hp]
    rfl
  rw [hstep, hpos]
  refine ⟨rfl, ?_, ?_, rfl, rfl⟩
  · exact (mcs_goto_effect w tid 1 (.check 0) (by rw [hs.2.1]; exact ht) rfl).1
  · unfold MCSBarrier.Threads.calls
    dsimp only
    rw [list_getD_set, if_pos ⟨rfl, by rw [hs.2.2.1]; exact ht⟩]

theorem mcs_step_rearm (w : MCSBarrier.Threads) (size tid : Nat) (i : Fin 4)
    (hs : w.Sized size) (ht : tid < size) (hp : w.place tid = .rearm i) :
    w.position tid = 14 * w.returns tid + 5 + i.val ∧
    (MCSBarrier.step w tid).position tid = w.position tid + 1 ∧
    (MCSBarrier.step w tid).calls tid = w.calls tid ∧
    (MCSBarrier.step w tid).returns tid = w.returns tid ∧
    (∀ u, ((MCSBarrier.step w tid).node u).sense = (w.node u).sense ∧
      ((MCSBarrier.step w tid).node u).parentsense = (w.node u).parentsense) ∧
    (∀ u j, ((MCSBarrier.step w tid).node u).childnotready.getD j false =
      if u = tid ∧ j = i.val then (w.node tid).havechild.getD i.val false
      else (w.node u).childnotready.getD j false) := by
  have hstep : MCSBarrier.step w tid =
      { w.goto tid (if h : i.val + 1 < 4 then .rearm ⟨i.val + 1, h⟩ else .notify) with
        nodes := MCSBarrier.update w.nodes tid (MCSBarrier.rearm i) } := by
    unfold MCSBarrier.step
    rw [hp]
  have hpos : w.position tid = 14 * w.returns tid + 5 + i.val := by
    unfold MCSBarrier.Threads.position
    rw [hp]
    unfold MCSBarrier.PC.rank
    dsimp only
    omega
  have hnode : ∀ u, (MCSBarrier.step w tid).node u =
      if u = tid then MCSBarrier.rearm i (w.node tid) else w.node u := by
    intro u
    rw [hstep]
    unfold MCSBarrier.Threads.node
    dsimp only
    rw [mcs_node_update]
    by_cases hu : u = tid
    · rw [if_pos ⟨hu.symm, by rw [hs.1]; exact ht⟩, if_pos hu]
    · rw [if_neg (fun hh => hu hh.1.symm), if_neg hu]
  refine ⟨hpos, ?_, ?_, ?_, ?_, ?_⟩
  · rw [hstep, hpos]
    have := (mcs_goto_effect w tid (6 + i.val) _ (by rw [hs.2.1]; exact ht)
      (mcs_rank_rearm i)).1
    unfold MCSBarrier.Threads.position at this ⊢
    dsimp only at this ⊢
    unfold MCSBarrier.Threads.returns MCSBarrier.Threads.place at this ⊢
    dsimp only at this ⊢
    omega
  · rw [hstep]
    rfl
  · rw [hstep]
    rfl
  · intro u
    rw [hnode]
    split_ifs with hu
    · rw [hu]
      exact ⟨rfl, rfl⟩
    · exact ⟨rfl, rfl⟩
  · intro u j
    rw [hnode]
    by_cases hu : u = tid
    · rw [if_pos hu]
      unfold MCSBarrier.rearm
      dsimp only
      rw [mcs_flag_set _ _ _ _ (hs.2.2.2.2 tid ht).1 i.isLt]
      by_cases hj : j = i.val
      · rw [if_pos hj, if_pos ⟨hu, hj⟩]
      · rw [if_neg hj, if_neg (fun hh => hj hh.2), hu]
    · rw [if_neg hu, if_neg (fun hh => hu hh.1)]

theorem mcs_step_check (w : MCSBarrier.Threads) (size tid : Nat) (j : Fin 4)
    (hs : w.Sized size) (ht : tid < size) (hp : w.place tid = .check j) :
    w.position tid = 14 * w.returns tid + 1 + j.val ∧
    (MCSBarrier.step w tid).position tid =
      (if (w.node tid).childnotready.getD j.val false = true then 14 * w.returns tid + 1
        else w.position tid + 1) ∧
    (MCSBarrier.step w tid).calls tid = w.calls tid ∧
    (MCSBarrier.step w tid).returns tid = w.returns tid ∧
    (MCSBarrier.step w tid).nodes = w.nodes := by
  have hstep : MCSBarrier.step w tid =
      if (w.node tid).childnotready.getD j false then w.goto tid (.check 0)
      else w.goto tid (if h : j.val + 1 < 4 then .check ⟨j.val + 1, h⟩ else .rearm 0) := by
    unfold MCSBarrier.step
    rw [hp]
  have hpos : w.position tid = 14 * w.returns tid + 1 + j.val := by
    unfold MCSBarrier.Threads.position
    rw [hp]
    unfold MCSBarrier.PC.rank
    dsimp only
    omega
  have hlen : tid < w.pc.length := by
    rw [hs.2.1]
    exact ht
  rw [hstep]
  refine ⟨hpos, ?_⟩
  by_cases hf : (w.node tid).childnotready.getD j.val false = true
  · rw [if_pos hf, if_pos hf]
    exact mcs_goto_effect w tid 1 (.check 0) hlen rfl
  · rw [if_neg hf, if_neg hf]
    have := mcs_goto_effect w tid (2 + j.val) _ hlen (mcs_rank_check j)
    refine ⟨?_, this.2⟩
    rw [this.1, hpos]
    omega

theorem mcs_step_notify (w : MCSBarrier.Threads) (size tid : Nat)
    (hs : w.Sized size) (ht : tid < size) (hp : w.place tid = .notify)
    (hpp : (w.node tid).parentpointer =
      if tid = 0 then none else some ((tid - 1) / 4, (tid - 1) % 4)) :
    w.position tid = 14 * w.returns tid + 9 ∧
    (MCSBarrier.step w tid).position tid =
      (if tid = 0 then w.position tid + 2 else w.position tid + 1) ∧
    (MCSBarrier.step w tid).calls tid = w.calls tid ∧
    (MCSBarrier.step w tid).returns tid = w.returns tid ∧
    (∀ u, ((MCSBarrier.step w tid).node u).sense = (w.node u).sense ∧
      ((MCSBarrier.step w tid).node u).parentsense = (w.node u).parentsense) ∧
    (∀ u j, ((MCSBarrier.step w tid).node u).childnotready.getD j false =
      if tid ≠ 0 ∧ u = (tid - 1) / 4 ∧ j = (tid - 1) % 4 then false
      else (w.node u).childnotready.getD j false) := by
  have hpos : w.position tid = 14 * w.returns tid + 9 := by
    unfold MCSBarrier.Threads.position
    rw [hp]
    rfl
  have hlen : tid < w.pc.length := by
    rw [hs.2.1]
    exact ht
  by_cases h0 : tid = 0
  · have hstep : MCSBarrier.step w tid = w.goto tid (.signal 0) := by
      unfold MCSBarrier.step
      rw [hp]
      dsimp only
      rw [hpp, if_pos h0]
    have := mcs_goto_effect w tid 11 (.signal 0) hlen rfl
    rw [hstep, if_pos h0]
    refine ⟨hpos, ?_, this.2.1, this.2.2.1, fun u => ⟨rfl, rfl⟩, ?_⟩
    · rw [this.1, hpos]
    · intro u j
      rw [if_neg (fun hh => hh.1 h0)]
      rfl
  · have hstep : MCSBarrier.step w tid =
        { w.goto tid .sense with
          nodes := MCSBarrier.update w.nodes ((tid - 1) / 4)
            (MCSBarrier.arrived ((tid - 1) % 4)) } := by
      unfold MCSBarrier.step
      rw [hp]
      dsimp only
      rw [hpp, if_neg h0]
    have hp4 : (tid - 1) / 4 < size := by omega
    have hnode : ∀ u, (MCSBarrier.step w tid).node u =
        if u = (tid - 1) / 4 then MCSBarrier.arrived ((tid - 1) % 4) (w.node ((tid - 1) / 4))
        else w.node u := by
      intro u
      rw [hstep]
      unfold MCSBarrier.Threads.node
      dsimp only
      rw [mcs_node_update]
      by_cases hu : u = (tid - 1) / 4
      · rw [if_pos ⟨hu.symm, by rw [hs.1]; exact hp4⟩, if_pos hu]
      · rw [if_neg (fun hh => hu hh.1.symm), if_neg hu]
    have := mcs_goto_effect w tid 10 .sense hlen rfl
    rw [if_neg h0]
    refine ⟨hpos, ?_, ?_, ?_, ?_, ?_⟩
    · rw [hpos, ← this.1, hstep]
      rfl
    · rw [hstep]
      rfl
    · rw [hstep]
      rfl
    · intro u
      rw [hnode]
      split_ifs with hu
      · rw [hu]
        exact ⟨rfl, rfl⟩
      · exact ⟨rfl, rfl⟩
    · intro u j
      rw [hnode]
      by_cases hu : u = (tid - 1) / 4
      · rw [if_pos hu]
        unfold MCSBarrier.arrived
        dsimp only
        rw [mcs_flag_set _ _ _ _ (hs.2.2.2.2 _ hp4).1 (Nat.mod_lt _ (by decide))]
        by_cases hj : j = (tid - 1) % 4
        · rw [if_pos hj, if_pos ⟨h0, hu, hj⟩]
        · rw [if_neg hj, if_neg (fun hh => hj hh.2.2), hu]
      · rw [if_neg hu, if_neg (fun hh => hu hh.2.1)]

theorem mcs_step_sense (w : MCSBarrier.Threads) (size tid : Nat)
    (hs : w.Sized size) (ht : tid < size) (hp : w.place tid = .sense) :
    w.position tid = 14 * w.returns tid + 10 ∧
    (MCSBarrier.step w tid).position tid =
      (if (w.node tid).parentsense = (w.node tid).sense then w.position tid + 1
        else w.position tid) ∧
    (MCSBarrier.step w tid).calls tid = w.calls tid ∧
    (MCSBarrier.step w tid).returns tid = w.returns tid ∧
    (MCSBarrier.step w tid).nodes = w.nodes := by
  have hstep : MCSBarrier.step w tid =
      if (w.node tid).parentsense ≠ (w.node tid).sense then w
      else w.goto tid (.signal 0) := by
    unfold MCSBarrier.step
    rw [hp]
  have hpos : w.position tid = 14 * w.returns tid + 10 := by
    unfold MCSBarrier.Threads.position
    rw [hp]
    rfl
  have hlen : tid < w.pc.length := by
    rw [hs.2.1]
    exact ht
  rw [hstep]
  refine ⟨hpos, ?_⟩
  by_cases hf : (w.node tid).parentsense = (w.node tid).sense
  · rw [if_neg (fun hh => hh hf), if_pos hf]
    have := mcs_goto_effect w tid 11 (.signal 0) hlen rfl
    refine ⟨?_, this.2⟩
    rw [this.1, hpos]
  · rw [if_pos hf, if_neg hf]
    exact ⟨rfl, rfl, rfl, rfl⟩

theorem mcs_step_signal (w : MCSBarrier.Threads) (size tid P : Nat) (k : Fin 2)
    (hs : w.Sized size) (ht : tid < size) (hP : P ≤ size) (hp : w.place tid = .signal k)
    (hcp : (w.node tid).childpointers.getD k.val none =
      if 2 * tid + k.val + 1 < P then some (2 * tid + k.val + 1) else none) :
    w.position tid = 14 * w.returns tid + 11 + k.val ∧
    (MCSBarrier.step w tid).position tid = w.position tid + 1 ∧
    (MCSBarrier.step w tid).calls tid = w.calls tid ∧
    (MCSBarrier.step w tid).returns tid = w.returns tid ∧
    (∀ u, ((MCSBarrier.step w tid).node u).sense = (w.node u).sense ∧
      ((MCSBarrier.step w tid).node u).childnotready = (w.node u).childnotready) ∧
    (∀ u, ((MCSBarrier.step w tid).node u).parentsense =
      if u = 2 * tid + k.val + 1 ∧ u < P then (w.node tid).sense
      else (w.node u).parentsense) := by
  have hstep : MCSBarrier.step w tid =
      { w.goto tid (if h : k.val + 1 < 2 then .signal ⟨k.val + 1, h⟩ else .flip) with
        nodes := MCSBarrier.signal w.nodes
          (if 2 * tid + k.val + 1 < P then some (2 * tid + k.val + 1) else none)
          (w.node tid).sense } := by
    unfold MCSBarrier.step
    rw [hp]
    dsimp only
    rw [hcp]
  have hpos : w.position tid = 14 * w.returns tid + 11 + k.val := by
    unfold MCSBarrier.Threads.position
    rw [hp]
    unfold MCSBarrier.PC.rank
    dsimp only
    omega
  have hlen : tid < w.pc.length := by
    rw [hs.2.1]
    exact ht
  have hnode : ∀ u, (MCSBarrier.step w tid).node u =
      if u = 2 * tid + k.val + 1 ∧ u < P then
        MCSBarrier.setParentsense (w.node tid).sense (w.node u)
      else w.node u := by
    intro u
    rw [hstep]
    unfold MCSBarrier.Threads.node
    dsimp only
    by_cases hc : 2 * tid + k.val + 1 < P
    · rw [if_pos hc]
      unfold MCSBarrier.signal
      dsimp only
      rw [mcs_node_update]
      by_cases hu : u = 2 * tid + k.val + 1
      · rw [if_pos ⟨hu.symm, by rw [hs.1]; omega⟩, if_pos ⟨hu, by omega⟩, hu]
      · rw [if_neg (fun hh => hu hh.1.symm), if_neg (fun hh => hu hh.1)]
    · rw [if_neg hc, if_neg (fun hh => hc (by omega))]
      rfl
  have := mcs_goto_effect w tid (12 + k.val) _ hlen (mcs_rank_signal k)
  refine ⟨hpos, ?_, ?_, ?_, ?_, ?_⟩
  · rw [hpos]
    have h1 := this.1
    rw [hstep]
    unfold MCSBarrier.Threads.position at h1 ⊢
    unfold MCSBarrier.Threads.returns MCSBarrier.Threads.place at h1 ⊢
    dsimp only at h1 ⊢
    omega
  · rw [hstep]
    rfl
  · rw [hstep]
    rfl
  · intro u
    rw [hnode]
    split_ifs <;> exact ⟨rfl, rfl⟩
  · intro u
    rw [hnode]
    split_ifs <;> rfl

theorem mcs_step_flip (w : MCSBarrier.Threads) (size tid : Nat)
    (hs : w.Sized size) (ht : tid < size) (hp : w.place tid = .flip) :
    w.position tid = 14 * w.returns tid + 13 ∧
    (MCSBarrier.step w tid).position tid = w.position tid + 1 ∧
    (MCSBarrier.step w tid).calls tid = w.calls tid ∧
    (MCSBarrier.step w tid).returns tid = w.returns tid + 1 ∧
    (MCSBarrier.step w tid).place tid = .idle ∧
    (∀ u, ((MCSBarrier.step w tid).node u).parentsense = (w.node u).parentsense ∧
      ((MCSBarrier.step w tid).node u).childnotready = (w.node u).childnotready) ∧
    ((MCSBarrier.step w tid).node tid).sense = !(w.node tid).sense := by
  have hstep : MCSBarrier.step w tid =
      { w.goto tid .idle with
        nodes := MCSBarrier.update w.nodes tid MCSBarrier.flip
        returned := w.returned.set tid (w.returns tid + 1) } := by
    unfold MCSBarrier.step
    rw [hp]
  have hpos : w.position tid = 14 * w.returns tid + 13 := by
    unfold MCSBarrier.Threads.position
    rw [hp]
    rfl
  have hlen : tid < w.pc.length := by
    rw [hs.2.1]
    exact ht
  have hnode : ∀ u, (MCSBarrier.step w tid).node u =
      if u = tid then MCSBarrier.flip (w.node tid) else w.node u := by
    intro u
    rw [hstep]
    unfold MCSBarrier.Threads.node
    dsimp only
    rw [mcs_node_update]
    by_cases hu : u = tid
    · rw [if_pos ⟨hu.symm, by rw [hs.1]; exact ht⟩, if_pos hu]
    · rw [if_neg (fun hh => hu hh.1.symm), if_neg hu]
  have hret : (MCSBarrier.step w tid).returns tid = w.returns tid + 1 := by
    rw [hstep]
    unfold MCSBarrier.Threads.returns
    dsimp only
    rw [list_getD_set, if_pos ⟨rfl, by rw [hs.2.2.2.1]; exact ht⟩]
  have hplace : (MCSBarrier.step w tid).place tid = .idle := by
    rw [hstep]
    exact mcs_place_goto_self w tid .idle hlen
  refine ⟨hpos, ?_, ?_, hret, hplace, ?_, ?_⟩
  · rw [hpos]
    unfold MCSBarrier.Threads.position
    rw [hret, hplace]
    have hr : MCSBarrier.PC.idle.rank = 0 := rfl
    rw [hr]
    omega
  · rw [hstep]
    rfl
  · intro u
    rw [hnode]
    split_ifs with hu
    · rw [hu]
      exact ⟨rfl, rfl⟩
    · exact ⟨rfl, rfl⟩
  · rw [hnode, if_pos rfl]
    rfl

end Barrier

namespace Barrier

/-- The pointers and child flags of a node in a storage with the shape `_reinit(P)` gave
it. -/
theorem mcs_shape_facts (nodes : List MCSBarrier.treenode) (P : Nat) (w : MCSBarrier.Threads)
    (tid : Nat) (hlen : w.nodes.length = nodes.length)
    (hshape : w.nodes.map MCSBarrier.shape =
      (MCSBarrier._reinit nodes P).map MCSBarrier.shape)
    (ht : tid < nodes.length) (h3 : 4 * nodes.length < 2 ^ 32) :
    (w.node tid).parentpointer =
      (if tid = 0 then none else some ((tid - 1) / 4, (tid - 1) % 4)) ∧
    (∀ k : Fin 2, (w.node tid).childpointers.getD k.val none =
      if 2 * tid + k.val + 1 < P then some (2 * tid + k.val + 1) else none) ∧
    (∀ j, j < 4 → (w.node tid).havechild.getD j false = decide (4 * tid + j + 1 < P)) := by
  have h1 : MCSBarrier.shape (w.node tid) =
      MCSBarrier.shape ((MCSBarrier._reinit nodes P).getD tid MCSBarrier.noNode) := by
    unfold MCSBarrier.Threads.node
    rw [getD_list_map MCSBarrier.shape w.nodes tid _ (by rw [hlen]; exact ht), hshape,
      ← getD_list_map MCSBarrier.shape _ tid _ (by rw [mcs_reinit_length]; exact ht)]
  rw [mcs_reinit_getD nodes P tid ht] at h1
  unfold MCSBarrier.shape at h1
  dsimp only at h1
  rw [Prod.mk.injEq, Prod.mk.injEq] at h1
  obtain ⟨hh, hpp, hcp⟩ := h1
  refine ⟨hpp, ?_, ?_⟩
  · intro k
    rw [hcp]
    have hk : k.val = 0 ∨ k.val = 1 := by omega
    rcases hk with hk | hk <;> rw [hk]
    · rw [List.getD_cons_zero, u32_of_lt (by omega)]
      split_ifs <;> first | rfl | omega
    · rw [List.getD_cons_succ, List.getD_cons_zero, u32_of_lt (by omega)]
      split_ifs <;> first | rfl | omega
  · intro j hj
    rw [hh, getD_map_range_four _ j hj, u32_of_lt (by omega)]

end Barrier

namespace Barrier

theorem mcs_run_cons (w : MCSBarrier.Threads) (tid : Nat) (rest : List Nat) :
    MCSBarrier.run w (tid :: rest) = MCSBarrier.run (MCSBarrier.step w tid) rest :=
  rfl

end Barrier

namespace Barrier

end Barrier

namespace Barrier

/-- A loop `for (i < n) l[i] = g(i, l[i])` writes `g i (l[i])` into every slot below `n`
and keeps the others. -/
theorem foldl_set_range {α : Type} (g : Nat → α → α) (d : α) (n : Nat) (l : List α) :
    ((List.range n).foldl (fun ns i => ns.set i (g i (ns.getD i d))) l).length = l.length ∧
    ∀ k, ((List.range n).foldl (fun ns i => ns.set i (g i (ns.getD i d))) l).getD k d =
      if k < n ∧ k < l.length then g k (l.getD k d) else l.getD k d := by
  induction n with
  | zero =>
    refine ⟨rfl, fun k => ?_⟩
    rw [if_neg (by omega)]
    rfl
  | succ n ih =>
    obtain ⟨ihl, ihg⟩ := ih
    rw [List.range_succ, List.foldl_append]
    simp only [List.foldl_cons, List.foldl_nil]
    refine ⟨by rw [List.length_set, ihl], fun k => ?_⟩
    by_cases hk : n = k
    · subst hk
      by_cases hl : n < l.length
      · rw [List.getD_eq_getElem?_getD, List.getElem?_set_self (by rw [ihl]; exact hl),
          ihg n, if_neg (by omega), if_pos ⟨by omega, hl⟩]
        rfl
      · rw [List.set_eq_of_length_le (by rw [ihl]; omega), ihg n, if_neg (by omega),
          if_neg (by omega)]
    · rw [List.getD_eq_getElem?_getD, List.getElem?_set_ne hk, ← List.getD_eq_getElem?_getD,
        ihg k]
      by_cases h1 : k < n ∧ k < l.length
      · rw [if_pos h1, if_pos ⟨by omega, h1.2⟩]
      · rw [if_neg h1, if_neg (by omega)]

/-- A loop that bumps the two counters for the elements that satisfy `p` adds their number
to both, modulo `2 ^ 32`, and keeps the other fields. -/
theorem topo_foldl_bump (p : Nat → Prop) [DecidablePred p] (L : List Nat) :
    ∀ n : TopoBarrier.treenode,
      (L.foldl (fun m j => if p j then TopoBarrier.bump m else m) n) =
        { n with
          childnotready := if L.countP (fun j => p j) = 0 then n.childnotready
            else u32 (n.childnotready + L.countP fun j => p j)
          havechild := if L.countP (fun j => p j) = 0 then n.havechild
            else u32 (n.havechild + L.countP fun j => p j) } := by
  induction L with
  | nil => intro n; rfl
  | cons j L ih =>
    intro n
    rw [List.foldl_cons, ih, List.countP_cons]
    by_cases hp : p j
    · simp only [hp, if_true, decide_True, TopoBarrier.bump]
      by_cases h0 : L.countP (fun j => decide (p j)) = 0
      · simp [h0]
      · simp only [h0, if_false, Nat.add_eq_zero, one_ne_zero, and_false, u32, Nat.mod_add_mod]
        congr 2 <;> omega
    · simp only [hp, if_false, decide_False, Nat.add_zero, Bool.false_eq_true]

theorem topo_initNode_counts (LL : Topology) (P i : Nat) (n : TopoBarrier.treenode)
    (h4 : 4 * i + 4 < 2 ^ 32) (hP : P + 4 < 2 ^ 32) :
    (TopoBarrier.initNode LL P i n).havechild =
        TopoBarrier.childPackages (TopoBarrier.pkgs LL P) i + TopoBarrier.followers LL P i ∧
      (TopoBarrier.initNode LL P i n).childnotready =
        TopoBarrier.childPackages (TopoBarrier.pkgs LL P) i + TopoBarrier.followers LL P i ∧
      (TopoBarrier.initNode LL P i n).parentsense = 0 := by
  have hc1 : ((List.range 4).countP fun j => u32 (4 * i + j + 1) < TopoBarrier.pkgs LL P) =
      TopoBarrier.childPackages (TopoBarrier.pkgs LL P) i := by
    unfold TopoBarrier.childPackages
    apply List.countP_congr
    intro j hj
    rw [List.mem_range] at hj
    rw [u32_of_lt (by omega)]
  have hb1 : TopoBarrier.childPackages (TopoBarrier.pkgs LL P) i ≤ 4 := by
    unfold TopoBarrier.childPackages
    exact Nat.le_trans (List.countP_le_length _) (by simp)
  have hb2 : TopoBarrier.followers LL P i ≤ P := by
    unfold TopoBarrier.followers
    exact Nat.le_trans (List.countP_le_length _) (by simp)
  unfold TopoBarrier.initNode
  dsimp only
  rw [topo_foldl_bump (fun j => u32 (4 * i + j + 1) < TopoBarrier.pkgs LL P),
    topo_foldl_bump (fun j => LL.getPackageForThread j = i ∧ ¬ LL.isPackageLeader j = true)]
  dsimp only
  rw [hc1]
  have hf : ((List.range P).countP fun j =>
      decide (LL.getPackageForThread j = i ∧ ¬ LL.isPackageLeader j = true)) =
      TopoBarrier.followers LL P i := rfl
  rw [hf]
  have key : (if TopoBarrier.followers LL P i = 0 then
        (if TopoBarrier.childPackages (TopoBarrier.pkgs LL P) i = 0 then 0
          else u32 (0 + TopoBarrier.childPackages (TopoBarrier.pkgs LL P) i))
      else u32 ((if TopoBarrier.childPackages (TopoBarrier.pkgs LL P) i = 0 then 0
          else u32 (0 + TopoBarrier.childPackages (TopoBarrier.pkgs LL P) i)) +
        TopoBarrier.followers LL P i)) =
      TopoBarrier.childPackages (TopoBarrier.pkgs LL P) i + TopoBarrier.followers LL P i := by
    have e1 : (if TopoBarrier.childPackages (TopoBarrier.pkgs LL P) i = 0 then 0
          else u32 (0 + TopoBarrier.childPackages (TopoBarrier.pkgs LL P) i)) =
        TopoBarrier.childPackages (TopoBarrier.pkgs LL P) i := by
      split_ifs with h0
      · exact h0.symm
      · rw [Nat.zero_add]; exact u32_of_lt (by omega)
    rw [e1]
    split_ifs with h0
    · omega
    · exact u32_of_lt (by omega)
  exact ⟨key, key, rfl⟩

/-- The indicator of one package, summed over the first `n` packages. -/
theorem sum_indicator (k n : Nat) :
    ((List.range n).map fun i => if k = i then 1 else 0).sum = if k < n then 1 else 0 := by
  induction n with
  | zero => simp
  | succ n ih =>
    rw [List.range_succ, List.map_append, List.sum_append, ih]
    simp only [List.map_cons, List.map_nil, List.sum_cons, List.sum_nil]
    split_ifs <;> omega

/-- Counting the elements of `L` that satisfy `q` package by package. -/
theorem sum_countP_fiber {α : Type} (f : α → Nat) (q : α → Prop) [DecidablePred q] (n : Nat)
    (L : List α) (h : ∀ t ∈ L, f t < n) :
    ((List.range n).map fun i => L.countP fun t => f t = i ∧ q t).sum =
      L.countP fun t => q t := by
  induction L with
  | nil => simp
  | cons t L ih =>
    have ht : f t < n := h t (List.mem_cons_self _ _)
    have ihL := ih (fun s hs => h s (List.mem_cons_of_mem _ hs))
    simp only [List.countP_cons]
    rw [List.sum_map_add, ihL]
    congr 1
    by_cases hq : q t
    · simp only [hq, and_true, decide_True, if_true, decide_eq_true_eq]
      rw [sum_indicator, if_pos ht]
    · simp [hq]

theorem topo_reinit_node (LL : Topology) (b : TopoBarrier) (P i : Nat)
    (hi : i < TopoBarrier.pkgs LL P) (hp : TopoBarrier.pkgs LL P ≤ b.nodes.length) :
    (TopoBarrier._reinit LL b P).nodes.getD i TopoBarrier.noNode =
      TopoBarrier.initNode LL P i (b.nodes.getD i TopoBarrier.noNode) := by
  unfold TopoBarrier._reinit
  dsimp only
  rw [(foldl_set_range (fun i n => TopoBarrier.initNode LL P i n) TopoBarrier.noNode
    (TopoBarrier.pkgs LL P) b.nodes).2 i, if_pos ⟨hi, by omega⟩]

theorem topo_reinit_sense (LL : Topology) (b : TopoBarrier) (P t : Nat)
    (ht : t < P) (hs : P ≤ b.sense.length) :
    (TopoBarrier._reinit LL b P).sense.getD t 0 = 1 := by
  unfold TopoBarrier._reinit
  dsimp only
  rw [(foldl_set_range (fun _ _ => 1) 0 P b.sense).2 t, if_pos ⟨ht, by omega⟩]

/-- C19: after `_reinit(P)` (with the storage holding the `pkgs` packages and the `P`
threads, and the counts small enough not to wrap) every package `i < pkgs` has
`havechild = childnotready` = (number of `j` in 0..3 with `4 * i + j + 1 < pkgs`) + (number
of threads `t < P` of package `i` that are not package leaders) and `parentsense = 0`;
every thread `t < P` has sense 1; and when the threads below `P` all lie in the packages
below `pkgs` and every such package has exactly one leader among them, the sum of
`havechild` over the packages is `P - 1`. -/
theorem topo_reinit_counts_arrivals (LL : Topology) (b : TopoBarrier) (P : Nat)
    (hp : TopoBarrier.pkgs LL P ≤ b.nodes.length) (hs : P ≤ b.sense.length)
    (h4 : 4 * TopoBarrier.pkgs LL P < 2 ^ 32) (hP : P + 4 < 2 ^ 32) :
    (∀ i, i < TopoBarrier.pkgs LL P →
      ((TopoBarrier._reinit LL b P).nodes.getD i TopoBarrier.noNode).havechild =
          TopoBarrier.childPackages (TopoBarrier.pkgs LL P) i + TopoBarrier.followers LL P i ∧
        ((TopoBarrier._reinit LL b P).nodes.getD i TopoBarrier.noNode).childnotready =
          TopoBarrier.childPackages (TopoBarrier.pkgs LL P) i + TopoBarrier.followers LL P i ∧
        ((TopoBarrier._reinit LL b P).nodes.getD i TopoBarrier.noNode).parentsense = 0) ∧
    (∀ t, t < P → (TopoBarrier._reinit LL b P).sense.getD t 0 = 1) ∧
    ((∀ t, t < P → LL.getPackageForThread t < TopoBarrier.pkgs LL P) →
      (∀ i, i < TopoBarrier.pkgs LL P → TopoBarrier.leaders LL P i = 1) →
      ((List.range (TopoBarrier.pkgs LL P)).map fun i =>
        ((TopoBarrier._reinit LL b P).nodes.getD i TopoBarrier.noNode).havechild).sum =
        P - 1) := by
  have hnode : ∀ i, i < TopoBarrier.pkgs LL P →
      ((TopoBarrier._reinit LL b P).nodes.getD i TopoBarrier.noNode).havechild =
          TopoBarrier.childPackages (TopoBarrier.pkgs LL P) i + TopoBarrier.followers LL P i ∧
        ((TopoBarrier._reinit LL b P).nodes.getD i TopoBarrier.noNode).childnotready =
          TopoBarrier.childPackages (TopoBarrier.pkgs LL P) i + TopoBarrier.followers LL P i ∧
        ((TopoBarrier._reinit LL b P).nodes.getD i TopoBarrier.noNode).parentsense = 0 := by
    intro i hi
    rw [topo_reinit_node LL b P i hi hp]
    exact topo_initNode_counts LL P i _ (by omega) hP
  refine ⟨hnode, fun t ht => topo_reinit_sense LL b P t ht hs, ?_⟩
  intro hpk hlead
  have hmem : ∀ t ∈ List.range P, LL.getPackageForThread t < TopoBarrier.pkgs LL P :=
    fun t ht => hpk t (List.mem_range.mp ht)
  have hmap : ((List.range (TopoBarrier.pkgs LL P)).map fun i =>
      ((TopoBarrier._reinit LL b P).nodes.getD i TopoBarrier.noNode).havechild) =
      (List.range (TopoBarrier.pkgs LL P)).map fun i =>
        TopoBarrier.childPackages (TopoBarrier.pkgs LL P) i + TopoBarrier.followers LL P i := by
    apply List.map_congr_left
    intro i hi
    exact (hnode i (List.mem_range.mp hi)).1
  have hfol : ((List.range (TopoBarrier.pkgs LL P)).map fun i =>
      TopoBarrier.followers LL P i).sum =
      (List.range P).countP fun t => ¬ LL.isPackageLeader t = true :=
    sum_countP_fiber LL.getPackageForThread (fun t => ¬ LL.isPackageLeader t = true) _ _ hmem
  have hlea : ((List.range (TopoBarrier.pkgs LL P)).map fun i =>
      TopoBarrier.leaders LL P i).sum =
      (List.range P).countP fun t => LL.isPackageLeader t = true :=
    sum_countP_fiber LL.getPackageForThread (fun t => LL.isPackageLeader t = true) _ _ hmem
  have hone : ((List.range (TopoBarrier.pkgs LL P)).map fun i =>
      TopoBarrier.leaders LL P i).sum = TopoBarrier.pkgs LL P := by
    rw [List.map_congr_left (g := fun _ => 1) (fun i hi => hlead i (List.mem_range.mp hi))]
    simp
  have hsplit : ((List.range P).countP fun t => decide (LL.isPackageLeader t = true)) +
      ((List.range P).countP fun t => decide (¬ LL.isPackageLeader t = true)) = P := by
    have h1 := List.length_eq_countP_add_countP (fun t => decide (LL.isPackageLeader t = true))
      (List.range P)
    rw [List.length_range] at h1
    have h2 : ((List.range P).countP fun t => decide (¬ LL.isPackageLeader t = true)) =
        (List.range P).countP fun a => decide ¬ decide (LL.isPackageLeader a = true) = true :=
      List.countP_congr (by intro t _; simp)
    omega
  have hchild := sum_children (TopoBarrier.pkgs LL P) (TopoBarrier.pkgs LL P)
  rw [hmap, List.sum_map_add]
  unfold TopoBarrier.childPackages
  rw [hchild, hfol]
  rw [hlea] at hone
  have hk : P = 0 ∨ 1 ≤ TopoBarrier.pkgs LL P := by
    by_cases h0 : P = 0
    · exact Or.inl h0
    · exact Or.inr (Nat.lt_of_le_of_lt (Nat.zero_le _) (hpk 0 (by omega)))
  rw [Nat.min_eq_right (by omega)]
  omega

/-- Witness of C19: two packages of two threads, all four threads participating, on a
barrier left in an arbitrary state. -/
theorem topo_reinit_counts_arrivals_witness :
    ((List.range (TopoBarrier.pkgs twoPackages 4)).map fun i =>
      ((TopoBarrier._reinit twoPackages TopoBarrier.stale 4).nodes.getD i
        TopoBarrier.noNode).havechild).sum = 4 - 1 :=
  (topo_reinit_counts_arrivals twoPackages TopoBarrier.stale 4 (by decide) (by decide)
    (by decide) (by decide)).2.2 (by decide) (by decide)

end Barrier

namespace Barrier

theorem broadcast_count (H h k : Nat) :
    (broadcast H h).count k = if k < H ∧ k ≠ h then 1 else 0 := by
  unfold broadcast
  by_cases hk : k < H ∧ k ≠ h
  · rw [if_pos hk, List.count_filter (by simpa using hk.2)]
    exact List.count_eq_one_of_mem (List.nodup_range H) (List.mem_range.mpr hk.1)
  · rw [if_neg hk]
    apply List.count_eq_zero_of_not_mem
    intro hmem
    rw [List.mem_filter, List.mem_range] at hmem
    exact hk ⟨hmem.1, by simpa using hmem.2⟩

theorem broadcast_length (H h : Nat) (hh : h < H) : (broadcast H h).length = H - 1 := by
  unfold broadcast
  have h1 := List.length_eq_countP_add_countP (fun k => decide (k ≠ h)) (List.range H)
  rw [List.length_range] at h1
  have h2 : ((List.range H).countP fun a => decide ¬ decide (a ≠ h) = true) = 1 := by
    have : ((List.range H).countP fun a => decide ¬ decide (a ≠ h) = true) =
        (List.range H).count h := by
      rw [List.count_eq_countP]
      apply List.countP_congr
      intro a _
      simp
    rw [this]
    exact List.count_eq_one_of_mem (List.nodup_range H) (List.mem_range.mpr hh)
  rw [← List.countP_eq_length_filter]
  omega

/-- Counterexample to C13: among three hosts, thread 1 of host 0 sends its notification to
the hosts 1 and 2, and thread 1 of host 1 sends its notification to the hosts 0 and 2. -/
theorem dist_wait_host0_notifies :
    StupidDistBarrier.wait_arrive 3 0 1 ⟨0, [1, 1], 0⟩ =
        .returned ([1, 2], ⟨0, [1, 1], -1⟩) ∧
    StupidDistBarrier.wait_arrive 3 1 1 ⟨0, [1, 1], 0⟩ =
        .returned ([0, 2], ⟨0, [1, 1], -1⟩) := by
  decide

/-- C13 as amended: in `wait`, every thread of every host, host 0 included, whose entry
assertion holds sends one landing-pad broadcast, which reaches each of the other
`networkHostNum - 1` hosts once and never the sender, and then decrements the arrival
counter of its own host by one, leaving `gsense` and the senses as they were. -/
theorem dist_wait_notifies_all_other_hosts (H h tid : Nat) (b : StupidDistBarrier)
    (hh : h < H) (ha : b.sense.getD tid 0 = u32 (b.gsense + 1)) :
    ∃ msgs b', StupidDistBarrier.wait_arrive H h tid b = .returned (msgs, b') ∧
      msgs.length = H - 1 ∧ h ∉ msgs ∧
      (∀ k, k < H → k ≠ h → msgs.count k = 1) ∧ (∀ k ∈ msgs, k < H) ∧
      b'.count = i32 (b.count - 1) ∧ b'.gsense = b.gsense ∧ b'.sense = b.sense := by
  refine ⟨broadcast H h, { b with count := i32 (b.count - 1) }, ?_, broadcast_length H h hh,
    ?_, ?_, ?_, rfl, rfl, rfl⟩
  · unfold StupidDistBarrier.wait_arrive
    rw [if_pos ha]
  · intro hmem
    have := broadcast_count H h h
    rw [if_neg (by simp)] at this
    exact (List.count_eq_zero.mp this) hmem
  · intro k hk hne
    rw [broadcast_count, if_pos ⟨hk, hne⟩]
  · intro k hmem
    unfold broadcast at hmem
    rw [List.mem_filter, List.mem_range] at hmem
    exact hmem.1

/-- Witness of C13 as amended: thread 1 of host 0, among three hosts. -/
theorem dist_wait_notifies_all_other_hosts_witness :
    ∃ msgs b', StupidDistBarrier.wait_arrive 3 0 1 ⟨0, [1, 1], 0⟩ = .returned (msgs, b') ∧
      msgs.length = 3 - 1 ∧ 0 ∉ msgs ∧
      (∀ k, k < 3 → k ≠ 0 → msgs.count k = 1) ∧ (∀ k ∈ msgs, k < 3) ∧
      b'.count = i32 ((⟨0, [1, 1], 0⟩ : StupidDistBarrier).count - 1) ∧
      b'.gsense = (⟨0, [1, 1], 0⟩ : StupidDistBarrier).gsense ∧
      b'.sense = (⟨0, [1, 1], 0⟩ : StupidDistBarrier).sense :=
  dist_wait_notifies_all_other_hosts 3 0 1 ⟨0, [1, 1], 0⟩ (by decide) (by decide)

end Barrier

namespace Barrier

theorem i32_eq_of_range {x : Int} (h1 : -2 ^ 31 ≤ x) (h2 : x < 2 ^ 31) : i32 x = x := by
  unfold i32
  omega

theorem i32_range (x : Int) : -2 ^ 31 ≤ i32 x ∧ i32 x < 2 ^ 31 := by
  unfold i32
  omega

theorem i32_add_i32 (x y : Int) : i32 (i32 x + y) = i32 (x + y) := by
  unfold i32
  omega

theorem i32_add_expect (x : Int) (n : Nat) : i32 (x + i32 (u32 n)) = i32 (x + n) := by
  unfold i32 u32
  omega

theorem u32_lt (x : Nat) : u32 x < 2 ^ 32 :=
  Nat.mod_lt _ (by decide)

theorem u32_add_u32 (x y : Nat) : u32 (u32 x + y) = u32 (x + y) := by
  unfold u32
  omega

theorem hosts_getD_set_self (l : List StupidDistBarrier) (i : Nat) (v : StupidDistBarrier)
    (h : i < l.length) : (l.set i v).getD i StupidDistBarrier.noBarrier = v := by
  rw [List.getD_eq_getElem?_getD, List.getElem?_set_self h]
  rfl

theorem hosts_getD_set_ne (l : List StupidDistBarrier) (i k : Nat) (v : StupidDistBarrier)
    (h : i ≠ k) :
    (l.set i v).getD k StupidDistBarrier.noBarrier = l.getD k StupidDistBarrier.noBarrier := by
  rw [List.getD_eq_getElem?_getD, List.getElem?_set_ne h, ← List.getD_eq_getElem?_getD]

theorem sense_getD_set (l : List Nat) (i k v : Nat) :
    (l.set i v).getD k 0 = if i = k ∧ k < l.length then v else l.getD k 0 := by
  by_cases h : i = k
  · subst h
    by_cases hl : i < l.length
    · rw [if_pos ⟨rfl, hl⟩, List.getD_eq_getElem?_getD, List.getElem?_set_self hl]
      rfl
    · rw [if_neg (fun hh => hl hh.2), List.set_eq_of_length_le (Nat.le_of_not_lt hl)]
  · rw [if_neg (fun hh => h hh.1), List.getD_eq_getElem?_getD, List.getElem?_set_ne h,
      ← List.getD_eq_getElem?_getD]

theorem count_single (a b : Event) : List.count a [b] = if b = a then 1 else 0 := by
  by_cases h : b = a
  · subst h; simp
  · rw [if_neg h]
    exact List.count_eq_zero_of_not_mem (by simpa using Ne.symm h)

/-- A step that leaves the barrier of a host alone, and holds no step of that host. -/
theorem host_untouched (H T : Nat) (b : StupidDistBarrier) (h : Nat) (e : Event)
    (hb : b.typed) (c1 : ∀ t, releases h t [e] = 0) (c3 : arrivals h [e] = 0)
    (c4 : deliveries h [e] = 0) (c5 : expects h [e] = 0) :
    b.typed ∧ b.gsense = u32 (b.gsense + releases h 0 [e]) ∧
      b.sense.length = b.sense.length ∧
      (∀ t, t < b.sense.length → b.sense.getD t 0 = u32 (b.sense.getD t 0 + releases h t [e])) ∧
      b.count =
        i32 (b.count - arrivals h [e] - deliveries h [e] + (H * T : Nat) * expects h [e]) := by
  refine ⟨hb, ?_, rfl, fun t _ => ?_, ?_⟩
  · rw [c1 0]; exact (u32_of_lt hb.1).symm
  · rw [c1 t]; exact (u32_of_lt (hb.2.1 t)).symm
  · rw [c3, c4, c5, i32_eq_of_range (by simpa using hb.2.2.1) (by simpa using hb.2.2.2)]
    simp

/-- What one step does to the barrier of host `h`, in terms of the numbers of steps of each
kind that the one-step sequence holds. -/
theorem step_host (H T : Nat) (w w1 : World) (e : Event)
    (hstep : World.step H T w e = some w1) :
    w1.hosts.length = w.hosts.length ∧
    ∀ h, h < w.hosts.length →
      (w.hosts.getD h StupidDistBarrier.noBarrier).typed →
      (w1.hosts.getD h StupidDistBarrier.noBarrier).typed ∧
      (w1.hosts.getD h StupidDistBarrier.noBarrier).gsense =
        u32 ((w.hosts.getD h StupidDistBarrier.noBarrier).gsense + releases h 0 [e]) ∧
      (w1.hosts.getD h StupidDistBarrier.noBarrier).sense.length =
        (w.hosts.getD h StupidDistBarrier.noBarrier).sense.length ∧
      (∀ t, t < (w.hosts.getD h StupidDistBarrier.noBarrier).sense.length →
        (w1.hosts.getD h StupidDistBarrier.noBarrier).sense.getD t 0 =
          u32 ((w.hosts.getD h StupidDistBarrier.noBarrier).sense.getD t 0 +
            releases h t [e])) ∧
      (w1.hosts.getD h StupidDistBarrier.noBarrier).count =
        i32 ((w.hosts.getD h StupidDistBarrier.noBarrier).count - arrivals h [e] -
          deliveries h [e] + (H * T : Nat) * expects h [e]) := by
  cases e with
  | arrive h' tid =>
    unfold World.step at hstep
    dsimp only at hstep
    split_ifs at hstep with hlt
    unfold StupidDistBarrier.wait_arrive at hstep
    split_ifs at hstep with ha
    dsimp only at hstep
    cases hstep
    refine ⟨List.length_set _ _ _, fun h hh hb => ?_⟩
    dsimp only
    have c1 : ∀ t, releases h t [Event.arrive h' tid] = 0 := by
      intro t; unfold releases; rw [count_single, if_neg (by simp)]
    have c4 : deliveries h [Event.arrive h' tid] = 0 := by
      unfold deliveries; rw [count_single, if_neg (by simp)]
    have c5 : expects h [Event.arrive h' tid] = 0 := by
      unfold expects; rw [count_single, if_neg (by simp)]
    by_cases heq : h' = h
    · subst heq
      rw [hosts_getD_set_self _ _ _ hh]
      have c3 : arrivals h' [Event.arrive h' tid] = 1 := by simp [arrivals]
      refine ⟨⟨hb.1, hb.2.1, (i32_range _).1, (i32_range _).2⟩, ?_, rfl, fun t _ => ?_, ?_⟩
      · rw [c1 0]; exact (u32_of_lt hb.1).symm
      · rw [c1 t]; exact (u32_of_lt (hb.2.1 t)).symm
      · rw [c3, c4, c5]; simp
    · rw [hosts_getD_set_ne _ _ _ _ heq]
      have c3 : arrivals h [Event.arrive h' tid] = 0 := by simp [arrivals, heq]
      exact host_untouched H T _ h _ hb c1 c3 c4 c5
  | expect h' =>
    unfold World.step at hstep
    dsimp only at hstep
    split_ifs at hstep with hlt
    cases hstep
    refine ⟨List.length_set _ _ _, fun h hh hb => ?_⟩
    dsimp only
    have c1 : ∀ t, releases h t [Event.expect h'] = 0 := by
      intro t; unfold releases; rw [count_single, if_neg (by simp)]
    have c3 : arrivals h [Event.expect h'] = 0 := by simp [arrivals]
    have c4 : deliveries h [Event.expect h'] = 0 := by
      unfold deliveries; rw [count_single, if_neg (by simp)]
    by_cases heq : h' = h
    · subst heq
      rw [hosts_getD_set_self _ _ _ hh]
      have c5 : expects h' [Event.expect h'] = 1 := by
        unfold expects; rw [count_single, if_pos rfl]
      unfold StupidDistBarrier.wait_expect
      refine ⟨⟨hb.1, hb.2.1, (i32_range _).1, (i32_range _).2⟩, ?_, rfl, fun t _ => ?_, ?_⟩
      · rw [c1 0]; exact (u32_of_lt hb.1).symm
      · rw [c1 t]; exact (u32_of_lt (hb.2.1 t)).symm
      · dsimp only
        rw [c3, c4, c5, i32_add_expect]; simp
    · rw [hosts_getD_set_ne _ _ _ _ heq]
      have c5 : expects h [Event.expect h'] = 0 := by
        unfold expects; rw [count_single, if_neg (by simpa using heq)]
      exact host_untouched H T _ h _ hb c1 c3 c4 c5
  | release h' tid =>
    unfold World.step at hstep
    dsimp only at hstep
    split_ifs at hstep with hlt
    have c3 : ∀ h, arrivals h [Event.release h' tid] = 0 := by intro h; simp [arrivals]
    have c4 : ∀ h, deliveries h [Event.release h' tid] = 0 := by
      intro h; unfold deliveries; rw [count_single, if_neg (by simp)]
    have c5 : ∀ h, expects h [Event.release h' tid] = 0 := by
      intro h; unfold expects; rw [count_single, if_neg (by simp)]
    have hr : ∀ t, releases h' t [Event.release h' tid] = if tid = t then 1 else 0 := by
      intro t
      unfold releases
      rw [count_single]
      by_cases ht : tid = t
      · rw [if_pos ht, if_pos (by rw [ht])]
      · rw [if_neg ht, if_neg (by simpa using ht)]
    have hcnt : ∀ b : StupidDistBarrier, b.typed →
        b.count = i32 (b.count - arrivals h' [Event.release h' tid] -
          deliveries h' [Event.release h' tid] +
          (H * T : Nat) * expects h' [Event.release h' tid]) := by
      intro b hb
      rw [c3, c4, c5, i32_eq_of_range (by simpa using hb.2.2.1) (by simpa using hb.2.2.2)]
      simp
    have hsense : ∀ (b : StupidDistBarrier), b.typed →
        (∀ t, (b.sense.set tid (u32 (b.sense.getD tid 0 + 1))).getD t 0 < 2 ^ 32) ∧
        (∀ t, t < b.sense.length →
          (b.sense.set tid (u32 (b.sense.getD tid 0 + 1))).getD t 0 =
            u32 (b.sense.getD t 0 + releases h' t [Event.release h' tid])) := by
      intro b hb
      refine ⟨fun t => ?_, fun t ht => ?_⟩
      · rw [sense_getD_set]
        split_ifs
        · exact u32_lt _
        · exact hb.2.1 t
      · rw [sense_getD_set, hr t]
        by_cases htt : tid = t
        · subst htt
          rw [if_pos ⟨rfl, ht⟩, if_pos rfl]
        · rw [if_neg (fun hh => htt hh.1), if_neg htt]
          exact (u32_of_lt (hb.2.1 t)).symm
    unfold StupidDistBarrier.wait_release at hstep
    split_ifs at hstep with h0 hc hs
    · dsimp only at hstep
      cases hstep
      refine ⟨List.length_set _ _ _, fun h hh hb => ?_⟩
      dsimp only
      by_cases heq : h' = h
      · subst heq
        rw [hosts_getD_set_self _ _ _ hh]
        refine ⟨⟨u32_lt _, (hsense _ hb).1, hb.2.2⟩, ?_, List.length_set _ _ _,
          (hsense _ hb).2, hcnt (w.hosts.getD h' StupidDistBarrier.noBarrier) hb⟩
        dsimp only
        rw [hr 0, if_pos h0]
      · rw [hosts_getD_set_ne _ _ _ _ heq]
        refine host_untouched H T _ h _ hb ?_ (c3 h) (c4 h) (c5 h)
        intro t; unfold releases; rw [count_single, if_neg (by simpa using fun hh _ => heq hh)]
    · dsimp only at hstep
      cases hstep
      refine ⟨List.length_set _ _ _, fun h hh hb => ?_⟩
      dsimp only
      by_cases heq : h' = h
      · subst heq
        rw [hosts_getD_set_self _ _ _ hh]
        refine ⟨⟨hb.1, (hsense _ hb).1, hb.2.2⟩, ?_, List.length_set _ _ _,
          (hsense _ hb).2, hcnt (w.hosts.getD h' StupidDistBarrier.noBarrier) hb⟩
        dsimp only
        rw [hr 0, if_neg h0]
        exact (u32_of_lt hb.1).symm
      · rw [hosts_getD_set_ne _ _ _ _ heq]
        refine host_untouched H T _ h _ hb ?_ (c3 h) (c4 h) (c5 h)
        intro t; unfold releases; rw [count_single, if_neg (by simpa using fun hh _ => heq hh)]
  | deliver h' =>
    unfold World.step at hstep
    dsimp only at hstep
    split_ifs at hstep with hlt
    cases hstep
    refine ⟨List.length_set _ _ _, fun h hh hb => ?_⟩
    dsimp only
    have c1 : ∀ t, releases h t [Event.deliver h'] = 0 := by
      intro t; unfold releases; rw [count_single, if_neg (by simp)]
    have c3 : arrivals h [Event.deliver h'] = 0 := by simp [arrivals]
    have c5 : expects h [Event.deliver h'] = 0 := by
      unfold expects; rw [count_single, if_neg (by simp)]
    by_cases heq : h' = h
    · subst heq
      rw [hosts_getD_set_self _ _ _ hh]
      have c4 : deliveries h' [Event.deliver h'] = 1 := by
        unfold deliveries; rw [count_single, if_pos rfl]
      unfold StupidDistBarrier.broadcastLandingPad
      refine ⟨⟨hb.1, hb.2.1, (i32_range _).1, (i32_range _).2⟩, ?_, rfl, fun t _ => ?_, ?_⟩
      · rw [c1 0]; exact (u32_of_lt hb.1).symm
      · rw [c1 t]; exact (u32_of_lt (hb.2.1 t)).symm
      · dsimp only
        rw [c3, c4, c5]; simp
    · rw [hosts_getD_set_ne _ _ _ _ heq]
      have c4 : deliveries h [Event.deliver h'] = 0 := by
        unfold deliveries; rw [count_single, if_neg (by simpa using heq)]
      exact host_untouched H T _ h _ hb c1 c3 c4 c5

end Barrier

namespace Barrier

theorem releases_cons (h t : Nat) (e : Event) (es : List Event) :
    releases h t (e :: es) = releases h t [e] + releases h t es := by
  unfold releases
  rw [← List.singleton_append, List.count_append]

theorem deliveries_cons (h : Nat) (e : Event) (es : List Event) :
    deliveries h (e :: es) = deliveries h [e] + deliveries h es := by
  unfold deliveries
  rw [← List.singleton_append, List.count_append]

theorem expects_cons (h : Nat) (e : Event) (es : List Event) :
    expects h (e :: es) = expects h [e] + expects h es := by
  unfold expects
  rw [← List.singleton_append, List.count_append]

theorem arrivals_cons (h : Nat) (e : Event) (es : List Event) :
    arrivals h (e :: es) = arrivals h [e] + arrivals h es := by
  unfold arrivals
  rw [← List.singleton_append, List.countP_append]

theorem allArrivals_cons (e : Event) (es : List Event) :
    allArrivals (e :: es) = allArrivals [e] + allArrivals es := by
  unfold allArrivals
  rw [← List.singleton_append, List.countP_append]

/-- What a sequence of steps does to the barrier of host `h`: every counter moves by the
number of steps that touch it. -/
theorem run_host (H T : Nat) (es : List Event) :
    ∀ w w' : World, World.run H T w es = some w' →
    w'.hosts.length = w.hosts.length ∧
    ∀ h, h < w.hosts.length →
      (w.hosts.getD h StupidDistBarrier.noBarrier).typed →
      (w'.hosts.getD h StupidDistBarrier.noBarrier).typed ∧
      (w'.hosts.getD h StupidDistBarrier.noBarrier).gsense =
        u32 ((w.hosts.getD h StupidDistBarrier.noBarrier).gsense + releases h 0 es) ∧
      (w'.hosts.getD h StupidDistBarrier.noBarrier).sense.length =
        (w.hosts.getD h StupidDistBarrier.noBarrier).sense.length ∧
      (∀ t, t < (w.hosts.getD h StupidDistBarrier.noBarrier).sense.length →
        (w'.hosts.getD h StupidDistBarrier.noBarrier).sense.getD t 0 =
          u32 ((w.hosts.getD h StupidDistBarrier.noBarrier).sense.getD t 0 +
            releases h t es)) ∧
      (w'.hosts.getD h StupidDistBarrier.noBarrier).count =
        i32 ((w.hosts.getD h StupidDistBarrier.noBarrier).count - arrivals h es -
          deliveries h es + (H * T : Nat) * expects h es) := by
  induction es with
  | nil =>
    intro w w' hrun
    cases hrun
    refine ⟨rfl, fun h _ hb => ⟨hb, (u32_of_lt hb.1).symm, rfl,
      fun t _ => (u32_of_lt (hb.2.1 t)).symm, ?_⟩⟩
    rw [i32_eq_of_range (by simpa [arrivals, deliveries, expects] using hb.2.2.1)
      (by simpa [arrivals, deliveries, expects] using hb.2.2.2)]
    simp [arrivals, deliveries, expects]
  | cons e es ih =>
    intro w w' hrun
    unfold World.run at hrun
    cases hs : World.step H T w e with
    | none => rw [hs] at hrun; cases hrun
    | some w1 =>
      rw [hs] at hrun
      dsimp only at hrun
      obtain ⟨hl1, h1⟩ := step_host H T w w1 e hs
      obtain ⟨hl2, h2⟩ := ih w1 w' hrun
      refine ⟨hl2.trans hl1, fun h hh hb => ?_⟩
      obtain ⟨t1, g1, sl1, s1, c1⟩ := h1 h hh hb
      obtain ⟨t2, g2, sl2, s2, c2⟩ := h2 h (by rw [hl1]; exact hh) t1
      refine ⟨t2, ?_, sl2.trans sl1, fun t ht => ?_, ?_⟩
      · rw [g2, g1, u32_add_u32, releases_cons h 0 e es, Nat.add_assoc]
      · rw [s2 t (by rw [sl1]; exact ht), s1 t ht, u32_add_u32, releases_cons h t e es,
          Nat.add_assoc]
      · rw [c2, c1, arrivals_cons h e es, deliveries_cons h e es, expects_cons h e es]
        have e1 : i32 ((w.hosts.getD h StupidDistBarrier.noBarrier).count -
              ↑(arrivals h [e]) - ↑(deliveries h [e]) + ↑(H * T) * ↑(expects h [e])) -
            ↑(arrivals h es) - ↑(deliveries h es) + ↑(H * T) * ↑(expects h es) =
            i32 ((w.hosts.getD h StupidDistBarrier.noBarrier).count -
              ↑(arrivals h [e]) - ↑(deliveries h [e]) + ↑(H * T) * ↑(expects h [e])) +
            (-(↑(arrivals h es) : Int) - ↑(deliveries h es) +
              ↑(H * T) * ↑(expects h es)) := by ring
        rw [e1, i32_add_i32]
        congr 1
        push_cast
        ring

/-- Messages are conserved: for a host `h` below `networkHostNum`, the messages to `h` in
flight, those delivered to `h` and the arrivals of `h` itself add up to the messages that
were in flight before and the arrivals of all hosts. -/
theorem run_inflight (H T : Nat) (es : List Event) :
    ∀ w w' : World, World.run H T w es = some w' → ∀ h, h < H →
      w'.inflight.count h + deliveries h es + arrivals h es =
        w.inflight.count h + allArrivals es := by
  induction es with
  | nil =>
    intro w w' hrun h _
    cases hrun
    simp [deliveries, arrivals, allArrivals]
  | cons e es ih =>
    intro w w' hrun h hh
    unfold World.run at hrun
    cases hs : World.step H T w e with
    | none => rw [hs] at hrun; cases hrun
    | some w1 =>
      rw [hs] at hrun
      dsimp only at hrun
      have h2 := ih w1 w' hrun h hh
      rw [deliveries_cons h e es, arrivals_cons h e es, allArrivals_cons e es]
      have h1 : w1.inflight.count h + deliveries h [e] + arrivals h [e] =
          w.inflight.count h + allArrivals [e] := by
        cases e with
        | arrive h' tid =>
          unfold World.step at hs
          dsimp only at hs
          split_ifs at hs with hlt
          unfold StupidDistBarrier.wait_arrive at hs
          split_ifs at hs with ha
          dsimp only at hs
          cases hs
          dsimp only
          rw [List.count_append, broadcast_count]
          have c4 : deliveries h [Event.arrive h' tid] = 0 := by
            unfold deliveries; rw [count_single, if_neg (by simp)]
          have c0 : allArrivals [Event.arrive h' tid] = 1 := by simp [allArrivals]
          rw [c4, c0]
          by_cases heq : h' = h
          · subst heq
            have c3 : arrivals h' [Event.arrive h' tid] = 1 := by simp [arrivals]
            rw [c3, if_neg (by simp)]
          · have c3 : arrivals h [Event.arrive h' tid] = 0 := by simp [arrivals, heq]
            rw [c3, if_pos ⟨hh, Ne.symm heq⟩]
        | expect h' =>
          unfold World.step at hs
          dsimp only at hs
          split_ifs at hs with hlt
          cases hs
          have c3 : arrivals h [Event.expect h'] = 0 := by simp [arrivals]
          have c4 : deliveries h [Event.expect h'] = 0 := by
            unfold deliveries; rw [count_single, if_neg (by simp)]
          have c0 : allArrivals [Event.expect h'] = 0 := by simp [allArrivals]
          rw [c3, c4, c0]
        | release h' tid =>
          unfold World.step at hs
          dsimp only at hs
          split_ifs at hs with hlt
          have c3 : arrivals h [Event.release h' tid] = 0 := by simp [arrivals]
          have c4 : deliveries h [Event.release h' tid] = 0 := by
            unfold deliveries; rw [count_single, if_neg (by simp)]
          have c0 : allArrivals [Event.release h' tid] = 0 := by simp [allArrivals]
          rw [c3, c4, c0]
          split at hs
          · cases hs; rfl
          · cases hs
        | deliver h' =>
          unfold World.step at hs
          dsimp only at hs
          split_ifs at hs with hlt
          cases hs
          dsimp only
          have c3 : arrivals h [Event.deliver h'] = 0 := by simp [arrivals]
          have c0 : allArrivals [Event.deliver h'] = 0 := by simp [allArrivals]
          rw [c3, c0]
          by_cases heq : h' = h
          · subst heq
            have c4 : deliveries h' [Event.deliver h'] = 1 := by
              unfold deliveries; rw [count_single, if_pos rfl]
            have hpos : 0 < w.inflight.count h' := List.count_pos_iff.mpr hlt.2
            rw [c4, List.count_erase_self]
            omega
          · have c4 : deliveries h [Event.deliver h'] = 0 := by
              unfold deliveries; rw [count_single, if_neg (by simpa using heq)]
            rw [c4, List.count_erase_of_ne (Ne.symm heq)]
      omega

theorem count_range_eq (n t : Nat) : (List.range n).count t = if t < n then 1 else 0 := by
  by_cases h : t < n
  · rw [if_pos h]
    exact List.count_eq_one_of_mem (List.nodup_range n) (List.mem_range.mpr h)
  · rw [if_neg h]
    exact List.count_eq_zero_of_not_mem (by simpa using h)

theorem arrivals_eq_length (h : Nat) (es : List Event) :
    arrivals h es = (arrivalTids h es).length := by
  induction es with
  | nil => rfl
  | cons e es ih =>
    rw [arrivals_cons, ih]
    unfold arrivalTids
    cases e with
    | arrive h' t =>
      by_cases heq : h' = h
      · simp [arrivals, heq, List.filterMap_cons]
        omega
      · simp [arrivals, heq, List.filterMap_cons]
    | expect h' => simp [arrivals, List.filterMap_cons]
    | release h' t => simp [arrivals, List.filterMap_cons]
    | deliver h' => simp [arrivals, List.filterMap_cons]

theorem count_arrivalTids (h t : Nat) (es : List Event) :
    (arrivalTids h es).count t = es.count (.arrive h t) := by
  induction es with
  | nil => rfl
  | cons e es ih =>
    rw [← List.singleton_append, List.count_append, count_single, ← ih]
    unfold arrivalTids
    cases e with
    | arrive h' t' =>
      by_cases heq : h' = h
      · subst heq
        by_cases ht : t' = t
        · subst ht
          simp [List.filterMap_cons]
          omega
        · simp [List.filterMap_cons, ht, List.count_cons]
      · simp [List.filterMap_cons, heq]
    | expect h' => simp [List.filterMap_cons]
    | release h' t' => simp [List.filterMap_cons]
    | deliver h' => simp [List.filterMap_cons]

/-- When every thread of every host takes the step `arrive` exactly once, each host sees
`T` arrivals of its own threads and there are `H * T` arrivals in all. -/
theorem arrivals_of_round (H T : Nat) (es : List Event)
    (hround : ∀ h t, es.count (.arrive h t) = if h < H ∧ t < T then 1 else 0) :
    (∀ h, h < H → arrivals h es = T) ∧ allArrivals es = H * T := by
  have hfirst : ∀ h, h < H → arrivals h es = T := by
    intro h hh
    have hperm : (arrivalTids h es).Perm (List.range T) := by
      rw [List.perm_iff_count]
      intro t
      rw [count_arrivalTids, hround, count_range_eq]
      simp [hh]
    rw [arrivals_eq_length, hperm.length_eq, List.length_range]
  refine ⟨hfirst, ?_⟩
  · have hmem : ∀ e ∈ es,
        (match e with
          | Event.arrive h _ => h
          | _ => 0) < H ∨ H = 0 ∧ ∀ h t, e ≠ Event.arrive h t := by
      intro e he
      cases e with
      | arrive h t =>
        left
        by_contra hlt
        have h0 := hround h t
        rw [if_neg (fun hh => hlt hh.1)] at h0
        exact (List.count_eq_zero.mp h0) he
      | expect h =>
        by_cases hH : H = 0
        · right; exact ⟨hH, by simp⟩
        · left; dsimp only; omega
      | release h t =>
        by_cases hH : H = 0
        · right; exact ⟨hH, by simp⟩
        · left; dsimp only; omega
      | deliver h =>
        by_cases hH : H = 0
        · right; exact ⟨hH, by simp⟩
        · left; dsimp only; omega
    by_cases hH : H = 0
    · subst hH
      rw [Nat.zero_mul]
      unfold allArrivals
      rw [List.countP_eq_zero]
      intro e he
      cases e with
      | arrive h t =>
        have h0 := hround h t
        rw [if_neg (by simp)] at h0
        exact absurd he (List.count_eq_zero.mp h0)
      | expect h => simp
      | release h t => simp
      | deliver h => simp
    · have hfib := sum_countP_fiber
        (fun e : Event => match e with
          | Event.arrive h _ => h
          | _ => 0)
        (fun e : Event => (match e with
          | Event.arrive _ _ => true
          | _ => false) = true) H es
        (fun e he => (hmem e he).resolve_right (fun hh => hH hh.1))
      have hall : allArrivals es = es.countP fun e => decide ((match e with
          | Event.arrive _ _ => true
          | _ => false) = true) := by
        unfold allArrivals
        apply List.countP_congr
        intro e _
        cases e <;> simp
      have harr : ∀ i, arrivals i es = es.countP fun e => decide ((match e with
            | Event.arrive h _ => h
            | _ => 0) = i ∧ (match e with
            | Event.arrive _ _ => true
            | _ => false) = true) := by
        intro i
        unfold arrivals
        apply List.countP_congr
        intro e _
        cases e <;> simp
      rw [hall, ← hfib]
      have hT : ((List.range H).map fun i => es.countP fun e => decide ((match e with
            | Event.arrive h _ => h
            | _ => 0) = i ∧ (match e with
            | Event.arrive _ _ => true
            | _ => false) = true)) = (List.range H).map fun _ => T := by
        apply List.map_congr_left
        intro i hi
        rw [← harr i]
        exact hfirst i (List.mem_range.mp hi)
      rw [hT]
      simp

end Barrier

namespace Barrier

theorem typed_of_all (b : StupidDistBarrier) (hg : b.gsense < 2 ^ 32)
    (hs : ∀ s ∈ b.sense, s < 2 ^ 32) (hc1 : -2 ^ 31 ≤ b.count) (hc2 : b.count < 2 ^ 31) :
    b.typed := by
  refine ⟨hg, fun t => ?_, hc1, hc2⟩
  by_cases ht : t < b.sense.length
  · rw [List.getD_eq_getElem?_getD, List.getElem?_eq_getElem ht]
    exact hs _ (List.getElem_mem ht)
  · rw [List.getD_eq_default _ _ (Nat.le_of_not_lt ht)]
    decide

/-- C12: in a round that starts with every counter at 0 and no message in flight, in which
every thread of every host arrives once, thread 0 of every host adds
`networkHostNum * activeThreads` once and every broadcast is delivered, the counter of each
host receives `T` local decrements and `(H - 1) * T` landing-pad decrements, and is 0 again
at the end, the value `reinit` asserts; this holds for every order of the steps. -/
theorem dist_count_balances (H T : Nat) (w w' : World) (es : List Event)
    (hH : w.hosts.length = H)
    (h0 : ∀ h, h < H → (w.hosts.getD h StupidDistBarrier.noBarrier).typed ∧
      (w.hosts.getD h StupidDistBarrier.noBarrier).count = 0)
    (hin : w.inflight = [])
    (hrun : World.run H T w es = some w')
    (hround : ∀ h t, es.count (.arrive h t) = if h < H ∧ t < T then 1 else 0)
    (hexp : ∀ h, h < H → expects h es = 1)
    (hdel : w'.inflight = []) :
    ∀ h, h < H →
      arrivals h es = T ∧ deliveries h es = (H - 1) * T ∧
      (w'.hosts.getD h StupidDistBarrier.noBarrier).count = 0 ∧
      ∃ b, StupidDistBarrier.reinit (w'.hosts.getD h StupidDistBarrier.noBarrier) T =
        .returned b := by
  intro h hh
  obtain ⟨harr, hall⟩ := arrivals_of_round H T es hround
  have hfl := run_inflight H T es w w' hrun h hh
  rw [hdel, hin, harr h hh, hall] at hfl
  simp only [List.count_nil, Nat.zero_add] at hfl
  have hmul : (H - 1) * T + T = H * T := by
    have : H = (H - 1) + 1 := by omega
    conv_rhs => rw [this, Nat.add_mul, Nat.one_mul]
  have hd : deliveries h es = (H - 1) * T := by omega
  obtain ⟨-, hhost⟩ := run_host H T es w w' hrun
  obtain ⟨-, -, -, -, hc⟩ := hhost h (by rw [hH]; exact hh) (h0 h hh).1
  have hzero : (w'.hosts.getD h StupidDistBarrier.noBarrier).count = 0 := by
    rw [hc, (h0 h hh).2, harr h hh, hd, hexp h hh]
    have e : ((0 : Int) - (T : Nat) - ((H - 1) * T : Nat) + (H * T : Nat) * (1 : Nat)) = 0 := by
      rw [← hmul]
      push_cast
      ring
    rw [e]
    rfl
  refine ⟨harr h hh, hd, hzero, ?_⟩
  unfold StupidDistBarrier.reinit
  dsimp only
  rw [if_pos hzero]
  exact ⟨_, rfl⟩

theorem fullRound_arrivals (h t : Nat) :
    fullRound.count (.arrive h t) = if h < 2 ∧ t < 2 then 1 else 0 := by
  unfold fullRound
  simp only [List.count_cons, List.count_nil, beq_iff_eq, Event.arrive.injEq, reduceCtorEq,
    if_false, Nat.add_zero, Nat.zero_add]
  split_ifs <;> omega

/-- Witness of C12: a complete round of two hosts with two threads each. -/
theorem dist_count_balances_witness :
    World.run 2 2 (World.fresh 2 2) fullRound =
        some { hosts := [⟨1, [2, 2], 0⟩, ⟨1, [2, 2], 0⟩], inflight := [] } ∧
    ∀ h, h < 2 →
      arrivals h fullRound = 2 ∧ deliveries h fullRound = (2 - 1) * 2 ∧
      ((World.mk [⟨1, [2, 2], 0⟩, ⟨1, [2, 2], 0⟩] []).hosts.getD h
        StupidDistBarrier.noBarrier).count = 0 ∧
      ∃ b, StupidDistBarrier.reinit
        ((World.mk [⟨1, [2, 2], 0⟩, ⟨1, [2, 2], 0⟩] []).hosts.getD h
          StupidDistBarrier.noBarrier) 2 = .returned b :=
  ⟨by decide,
    dist_count_balances 2 2 (World.fresh 2 2) ⟨[⟨1, [2, 2], 0⟩, ⟨1, [2, 2], 0⟩], []⟩ fullRound
      (by decide)
      (fun h hh => by
        have hc : h = 0 ∨ h = 1 := by omega
        rcases hc with rfl | rfl
        · exact ⟨typed_of_all _ (by decide) (by decide) (by decide) (by decide), by decide⟩
        · exact ⟨typed_of_all _ (by decide) (by decide) (by decide) (by decide), by decide⟩)
      (by decide) (by decide) fullRound_arrivals (by decide) (by decide)⟩

/-- Counterexample to C20: with two hosts of two threads, once host 1 has received the two
notifications of host 0, its thread 0 advances the `gsense` of host 1 and its thread 1 is
released, while the `gsense` of host 0 is still 0 and thread 1 of host 0 still spins. -/
theorem dist_generation_advances_on_host1 :
    World.run 2 2 (World.fresh 2 2) host1First =
        some { hosts := [⟨0, [1, 1], 2⟩, ⟨1, [2, 2], 0⟩], inflight := [0, 0] } ∧
    World.step 2 2 { hosts := [⟨0, [1, 1], 2⟩, ⟨1, [2, 2], 0⟩], inflight := [0, 0] }
        (.release 0 1) = none := by
  decide

/-- C20 as amended: the generation counter belongs to a host.  In every sequence of steps
the `gsense` of a host advances by the number of releases of its own thread 0 and the sense
of a thread by the number of its own releases; so in a completed round, in which each of the
`T` threads of the host is released once, `gsense` advances by exactly one, every sense
advances by exactly one, and `sense = gsense + 1` holds again.  Thread 0 leaves its spin
loop exactly when the counter of its host is not positive, and any other thread exactly when
its sense equals the `gsense` of its own host. -/
theorem dist_generation_advances_per_host (H T : Nat) (w w' : World) (es : List Event)
    (h : Nat) (hrun : World.run H T w es = some w') (hh : h < w.hosts.length)
    (hb : (w.hosts.getD h StupidDistBarrier.noBarrier).typed)
    (hT : T ≤ (w.hosts.getD h StupidDistBarrier.noBarrier).sense.length) :
    (w'.hosts.getD h StupidDistBarrier.noBarrier).gsense =
        u32 ((w.hosts.getD h StupidDistBarrier.noBarrier).gsense + releases h 0 es) ∧
    (∀ t, t < T →
      (w'.hosts.getD h StupidDistBarrier.noBarrier).sense.getD t 0 =
        u32 ((w.hosts.getD h StupidDistBarrier.noBarrier).sense.getD t 0 + releases h t es)) ∧
    (0 < T → (∀ t, t < T → releases h t es = 1) →
      (∀ t, t < T → (w.hosts.getD h StupidDistBarrier.noBarrier).sense.getD t 0 =
        u32 ((w.hosts.getD h StupidDistBarrier.noBarrier).gsense + 1)) →
      (w'.hosts.getD h StupidDistBarrier.noBarrier).gsense =
          u32 ((w.hosts.getD h StupidDistBarrier.noBarrier).gsense + 1) ∧
        ∀ t, t < T →
          (w'.hosts.getD h StupidDistBarrier.noBarrier).sense.getD t 0 =
              u32 ((w.hosts.getD h StupidDistBarrier.noBarrier).sense.getD t 0 + 1) ∧
            (w'.hosts.getD h StupidDistBarrier.noBarrier).sense.getD t 0 =
              u32 ((w'.hosts.getD h StupidDistBarrier.noBarrier).gsense + 1)) ∧
    (∀ b : StupidDistBarrier,
      ((∃ b', StupidDistBarrier.wait_release 0 b = .returned b') ↔ b.count ≤ 0) ∧
      ∀ tid, tid ≠ 0 →
        ((∃ b', StupidDistBarrier.wait_release tid b = .returned b') ↔
          b.sense.getD tid 0 = b.gsense)) := by
  obtain ⟨-, hhost⟩ := run_host H T es w w' hrun
  obtain ⟨-, hg, -, hs, -⟩ := hhost h hh hb
  refine ⟨hg, fun t ht => hs t (by omega), ?_, ?_⟩
  · intro hT0 hrel hentry
    have hg1 : (w'.hosts.getD h StupidDistBarrier.noBarrier).gsense =
        u32 ((w.hosts.getD h StupidDistBarrier.noBarrier).gsense + 1) := by
      rw [hg, hrel 0 hT0]
    refine ⟨hg1, fun t ht => ?_⟩
    have hs1 : (w'.hosts.getD h StupidDistBarrier.noBarrier).sense.getD t 0 =
        u32 ((w.hosts.getD h StupidDistBarrier.noBarrier).sense.getD t 0 + 1) := by
      rw [hs t (by omega), hrel t ht]
    refine ⟨hs1, ?_⟩
    rw [hs1, hg1, hentry t ht]
  · intro b
    constructor
    · unfold StupidDistBarrier.wait_release
      rw [if_pos rfl]
      constructor
      · rintro ⟨b', hb'⟩
        split_ifs at hb' with hc
        exact Int.not_lt.mp hc
      · intro hc
        rw [if_neg (Int.not_lt.mpr hc)]
        exact ⟨_, rfl⟩
    · intro tid htid
      unfold StupidDistBarrier.wait_release
      rw [if_neg htid]
      constructor
      · rintro ⟨b', hb'⟩
        split_ifs at hb' with hc
        exact not_not.mp hc
      · intro hc
        rw [if_neg (not_not.mpr hc)]
        exact ⟨_, rfl⟩

/-- Witness of C20 as amended: host 1 in a complete round of two hosts with two threads
each. -/
theorem dist_generation_advances_per_host_witness :
    World.run 2 2 (World.fresh 2 2) fullRound =
        some { hosts := [⟨1, [2, 2], 0⟩, ⟨1, [2, 2], 0⟩], inflight := [] } ∧
    ((World.mk [⟨1, [2, 2], 0⟩, ⟨1, [2, 2], 0⟩] []).hosts.getD 1
        StupidDistBarrier.noBarrier).gsense =
      u32 (((World.fresh 2 2).hosts.getD 1 StupidDistBarrier.noBarrier).gsense +
        releases 1 0 fullRound) :=
  ⟨by decide,
    (dist_generation_advances_per_host 2 2 (World.fresh 2 2)
      ⟨[⟨1, [2, 2], 0⟩, ⟨1, [2, 2], 0⟩], []⟩ fullRound 1 (by decide) (by decide)
      (typed_of_all _ (by decide) (by decide) (by decide) (by decide)) (by decide)).1⟩

end Barrier

/-! ### Claims on the shift of the indexer and on `relax_edge` -/

namespace SSSPsimple

/-- C22: edge cases of the shift.  With shift 0 the bucket of a request is its priority, so
requests of distinct priorities get distinct buckets; for every shift `s < 32` a request
goes to bucket 0 exactly when its priority is below `2 ^ s`, so every priority below
`2 ^ s` is routed to the single bucket 0; and with the largest shift, 31, every priority
below `2 ^ 31` goes to bucket 0 and every other 32-bit priority to bucket 1. -/
theorem indexer_shift_edge_cases (val val' : UpdateRequest) (s : Nat) :
    UpdateRequestIndexer 0 val = val.1 ∧
    (val.1 ≠ val'.1 → UpdateRequestIndexer 0 val ≠ UpdateRequestIndexer 0 val') ∧
    (s < 32 → (UpdateRequestIndexer s val = 0 ↔ val.1 < 2 ^ s)) ∧
    (val.1 < 2 ^ 32 → UpdateRequestIndexer 31 val = if val.1 < 2 ^ 31 then 0 else 1) := by
  refine ⟨rfl, fun h => h, fun _ => ?_, fun h => ?_⟩
  · unfold UpdateRequestIndexer
    rw [Nat.shiftRight_eq_div_pow]
    exact Nat.div_eq_zero_iff (Nat.pow_pos (by decide))
  · unfold UpdateRequestIndexer
    rw [Nat.shiftRight_eq_div_pow]
    split_ifs <;> omega

/-- Witness of C22: with shift 11 the priority 2047 goes to bucket 0, and with shift 0 the
priorities 2047 and 2048 go to different buckets. -/
theorem indexer_shift_edge_cases_witness :
    UpdateRequestIndexer 11 (2047, 7) = 0 ∧
    UpdateRequestIndexer 0 (2047, 7) ≠ UpdateRequestIndexer 0 (2048, 3) :=
  ⟨((indexer_shift_edge_cases (2047, 7) (2048, 3) 11).2.2.1 (by decide)).mpr (by decide),
    (indexer_shift_edge_cases (2047, 7) (2048, 3) 11).2.1 (by decide)⟩

/-- C28: `relax_edge` on an edge of weight `w` to a node `dst` of the graph, from a source
at distance `s`.  When `s + w` does not wrap, the distance of `dst` becomes the minimum of
its old value and `s + w`, and the request `(s + w, dst)` is pushed, once, when `s + w` is
smaller than the old value, nothing being pushed otherwise.  For all inputs, those where
`s + w` wraps included: the distance of `dst` does not increase, either nothing is pushed
or one request for `dst` whose priority is the new distance of `dst`, and no other node and
no edge changes. -/
theorem relax_edge_takes_minimum (graph : Graph) (s w dst : Nat) (ctx : List UpdateRequest)
    (hdst : dst < graph.data.length) :
    (s + w < 2 ^ 32 →
      (relax_edge graph s (dst, w) ctx).1.data.getD dst 0 =
          min (graph.data.getD dst 0) (s + w) ∧
        (relax_edge graph s (dst, w) ctx).2 =
          ctx ++ (if s + w < graph.data.getD dst 0 then [(s + w, dst)] else [])) ∧
    (relax_edge graph s (dst, w) ctx).1.data.getD dst 0 ≤ graph.data.getD dst 0 ∧
    ((relax_edge graph s (dst, w) ctx).2 = ctx ∨
      (relax_edge graph s (dst, w) ctx).2 =
        ctx ++ [((relax_edge graph s (dst, w) ctx).1.data.getD dst 0, dst)]) ∧
    (∀ n, n ≠ dst →
      (relax_edge graph s (dst, w) ctx).1.data.getD n 0 = graph.data.getD n 0) ∧
    (relax_edge graph s (dst, w) ctx).1.edges = graph.edges := by
  unfold relax_edge
  dsimp only
  refine ⟨?_, ?_, ?_, ?_, ?_⟩
  · intro hs
    rw [Barrier.u32_of_lt hs]
    split_ifs with h
    · exact ⟨by rw [PrBcOpt.getD_set_self _ _ _ _ hdst]; omega, rfl⟩
    · exact ⟨by dsimp only; omega, by simp⟩
  · split_ifs with h
    · dsimp only
      rw [PrBcOpt.getD_set_self _ _ _ _ hdst]
      exact Nat.le_of_lt h
    · exact Nat.le_refl _
  · split_ifs with h
    · right
      dsimp only
      rw [PrBcOpt.getD_set_self _ _ _ _ hdst]
    · left
      rfl
  · intro n hn
    split_ifs with h
    · exact PrBcOpt.getD_set_ne _ _ _ _ _ (Ne.symm hn)
    · rfl
  · split_ifs <;> rfl

/-- Witness of C28: from the source at distance 0 the edge of weight 5 to node 1, which is
at `DIST_INFINITY`, sets the distance of node 1 to 5 and pushes the request `(5, 1)`. -/
theorem relax_edge_takes_minimum_witness :
    (relax_edge smallGraph 0 (1, 5) []).1.data.getD 1 0 = min (smallGraph.data.getD 1 0) (0 + 5) ∧
    (relax_edge smallGraph 0 (1, 5) []).2 =
      [] ++ (if 0 + 5 < smallGraph.data.getD 1 0 then [(0 + 5, 1)] else []) :=
  (relax_edge_takes_minimum smallGraph 0 5 1 [] (by decide)).1 (by decide)

end SSSPsimple

/-! ### Claim on the binding `is_subtype_of` -/

namespace EntityTypeManager

/-- C30: the overload of `is_subtype_of` that takes `EntityType` objects raises exactly
when one of the two arguments is owned by a manager other than `self`, and what it raises
is the value error "EntityTypes must be owned by self."; otherwise it returns
`self.IsSubtypeOf(sub_type.type_id, super_type.type_id)`, which is what the overload that
takes type ids returns for these two ids. -/
theorem is_subtype_of_checks_owner (IsSubtypeOf : Nat → Nat → Nat → Bool) (self : Nat)
    (sub_type super_type : EntityType) :
    ((∃ msg, is_subtype_of IsSubtypeOf self sub_type super_type = .error msg) ↔
      (sub_type.owner ≠ self ∨ super_type.owner ≠ self)) ∧
    ((sub_type.owner ≠ self ∨ super_type.owner ≠ self) →
      is_subtype_of IsSubtypeOf self sub_type super_type =
        .error "EntityTypes must be owned by self.") ∧
    (sub_type.owner = self → super_type.owner = self →
      is_subtype_of IsSubtypeOf self sub_type super_type =
          .ok (IsSubtypeOf self sub_type.type_id super_type.type_id) ∧
        is_subtype_of IsSubtypeOf self sub_type super_type =
          .ok (is_subtype_of_id IsSubtypeOf self sub_type.type_id super_type.type_id)) := by
  unfold is_subtype_of is_subtype_of_id
  refine ⟨?_, ?_, ?_⟩
  · constructor
    · rintro ⟨msg, h⟩
      by_contra hc
      rw [if_neg hc] at h
      cases h
    · intro h
      exact ⟨_, if_pos h⟩
  · intro h
    exact if_pos h
  · intro h1 h2
    have hc : ¬ (sub_type.owner ≠ self ∨ super_type.owner ≠ self) := by
      rintro (h | h)
      · exact h h1
      · exact h h2
    exact ⟨if_neg hc, if_neg hc⟩

/-- Witness of C30: manager 1 asked about two of its own types, 6 and 3, answers as
`IsSubtypeOf` does; asked about a type of manager 2 it raises. -/
theorem is_subtype_of_checks_owner_witness :
    is_subtype_of divides 1 ⟨1, 6⟩ ⟨1, 3⟩ = .ok true ∧
    is_subtype_of divides 1 ⟨1, 6⟩ ⟨2, 3⟩ = .error "EntityTypes must be owned by self." :=
  ⟨((is_subtype_of_checks_owner divides 1 ⟨1, 6⟩ ⟨1, 3⟩).2.2 rfl rfl).1,
    (is_subtype_of_checks_owner divides 1 ⟨1, 6⟩ ⟨2, 3⟩).2.1 (Or.inr (by decide))⟩

end EntityTypeManager

/-! ### Claim on the trace toggle -/

namespace Tracer

/-- C24: the toggle gates every trace event.  For each of the seven `_impl` functions
(`e.impl` is the function of the event `e`): when `doTrace` is false the call changes
nothing, so nothing is logged, nothing is sent and the counter keeps its value; when
`doTrace` is true and the host id is 0 or `GALOIS_TRACE_LOCAL` is set, the call is the call
of the `_do` function on this host, which logs one line and sends nothing; when `doTrace`
is true, the host id is not 0 and `GALOIS_TRACE_LOCAL` is not set, the `_do` call is sent
to host 0 and nothing else changes, so nothing is logged locally and the counter keeps its
value. -/
theorem trace_toggle_gates_events (networkHostID : Nat) (traceLocal : Bool) (e : Event)
    (s : State) :
    (s.doTrace = false → e.impl networkHostID traceLocal s = s) ∧
    (s.doTrace = true → (networkHostID = 0 ∨ traceLocal = true) →
      e.impl networkHostID traceLocal s = (e.call networkHostID).run s ∧
        (e.impl networkHostID traceLocal s).sent = s.sent ∧
        (e.impl networkHostID traceLocal s).doTrace = true ∧
        ∃ l, (e.impl networkHostID traceLocal s).log = s.log ++ [l]) ∧
    (s.doTrace = true → networkHostID ≠ 0 → traceLocal = false →
      e.impl networkHostID traceLocal s =
        { s with sent := s.sent ++ [(0, e.call networkHostID)] }) := by
  refine ⟨?_, ?_, ?_⟩
  · intro h
    cases e <;>
      simp [Event.impl, trace_obj_send_impl, trace_obj_recv_impl, trace_req_send_impl,
        trace_req_recv_impl, trace_bcast_recv_impl, trace_loop_start_impl,
        trace_loop_end_impl, h]
  · intro h hl
    cases e <;>
      simp [Event.impl, Event.call, Call.run, trace_obj_send_impl, trace_obj_recv_impl,
        trace_req_send_impl, trace_req_recv_impl, trace_bcast_recv_impl,
        trace_loop_start_impl, trace_loop_end_impl, trace_obj_send_do, trace_obj_recv_do,
        trace_req_send_do, trace_req_recv_do, trace_bcast_recv_do, trace_loop_start_do,
        trace_loop_end_do, gDebug, h, hl]
  · intro h h0 hl
    cases e <;>
      simp [Event.impl, Event.call, trace_obj_send_impl, trace_obj_recv_impl,
        trace_req_send_impl, trace_req_recv_impl, trace_bcast_recv_impl,
        trace_loop_start_impl, trace_loop_end_impl, sendAlt, h, h0, hl]

/-- Witness of C24: on host 1, without `GALOIS_TRACE_LOCAL`, the send of an object is
forwarded to host 0 while tracing is on, and does nothing once tracing is off. -/
theorem trace_toggle_gates_events_witness :
    trace_obj_send_impl 1 false 3 4 5 State.start =
      { State.start with sent := [(0, .trace_obj_send_do 1 3 4 5)] } ∧
    trace_obj_send_impl 1 false 3 4 5 (setTraceImpl false State.start) =
      setTraceImpl false State.start :=
  ⟨(trace_toggle_gates_events 1 false (.obj_send 3 4 5) State.start).2.2 rfl (by decide) rfl,
    (trace_toggle_gates_events 1 false (.obj_send 3 4 5) (setTraceImpl false State.start)).1
      rfl⟩

end Tracer

/-! ### Claim on `getSystemBarrier` -/

namespace Barrier

end Barrier

/-! ### Claim on the wake-up tree of `MCSBarrier` -/

namespace Barrier

theorem mcs_childpointer_iff (nodes : List MCSBarrier.treenode) (P q k i : Nat)
    (h2 : P ≤ nodes.length) (h3 : 4 * nodes.length < 2 ^ 32) :
    ((MCSBarrier._reinit nodes P).getD q MCSBarrier.noNode).childpointers.getD k none = some i ↔
      (1 ≤ i ∧ i < P ∧ q = (i - 1) / 2 ∧ k = (i - 1) % 2) := by
  by_cases hq : q < nodes.length
  · rw [mcs_reinit_getD nodes P q hq]
    dsimp only
    rw [u32_of_lt (by omega), u32_of_lt (by omega)]
    rcases k with _ | _ | k
    · rw [List.getD_cons_zero]
      split_ifs with h
      · constructor
        · intro hn; cases hn
        · intro hr; omega
      · rw [Option.some.injEq]
        omega
    · rw [List.getD_cons_succ, List.getD_cons_zero]
      split_ifs with h
      · constructor
        · intro hn; cases hn
        · intro hr; omega
      · rw [Option.some.injEq]
        omega
    · rw [List.getD_cons_succ, List.getD_cons_succ, List.getD_nil]
      constructor
      · intro hn; cases hn
      · intro hr; omega
  · have hlen : (MCSBarrier._reinit nodes P).length ≤ q := by
      rw [mcs_reinit_length]
      omega
    rw [List.getD_eq_default _ _ hlen]
    constructor
    · intro hn
      cases k <;> cases hn
    · intro hr
      omega

/-- C27: after `_reinit(P)` with `1 <= P <= nodes.size()` (and a storage small enough for
`2 * i + 2` not to wrap), slot `k` of `childpointers` of thread `q` points at thread `i`
exactly when `1 <= i < P`, `q = (i - 1) / 2` and `k = (i - 1) % 2`.  So every thread `i` in
`[1, P)` is the target of one wake-up pointer and of no other, no wake-up pointer targets
thread 0 or a thread with id `>= P`, and every thread in `[0, P)` is reached from thread 0
by following wake-up pointers. -/
theorem mcs_reinit_builds_wakeup_tree (nodes : List MCSBarrier.treenode) (P : Nat)
    (h1 : 1 ≤ P) (h2 : P ≤ nodes.length) (h3 : 4 * nodes.length < 2 ^ 32) :
    (∀ i, 1 ≤ i → i < P →
      ((MCSBarrier._reinit nodes P).getD ((i - 1) / 2) MCSBarrier.noNode).childpointers.getD
        ((i - 1) % 2) none = some i) ∧
    (∀ q k i,
      ((MCSBarrier._reinit nodes P).getD q MCSBarrier.noNode).childpointers.getD k none =
          some i →
        1 ≤ i ∧ i < P ∧ q = (i - 1) / 2 ∧ k = (i - 1) % 2) ∧
    (∀ i, i < P → MCSBarrier.Reachable (MCSBarrier._reinit nodes P) i) := by
  have hto : ∀ i, 1 ≤ i → i < P →
      ((MCSBarrier._reinit nodes P).getD ((i - 1) / 2) MCSBarrier.noNode).childpointers.getD
        ((i - 1) % 2) none = some i :=
    fun i hi hP => (mcs_childpointer_iff nodes P _ _ i h2 h3).mpr ⟨hi, hP, rfl, rfl⟩
  refine ⟨hto, fun q k i h => (mcs_childpointer_iff nodes P q k i h2 h3).mp h, ?_⟩
  intro i
  induction i using Nat.strong_induction_on with
  | _ i ih =>
    intro hP
    by_cases hi : i = 0
    · subst hi
      exact .root
    · exact .child ((i - 1) / 2) ((i - 1) % 2) i (ih ((i - 1) / 2) (by omega) (by omega))
        (hto i (by omega) hP)

/-- Witness of C27: a storage of six nodes, all six participating; thread 5 is reached from
thread 0. -/
theorem mcs_reinit_builds_wakeup_tree_witness :
    MCSBarrier.Reachable (MCSBarrier._reinit (List.replicate 6 MCSBarrier.noNode) 6) 5 :=
  (mcs_reinit_builds_wakeup_tree (List.replicate 6 MCSBarrier.noNode) 6 (by decide)
    (by decide) (by decide)).2.2 5 (by decide)

end Barrier

/-! ### Claims on the selection and on the path counts of `APSPReduce::reduce` -/

namespace PrBcOpt

section Selection

variable {F : Type}

theorem reduce_selection_step {cfg : Config} {node node' : NodeData F} {y : TupleOfThree}
    {b : Bool} (h : APSPReduce.reduce cfg node y = .returned b node')
    (hy : y.first ≠ cfg.infinity) (seen : List Nat) (hseen : ∀ k ∈ seen, k ≠ cfg.infinity)
    (hinv : (node.roundIndexToSend = cfg.infinity ∧ seen = []) ∨
      (node.roundIndexToSend ∈ seen ∧
        ∀ k ∈ seen, ¬ precedes node.minDistances k node.roundIndexToSend)) :
    node'.roundIndexToSend ∈ seen ++ [y.first] ∧
      ∀ k ∈ seen ++ [y.first], ¬ precedes node'.minDistances k node'.roundIndexToSend := by
  have hr := reduce_returned_index h hy
  have hm := reduce_slot_minDistances h hy
  rcases hinv with ⟨hinf, rfl⟩ | ⟨hmem, hmin⟩
  · rw [if_pos (Or.inl hinf)] at hr
    rw [hr]
    refine ⟨by simp, ?_⟩
    intro k hk
    rw [List.nil_append, List.mem_singleton] at hk
    subst hk
    unfold precedes
    omega
  · have hs : node.roundIndexToSend ≠ cfg.infinity := hseen _ hmem
    have hmr := hm y.first
    have hms := hm node.roundIndexToSend
    rw [if_pos rfl] at hmr
    have hss := hmin _ hmem
    by_cases c1 : node'.minDistances.getD y.first 0 <
        node'.minDistances.getD node.roundIndexToSend 0
    · rw [if_pos (Or.inr c1)] at hr
      rw [hr]
      refine ⟨by simp, ?_⟩
      intro k hk
      have hmk := hm k
      rcases List.mem_append.mp hk with hk | hk
      · have hkk := hmin k hk
        unfold precedes at hkk ⊢
        rw [hmk, hmr]
        rw [hmr, hms] at c1
        rw [Nat.min_def] at c1 ⊢
        split_ifs at c1 hmk ⊢ <;> omega
      · rw [List.mem_singleton] at hk
        subst hk
        unfold precedes
        omega
    · by_cases c2 : node'.minDistances.getD y.first 0 =
          node'.minDistances.getD node.roundIndexToSend 0 ∧ y.first < node.roundIndexToSend
      · rw [if_neg (by rintro (hh | hh); exact hs hh; exact c1 hh), if_pos c2] at hr
        rw [hr]
        refine ⟨by simp, ?_⟩
        intro k hk
        have hmk := hm k
        rcases List.mem_append.mp hk with hk | hk
        · have hkk := hmin k hk
          unfold precedes at hkk ⊢
          rw [hmk, hmr]
          rw [hmr, hms] at c1 c2
          rw [Nat.min_def] at c1 c2 ⊢
          split_ifs at c1 c2 hmk ⊢ <;> omega
        · rw [List.mem_singleton] at hk
          subst hk
          unfold precedes
          omega
      · rw [if_neg (by rintro (hh | hh); exact hs hh; exact c1 hh), if_neg c2] at hr
        rw [hr]
        refine ⟨List.mem_append_left _ hmem, ?_⟩
        intro k hk
        have hmk := hm k
        rcases List.mem_append.mp hk with hk | hk
        · have hkk := hmin k hk
          unfold precedes at hkk ⊢
          rw [hmk, hms]
          rw [hmr, hms] at c1 c2
          rw [Nat.min_def] at c1 c2 ⊢
          split_ifs at c1 c2 hmk ⊢ <;> omega
        · rw [List.mem_singleton] at hk
          subst hk
          unfold precedes
          rw [hmr, hms]
          rw [hmr, hms] at c1 c2
          rw [Nat.min_def] at c1 c2 ⊢
          split_ifs at c1 c2 ⊢ <;> omega

theorem reduceAll_selection {cfg : Config} (ys : List TupleOfThree) :
    ∀ (node node' : NodeData F) (seen : List Nat),
      APSPReduce.reduceAll cfg node ys = .returned () node' →
      (∀ y ∈ ys, y.first ≠ cfg.infinity) → (∀ k ∈ seen, k ≠ cfg.infinity) →
      ((node.roundIndexToSend = cfg.infinity ∧ seen = []) ∨
        (node.roundIndexToSend ∈ seen ∧
          ∀ k ∈ seen, ¬ precedes node.minDistances k node.roundIndexToSend)) →
      (seen ≠ [] ∨ ys ≠ []) →
      node'.roundIndexToSend ∈ seen ++ ys.map (fun y => y.first) ∧
        ∀ k ∈ seen ++ ys.map (fun y => y.first),
          ¬ precedes node'.minDistances k node'.roundIndexToSend := by
  induction ys with
  | nil =>
    intro node node' seen h _ _ hinv hne
    cases h
    rw [List.map_nil, List.append_nil]
    rcases hinv with ⟨_, hnil⟩ | hinv
    · rcases hne with hne | hne
      · exact absurd hnil hne
      · exact absurd rfl hne
    · exact hinv
  | cons y ys ih =>
    intro node node' seen h hs hseen hinv _
    have hy : y.first ≠ cfg.infinity := hs y (List.mem_cons_self _ _)
    unfold APSPReduce.reduceAll at h
    cases hr : APSPReduce.reduce cfg node y with
    | aborted n1 => rw [hr] at h; cases h
    | returned b n1 =>
      rw [hr] at h
      have hstep := reduce_selection_step hr hy seen hseen hinv
      have hseen1 : ∀ k ∈ seen ++ [y.first], k ≠ cfg.infinity := by
        intro k hk
        rcases List.mem_append.mp hk with hk | hk
        · exact hseen k hk
        · rw [List.mem_singleton] at hk
          rw [hk]
          exact hy
      have hres := ih n1 node' (seen ++ [y.first]) h
        (fun z hz => hs z (List.mem_cons_of_mem _ hz)) hseen1 (Or.inr hstep)
        (Or.inl (by simp))
      rw [List.append_assoc] at hres
      exact hres

theorem precedes_total {md : List Nat} {a b : Nat} (h1 : ¬ precedes md a b)
    (h2 : ¬ precedes md b a) : a = b := by
  unfold precedes at h1 h2
  omega

end Selection

section SelectionClaims

variable {F : Type}

/-- C25: the selection of `reduce` is the least pair (distance, index).  For a node with
`roundIndexToSend = infinity` and a non-empty sequence of payloads none of which carries the
sentinel: after a completed run `roundIndexToSend` is the index of one of the payloads, and
no index of a payload comes before it in the order of the pairs
(final `minDistances[k]`, `k`); every completed permutation of the sequence ends with the
same `roundIndexToSend`; and the run completes when every payload carries a non-zero path
count for an index whose `sentFlag` is false. -/
theorem reduce_selects_least_pair (cfg : Config) (node : NodeData F)
    (ys : List TupleOfThree) (hne : ys ≠ [])
    (hinf : node.roundIndexToSend = cfg.infinity)
    (hs : ∀ y ∈ ys, y.first ≠ cfg.infinity) :
    (∀ node', APSPReduce.reduceAll cfg node ys = .returned () node' →
      (∃ y ∈ ys, y.first = node'.roundIndexToSend) ∧
        ∀ y ∈ ys, ¬ precedes node'.minDistances y.first node'.roundIndexToSend) ∧
    (∀ ys' n1 n2, ys'.Perm ys → APSPReduce.reduceAll cfg node ys = .returned () n1 →
      APSPReduce.reduceAll cfg node ys' = .returned () n2 →
      n2.roundIndexToSend = n1.roundIndexToSend) ∧
    ((∀ y ∈ ys, y.third ≠ 0 ∧ node.sentFlag.getD y.first false = false) →
      ∃ node', APSPReduce.reduceAll cfg node ys = .returned () node') := by
  have key : ∀ (zs : List TupleOfThree) (n : NodeData F), zs ≠ [] →
      (∀ y ∈ zs, y.first ≠ cfg.infinity) →
      APSPReduce.reduceAll cfg node zs = .returned () n →
      (∃ y ∈ zs, y.first = n.roundIndexToSend) ∧
        ∀ y ∈ zs, ¬ precedes n.minDistances y.first n.roundIndexToSend := by
    intro zs n hz hzs h
    have hres := reduceAll_selection zs node n [] h hzs (fun k hk => by cases hk)
      (Or.inl ⟨hinf, rfl⟩) (Or.inr hz)
    rw [List.nil_append] at hres
    obtain ⟨hmem, hmin⟩ := hres
    refine ⟨?_, fun y hy => hmin _ (List.mem_map_of_mem _ hy)⟩
    obtain ⟨y, hy, he⟩ := List.mem_map.mp hmem
    exact ⟨y, hy, he⟩
  refine ⟨fun node' h => key ys node' hne hs h, ?_, fun h => reduceAll_not_aborted ys node h⟩
  intro ys' n1 n2 hp h1 h2
  have hs' : ∀ y ∈ ys', y.first ≠ cfg.infinity := fun y hy => hs y (hp.mem_iff.mp hy)
  have hne' : ys' ≠ [] := fun hnil => hne (by rw [hnil] at hp; exact hp.symm.eq_nil)
  obtain ⟨⟨y1, hy1, he1⟩, hmin1⟩ := key ys n1 hne hs h1
  obtain ⟨⟨y2, hy2, he2⟩, hmin2⟩ := key ys' n2 hne' hs' h2
  have hmd : ∀ k, n2.minDistances.getD k 0 = n1.minDistances.getD k 0 := by
    intro k
    rw [reduceAll_minDistances ys k h1 hs, reduceAll_minDistances ys' k h2 hs']
    exact minOver_perm ((hp.filter _).map _) _
  have ha := hmin1 y2 (hp.mem_iff.mp hy2)
  have hb := hmin2 y1 (hp.mem_iff.mpr hy1)
  rw [he2] at ha
  rw [he1] at hb
  unfold precedes at ha hb
  rw [hmd, hmd] at hb
  omega

/-- Witness of C25: from the node without a chosen index, the payloads for index 1 at
distance 3, for index 0 at distance 7 and for index 0 at distance 3 leave index 0 chosen:
both indices end at distance 3, and 0 is the smaller index. -/
theorem reduce_selects_least_pair_witness :
    ∃ node', APSPReduce.reduceAll cfg64 freshNode [⟨1, 3, 1⟩, ⟨0, 7, 1⟩, ⟨0, 3, 2⟩] =
        .returned () node' ∧
      (∃ y ∈ [(⟨1, 3, 1⟩ : TupleOfThree), ⟨0, 7, 1⟩, ⟨0, 3, 2⟩],
        y.first = node'.roundIndexToSend) ∧
      ∀ y ∈ [(⟨1, 3, 1⟩ : TupleOfThree), ⟨0, 7, 1⟩, ⟨0, 3, 2⟩],
        ¬ precedes node'.minDistances y.first node'.roundIndexToSend := by
  have h := reduce_selects_least_pair cfg64 freshNode [⟨1, 3, 1⟩, ⟨0, 7, 1⟩, ⟨0, 3, 2⟩]
    (by decide) (by decide) (by decide)
  obtain ⟨node', hn⟩ := h.2.2 (by decide)
  exact ⟨node', hn, h.1 node' hn⟩

end SelectionClaims

end PrBcOpt

namespace PrBcOpt

section Counts

variable {F : Type}

theorem receivedCount_cons (k : Nat) (y : TupleOfThree) (ys : List TupleOfThree) :
    receivedCount k (y :: ys) = (if y.first = k then y.third else 0) + receivedCount k ys := by
  unfold receivedCount
  by_cases h : y.first = k
  · simp [h]
  · rw [if_neg h]
    simp [List.filter_cons, h]

theorem reduce_count_step {cfg : Config} {node node' : NodeData F} {y : TupleOfThree}
    {b : Bool} (h : APSPReduce.reduce cfg node y = .returned b node')
    (hy : y.first ≠ cfg.infinity) (hr : y.first < node.shortestPathNumbers.length)
    (hc : y.third ≠ 0) (hd : y.second ≤ cfg.infinity)
    (hK : node.roundIndexToSend = cfg.infinity ∨
      node.shortestPathNumbers.getD node.roundIndexToSend 0 ≠ 0)
    (hJ : ∀ k, k < node.shortestPathNumbers.length →
      node.minDistances.getD k 0 = cfg.infinity ∨ node.shortestPathNumbers.getD k 0 ≠ 0)
    (hb : node.shortestPathNumbers.getD y.first 0 + y.third < 2 ^ cfg.pathBits) :
    node'.shortestPathNumbers.length = node.shortestPathNumbers.length ∧
    (node'.roundIndexToSend = cfg.infinity ∨
      node'.shortestPathNumbers.getD node'.roundIndexToSend 0 ≠ 0) ∧
    (∀ k, k < node.shortestPathNumbers.length →
      node'.minDistances.getD k 0 = cfg.infinity ∨ node'.shortestPathNumbers.getD k 0 ≠ 0) ∧
    (∀ k, k < node.shortestPathNumbers.length →
      node'.shortestPathNumbers.getD k 0 ≤
        node.shortestPathNumbers.getD k 0 + (if y.first = k then y.third else 0)) := by
  have hidx := reduce_returned_index h hy
  have hm := reduce_slot_minDistances h hy
  have hp := fun k hk => (reduce_slot_paths h hy k hk).2
  have hlen := (reduce_slot_paths h hy y.first hr).1
  have hmod : (node.shortestPathNumbers.getD y.first 0 + y.third) % 2 ^ cfg.pathBits =
      node.shortestPathNumbers.getD y.first 0 + y.third := Nat.mod_eq_of_lt hb
  have hpr := hp y.first hr
  rw [if_pos rfl, hmod] at hpr
  have hnz : node'.shortestPathNumbers.getD y.first 0 ≠ 0 := by
    rw [hpr]
    have hJr := hJ y.first hr
    split_ifs with c1 c2 <;> omega
  have hsame : ∀ k, y.first ≠ k → k < node.shortestPathNumbers.length →
      node'.shortestPathNumbers.getD k 0 = node.shortestPathNumbers.getD k 0 := by
    intro k hk hkl
    have := hp k hkl
    rw [if_neg hk] at this
    exact this
  refine ⟨hlen, ?_, ?_, ?_⟩
  · have hcases : node'.roundIndexToSend = y.first ∨
        (node'.roundIndexToSend = node.roundIndexToSend ∧
          node.roundIndexToSend ≠ cfg.infinity) := by
      rw [hidx]
      by_cases c0 : node.roundIndexToSend = cfg.infinity
      · left
        rw [if_pos (Or.inl c0)]
      · split_ifs
        · left; rfl
        · left; rfl
        · right; exact ⟨rfl, c0⟩
    rcases hcases with hc1 | ⟨hc1, hc2⟩
    · right
      rw [hc1]
      exact hnz
    · right
      rw [hc1]
      have hKs : node.shortestPathNumbers.getD node.roundIndexToSend 0 ≠ 0 := by
        rcases hK with hK | hK
        · exact absurd hK hc2
        · exact hK
      by_cases hrs : y.first = node.roundIndexToSend
      · rw [← hrs]
        exact hnz
      · by_cases hsl : node.roundIndexToSend < node.shortestPathNumbers.length
        · rw [hsame _ hrs hsl]
          exact hKs
        · exact absurd (List.getD_eq_default _ _ (Nat.le_of_not_lt hsl)) hKs
  · intro k hk
    by_cases hrk : y.first = k
    · right
      rw [← hrk]
      exact hnz
    · have hmk := hm k
      rw [if_neg hrk] at hmk
      rw [hmk, hsame k hrk hk]
      exact hJ k hk
  · intro k hk
    by_cases hrk : y.first = k
    · subst hrk
      rw [hpr, if_pos rfl]
      split_ifs <;> omega
    · rw [hsame k hrk hk, if_neg hrk]
      exact Nat.le_refl _

theorem reduceAll_counts {cfg : Config} (ys : List TupleOfThree) :
    ∀ (node node' : NodeData F), APSPReduce.reduceAll cfg node ys = .returned () node' →
      (∀ y ∈ ys, y.third ≠ 0 ∧ y.second ≤ cfg.infinity ∧
        (y.first ≠ cfg.infinity → y.first < node.shortestPathNumbers.length)) →
      (node.roundIndexToSend = cfg.infinity ∨
        node.shortestPathNumbers.getD node.roundIndexToSend 0 ≠ 0) →
      (∀ k, k < node.shortestPathNumbers.length →
        node.minDistances.getD k 0 = cfg.infinity ∨ node.shortestPathNumbers.getD k 0 ≠ 0) →
      (∀ k, k < node.shortestPathNumbers.length →
        node.shortestPathNumbers.getD k 0 + receivedCount k ys < 2 ^ cfg.pathBits) →
      node'.shortestPathNumbers.length = node.shortestPathNumbers.length ∧
      (node'.roundIndexToSend = cfg.infinity ∨
        node'.shortestPathNumbers.getD node'.roundIndexToSend 0 ≠ 0) ∧
      (∀ k, k < node.shortestPathNumbers.length →
        node'.minDistances.getD k 0 = cfg.infinity ∨
          node'.shortestPathNumbers.getD k 0 ≠ 0) := by
  induction ys with
  | nil =>
    intro node node' h _ hK hJ _
    cases h
    exact ⟨rfl, hK, hJ⟩
  | cons y ys ih =>
    intro node node' h hp hK hJ hB
    obtain ⟨hc, hd, hr⟩ := hp y (List.mem_cons_self _ _)
    unfold APSPReduce.reduceAll at h
    cases hred : APSPReduce.reduce cfg node y with
    | aborted n1 => rw [hred] at h; cases h
    | returned b n1 =>
      rw [hred] at h
      by_cases hy : y.first = cfg.infinity
      · have hn1 : n1 = node := by
          unfold APSPReduce.reduce at hred
          simp only [hy, ne_eq, not_true_eq_false, if_false] at hred
          cases hred
          rfl
        subst hn1
        refine ih n1 node' h (fun z hz => hp z (List.mem_cons_of_mem _ hz)) hK hJ ?_
        intro k hk
        have := hB k hk
        rw [receivedCount_cons] at this
        omega
      · have hrl := hr hy
        have hb : node.shortestPathNumbers.getD y.first 0 + y.third < 2 ^ cfg.pathBits := by
          have := hB y.first hrl
          rw [receivedCount_cons, if_pos rfl] at this
          omega
        obtain ⟨hlen, hK1, hJ1, hle⟩ := reduce_count_step hred hy hrl hc hd hK hJ hb
        have hres := ih n1 node' h
          (fun z hz => by
            rw [hlen]
            exact hp z (List.mem_cons_of_mem _ hz))
          hK1 (by rw [hlen]; exact hJ1)
          (by
            rw [hlen]
            intro k hk
            have h1 := hB k hk
            have h2 := hle k hk
            rw [receivedCount_cons] at h1
            omega)
        rw [hlen] at hres
        exact hres

end Counts

section CountClaims

variable {F : Type}

/-- Counterexample to C26: `unreachedNode` starts the round with `roundIndexToSend = infinity`
and both indices at distance `infinity`; the one payload for index 0 carries the non-zero
count 5 and the distance `infinity + 1`, and no count wraps.  `reduce` returns, leaves the
distance and the count 0 of index 0 as they are, and selects index 0; then
`APSPBroadcast::extract` fails its assertion `c != 0`. -/
theorem reduce_selects_index_without_count :
    unreachedNode.roundIndexToSend = cfg64.infinity ∧
    (∀ k, k < unreachedNode.shortestPathNumbers.length →
      unreachedNode.minDistances.getD k 0 = cfg64.infinity ∨
        unreachedNode.shortestPathNumbers.getD k 0 ≠ 0) ∧
    (∀ k, k < unreachedNode.shortestPathNumbers.length →
      unreachedNode.shortestPathNumbers.getD k 0 +
        receivedCount k [⟨0, 1073741824, 5⟩] < 2 ^ cfg64.pathBits) ∧
    APSPReduce.reduceAll cfg64 unreachedNode [⟨0, 1073741824, 5⟩] =
      .returned () { unreachedNode with roundIndexToSend := 0 } ∧
    ¬ ((0 : Nat) = cfg64.infinity ∨ unreachedNode.shortestPathNumbers.getD 0 0 ≠ 0) ∧
    APSPBroadcast.extract cfg64 { unreachedNode with roundIndexToSend := 0 } = none := by
  decide

/-- C26 as amended: the master never broadcasts a zero path count when no payload carries a
distance above `infinity`.  A node starts a round with
`roundIndexToSend = infinity` and with every index either at distance `infinity` or with a
non-zero path count.  The payloads carry non-zero path counts, distances that do not exceed
`infinity`, and indices that are the sentinel or in range; and for no index does the stored
count plus the counts received for it reach `2 ^ pathBits` (no wraparound).  Then after
every completed run of `reduce` over the payloads the node has
`roundIndexToSend = infinity` or `shortestPathNumbers[roundIndexToSend] != 0`, every index
is still at distance `infinity` or has a non-zero count, and `APSPBroadcast::extract` passes
its assertion `c != 0`; and the run completes whenever no payload is for an index whose
`sentFlag` is set, so the assertion `rNumPaths != 0` of `reduce` does not fail. -/
theorem master_never_sends_zero_count (cfg : Config) (node : NodeData F)
    (ys : List TupleOfThree)
    (hinf : node.roundIndexToSend = cfg.infinity)
    (hJ : ∀ k, k < node.shortestPathNumbers.length →
      node.minDistances.getD k 0 = cfg.infinity ∨ node.shortestPathNumbers.getD k 0 ≠ 0)
    (hp : ∀ y ∈ ys, y.third ≠ 0 ∧ y.second ≤ cfg.infinity ∧
      (y.first ≠ cfg.infinity → y.first < node.shortestPathNumbers.length))
    (hB : ∀ k, k < node.shortestPathNumbers.length →
      node.shortestPathNumbers.getD k 0 + receivedCount k ys < 2 ^ cfg.pathBits) :
    (∀ node', APSPReduce.reduceAll cfg node ys = .returned () node' →
      (node'.roundIndexToSend = cfg.infinity ∨
        node'.shortestPathNumbers.getD node'.roundIndexToSend 0 ≠ 0) ∧
      (∀ k, k < node'.shortestPathNumbers.length →
        node'.minDistances.getD k 0 = cfg.infinity ∨
          node'.shortestPathNumbers.getD k 0 ≠ 0) ∧
      APSPBroadcast.extract cfg node' ≠ none) ∧
    ((∀ y ∈ ys, node.sentFlag.getD y.first false = false) →
      ∃ node', APSPReduce.reduceAll cfg node ys = .returned () node') := by
  constructor
  · intro node' h
    obtain ⟨hlen, hK, hJ'⟩ := reduceAll_counts ys node node' h hp (Or.inl hinf) hJ hB
    refine ⟨hK, by rw [hlen]; exact hJ', ?_⟩
    unfold APSPBroadcast.extract
    dsimp only
    rcases hK with hK | hK
    · rw [if_neg (by simpa using hK)]
      exact Option.some_ne_none _
    · split_ifs
      · exact Option.some_ne_none _
      · exact Option.some_ne_none _
  · intro hf
    exact reduceAll_not_aborted ys node (fun y hy => ⟨(hp y hy).1, hf y hy⟩)

/-- Witness of C26: from the node whose two sources are unreached, three payloads at
distance 5 leave index 0 chosen with 5 paths, and `extract` sends them. -/
theorem master_never_sends_zero_count_witness :
    ∃ node', APSPReduce.reduceAll cfg64 unreachedNode [⟨0, 5, 2⟩, ⟨1, 5, 1⟩, ⟨0, 5, 3⟩] =
        .returned () node' ∧
      (node'.roundIndexToSend = cfg64.infinity ∨
        node'.shortestPathNumbers.getD node'.roundIndexToSend 0 ≠ 0) ∧
      APSPBroadcast.extract cfg64 node' ≠ none := by
  have h := master_never_sends_zero_count cfg64 unreachedNode
    [⟨0, 5, 2⟩, ⟨1, 5, 1⟩, ⟨0, 5, 3⟩] (by decide) (by decide) (by decide) (by decide)
  obtain ⟨node', hn⟩ := h.2 (by decide)
  exact ⟨node', hn, (h.1 node' hn).1, (h.1 node' hn).2.2⟩

end CountClaims

end PrBcOpt

/-! ### Claim on the termination of the PageRank loop -/

namespace LoopTransform

section Rounds

variable {F : Type}

theorem operator_accum (ops : FloatOps F) (tolerance alpha : F) (g : Graph F)
    (a : DGAccumulator) (src : Nat) :
    (PageRank.operator ops tolerance alpha g a src).2 =
      (if ops.gt (Graph.getData ops g src).residual tolerance = true ∧
          (Graph.getData ops g src).nout > 0 then a.add 1 else a) := by
  unfold PageRank.operator
  dsimp only
  split_ifs with h1 h2 h3 h4 <;> first | rfl | (exfalso; tauto)

theorem operator_graph (ops : FloatOps F) (tolerance alpha : F) (g : Graph F)
    (a a' : DGAccumulator) (src : Nat) :
    (PageRank.operator ops tolerance alpha g a src).1 =
      (PageRank.operator ops tolerance alpha g a' src).1 := by
  unfold PageRank.operator
  dsimp only
  split_ifs <;> rfl

theorem for_each_cons (ops : FloatOps F) (tolerance alpha : F) (g : Graph F)
    (a : DGAccumulator) (src : Nat) (rest : List Nat) :
    PageRank.for_each ops tolerance alpha g a (src :: rest) =
      PageRank.for_each ops tolerance alpha (PageRank.operator ops tolerance alpha g a src).1
        (PageRank.operator ops tolerance alpha g a src).2 rest :=
  rfl

theorem propagating_length_le (ops : FloatOps F) (tolerance alpha : F)
    (schedule : List Nat) :
    ∀ g : Graph F, (PageRank.propagating ops tolerance alpha g schedule).length ≤
      schedule.length := by
  induction schedule with
  | nil => intro g; exact Nat.le_refl _
  | cons src rest ih =>
    intro g
    unfold PageRank.propagating
    rw [List.length_append, List.length_cons]
    have := ih (PageRank.operator ops tolerance alpha g ⟨0⟩ src).1
    split_ifs
    · rw [List.length_singleton]; omega
    · rw [List.length_nil]; omega

theorem for_each_accum (ops : FloatOps F) (tolerance alpha : F) (schedule : List Nat) :
    ∀ (g : Graph F) (a : DGAccumulator), -2 ^ 31 ≤ a.mdata → a.mdata < 2 ^ 31 →
      (PageRank.for_each ops tolerance alpha g a schedule).2.mdata =
        Barrier.i32 (a.mdata + (PageRank.propagating ops tolerance alpha g schedule).length) := by
  induction schedule with
  | nil =>
    intro g a h1 h2
    unfold PageRank.propagating
    rw [List.length_nil, Nat.cast_zero, Int.add_zero, Barrier.i32_eq_of_range h1 h2]
    rfl
  | cons src rest ih =>
    intro g a h1 h2
    rw [for_each_cons]
    unfold PageRank.propagating
    rw [operator_graph ops tolerance alpha g a ⟨0⟩ src, List.length_append, Nat.cast_add]
    have hacc := operator_accum ops tolerance alpha g a src
    by_cases hc : ops.gt (Graph.getData ops g src).residual tolerance = true ∧
        (Graph.getData ops g src).nout > 0
    · rw [if_pos hc] at hacc
      rw [if_pos hc, hacc]
      have hr := Barrier.i32_range (a.mdata + 1)
      rw [ih _ (a.add 1) hr.1 hr.2]
      unfold DGAccumulator.add
      dsimp only
      rw [Barrier.i32_add_i32, List.length_singleton, Nat.cast_one, Int.add_assoc]
    · rw [if_neg hc] at hacc
      rw [if_neg hc, hacc, ih _ a h1 h2, List.length_nil, Nat.cast_zero, Int.zero_add]

theorem round_reduce (ops : FloatOps F) (tolerance alpha : F) (env : Environment F) (r : Nat)
    (g : Graph F) (a : DGAccumulator) :
    (PageRank.round ops tolerance alpha env r g a).2.2 =
      Barrier.i32 (Barrier.i32
        ((PageRank.propagating ops tolerance alpha g (env.schedule r)).length : Int) +
          env.others r) := by
  have h1 : -2 ^ 31 ≤ a.reset.mdata := by
    unfold DGAccumulator.reset
    decide
  have h2 : a.reset.mdata < 2 ^ 31 := by
    unfold DGAccumulator.reset
    decide
  unfold PageRank.round DGAccumulator.reduce
  dsimp only
  rw [for_each_accum ops tolerance alpha (env.schedule r) g a.reset h1 h2]
  unfold DGAccumulator.reset
  dsimp only
  rw [Int.zero_add]

theorem loop_stops (ops : FloatOps F) (tolerance alpha : F) (env : Environment F)
    (graph : Graph F) (accum : DGAccumulator) (d : Nat) :
    ∀ (fuel r n : Nat), r + d = n → d < fuel →
      (∀ i, r ≤ i → i < n →
        (PageRank.round ops tolerance alpha env i
          (PageRank.atRound ops tolerance alpha env graph accum i).1
          (PageRank.atRound ops tolerance alpha env graph accum i).2).2.2 ≠ 0) →
      (PageRank.round ops tolerance alpha env n
          (PageRank.atRound ops tolerance alpha env graph accum n).1
          (PageRank.atRound ops tolerance alpha env graph accum n).2).2.2 = 0 →
      PageRank.loop ops tolerance alpha env fuel r
          (PageRank.atRound ops tolerance alpha env graph accum r).1
          (PageRank.atRound ops tolerance alpha env graph accum r).2 =
        some ((PageRank.atRound ops tolerance alpha env graph accum (n + 1)).1,
          (PageRank.atRound ops tolerance alpha env graph accum (n + 1)).2, n + 1) := by
  induction d with
  | zero =>
    intro fuel r n hn hf _ hz
    rw [Nat.add_zero] at hn
    subst hn
    obtain ⟨f, rfl⟩ : ∃ f, fuel = f + 1 := ⟨fuel - 1, by omega⟩
    unfold PageRank.loop
    dsimp only
    rw [if_neg (by rw [hz]; exact fun h => h rfl)]
    rfl
  | succ d ih =>
    intro fuel r n hn hf hnz hz
    obtain ⟨f, rfl⟩ : ∃ f, fuel = f + 1 := ⟨fuel - 1, by omega⟩
    unfold PageRank.loop
    dsimp only
    rw [if_pos (hnz r (Nat.le_refl _) (by omega))]
    exact ih f (r + 1) n (by omega) (by omega) (fun i hi hin => hnz i (by omega) hin) hz

end Rounds

section RoundClaims

variable {F : Type}

/-- C23: termination detection by the accumulator.
The operator adds 1 to the accumulator exactly when the residual of its node exceeds the
tolerance and the node has `nout > 0`, and otherwise leaves the accumulator as it is.
Every round starts from the accumulator reset to 0: after the round the accumulator of the
host is the number of its nodes that performed propagation work in the round, whatever it
held before.  The loop runs another round exactly when `reduce()` is not 0.  So the loop
stops after the first round in which no node performed propagation work: when in each of
the rounds `0 .. k - 1` some node of this host or of another host worked, and in round `k`
none did, `go` returns after exactly `k + 1` rounds (given fuel for them), with the graph
and the accumulator of the end of round `k`.  The counts are taken to fit an `int`. -/
theorem pagerank_stops_after_idle_round (ops : FloatOps F) (tolerance alpha : F)
    (first : List Nat) (sync_first : Graph F → Graph F) (env : Environment F)
    (graph : Graph F) (accum : DGAccumulator) :
    (∀ (g : Graph F) (a : DGAccumulator) (src : Nat),
      (PageRank.operator ops tolerance alpha g a src).2 =
        (if ops.gt (Graph.getData ops g src).residual tolerance = true ∧
            (Graph.getData ops g src).nout > 0 then a.add 1 else a)) ∧
    (∀ (r : Nat) (g : Graph F) (a : DGAccumulator),
      (PageRank.round ops tolerance alpha env r g a).2.1.mdata =
        Barrier.i32 (PageRank.propagating ops tolerance alpha g (env.schedule r)).length) ∧
    (∀ (fuel r : Nat) (g : Graph F) (a : DGAccumulator),
      PageRank.loop ops tolerance alpha env (fuel + 1) r g a =
        (if (PageRank.round ops tolerance alpha env r g a).2.2 ≠ 0 then
          PageRank.loop ops tolerance alpha env fuel (r + 1)
            (PageRank.round ops tolerance alpha env r g a).1
            (PageRank.round ops tolerance alpha env r g a).2.1
        else
          some ((PageRank.round ops tolerance alpha env r g a).1,
            (PageRank.round ops tolerance alpha env r g a).2.1, r + 1))) ∧
    (∀ k fuel : Nat, k < fuel →
      (∀ j, j ≤ k → 0 ≤ env.others j ∧ (env.schedule j).length + env.others j < 2 ^ 31) →
      (∀ j, j < k →
        PageRank.workers ops tolerance alpha env
            (FirstItr_PageRank.go ops alpha first sync_first graph) accum j ≠ [] ∨
          env.others j ≠ 0) →
      PageRank.workers ops tolerance alpha env
          (FirstItr_PageRank.go ops alpha first sync_first graph) accum k = [] →
      env.others k = 0 →
      PageRank.go ops tolerance alpha first sync_first env fuel graph accum =
        some ((PageRank.atRound ops tolerance alpha env
              (FirstItr_PageRank.go ops alpha first sync_first graph) accum (k + 1)).1,
          (PageRank.atRound ops tolerance alpha env
              (FirstItr_PageRank.go ops alpha first sync_first graph) accum (k + 1)).2,
          k + 1)) := by
  refine ⟨operator_accum ops tolerance alpha, ?_, fun fuel r g a => rfl, ?_⟩
  · intro r g a
    have h1 : -2 ^ 31 ≤ a.reset.mdata := by
      unfold DGAccumulator.reset
      decide
    have h2 : a.reset.mdata < 2 ^ 31 := by
      unfold DGAccumulator.reset
      decide
    unfold PageRank.round
    dsimp only
    rw [for_each_accum ops tolerance alpha (env.schedule r) g a.reset h1 h2]
    unfold DGAccumulator.reset
    dsimp only
    rw [Int.zero_add]
  · intro k fuel hk hb hw hidle ho
    have hval : ∀ j, j ≤ k →
        (PageRank.round ops tolerance alpha env j
          (PageRank.atRound ops tolerance alpha env
            (FirstItr_PageRank.go ops alpha first sync_first graph) accum j).1
          (PageRank.atRound ops tolerance alpha env
            (FirstItr_PageRank.go ops alpha first sync_first graph) accum j).2).2.2 =
          ((PageRank.workers ops tolerance alpha env
            (FirstItr_PageRank.go ops alpha first sync_first graph) accum j).length : Int) +
            env.others j := by
      intro j hj
      rw [round_reduce]
      unfold PageRank.workers
      have hle := propagating_length_le ops tolerance alpha (env.schedule j)
        (PageRank.atRound ops tolerance alpha env
          (FirstItr_PageRank.go ops alpha first sync_first graph) accum j).1
      obtain ⟨h0, hlt⟩ := hb j hj
      rw [Barrier.i32_eq_of_range (x := ((PageRank.propagating ops tolerance alpha
        (PageRank.atRound ops tolerance alpha env
          (FirstItr_PageRank.go ops alpha first sync_first graph) accum j).1
        (env.schedule j)).length : Int)) (by omega) (by omega)]
      exact Barrier.i32_eq_of_range (by omega) (by omega)
    refine loop_stops ops tolerance alpha env
      (FirstItr_PageRank.go ops alpha first sync_first graph) accum k fuel 0 k
      (Nat.zero_add k) hk ?_ ?_
    · intro i _ hik
      rw [hval i (Nat.le_of_lt hik)]
      have h0 := (hb i (Nat.le_of_lt hik)).1
      rcases hw i hik with hne | hne
      · have hpos : 0 < (PageRank.workers ops tolerance alpha env
            (FirstItr_PageRank.go ops alpha first sync_first graph) accum i).length :=
          List.length_pos.mpr hne
        omega
      · omega
    · rw [hval k (Nat.le_refl _), hidle, ho]
      rfl

/-- Witness of C23: on the graph of three nodes, alone, node 0 propagates in round 0 and no
node does in round 1: `go` returns after two rounds. -/
theorem pagerank_stops_after_idle_round_witness :
    PageRank.go intOps 1 1 [0, 1, 2] id alone 5 threeNodes ⟨0⟩ =
      some ((PageRank.atRound intOps 1 1 alone
            (FirstItr_PageRank.go intOps 1 [0, 1, 2] id threeNodes) ⟨0⟩ 2).1,
        (PageRank.atRound intOps 1 1 alone
            (FirstItr_PageRank.go intOps 1 [0, 1, 2] id threeNodes) ⟨0⟩ 2).2, 2) :=
  (pagerank_stops_after_idle_round intOps 1 1 [0, 1, 2] id alone threeNodes ⟨0⟩).2.2.2 1 5
    (by decide) (by decide) (by decide) (by decide) (by decide)

end RoundClaims

end LoopTransform

/-! ### Claim on the top of the ranking -/

namespace PageRankPush

section Order

variable {V R : Type} [LinearOrder R]

theorem lt_iff (fo : FloatOrder V R) (a b : TopPair V) :
    a.lt fo b = true ↔ ∃ x y, fo.number a.value = some x ∧ fo.number b.value = some y ∧
      (x < y ∨ (x = y ∧ b.id < a.id)) := by
  unfold TopPair.lt FloatOrder.eq FloatOrder.lt
  cases ha : fo.number a.value with
  | none => simp
  | some x =>
    cases hb : fo.number b.value with
    | none => simp
    | some y =>
      simp only [Option.some.injEq, exists_and_left, exists_eq_left']
      split_ifs with h
      · rw [decide_eq_true_eq] at h
        rw [decide_eq_true_eq]
        constructor
        · intro hh
          exact Or.inr ⟨h, hh⟩
        · rintro (hh | ⟨_, hh⟩)
          · rw [h] at hh
            exact absurd hh (lt_irrefl _)
          · exact hh
      · rw [decide_eq_true_eq] at h
        rw [decide_eq_true_eq]
        constructor
        · exact Or.inl
        · rintro (hh | ⟨hh, _⟩)
          · exact hh
          · exact absurd hh h

theorem lt_irrefl_pair (fo : FloatOrder V R) (a : TopPair V) : a.lt fo a = false := by
  rw [← Bool.not_eq_true, lt_iff]
  rintro ⟨x, y, hx, hy, h⟩
  rw [hx] at hy
  cases hy
  rcases h with h | ⟨_, h⟩
  · exact lt_irrefl _ h
  · exact Nat.lt_irrefl _ h

theorem lt_trans_pair {fo : FloatOrder V R} {a b c : TopPair V} (hab : a.lt fo b = true)
    (hbc : b.lt fo c = true) : a.lt fo c = true := by
  rw [lt_iff] at hab hbc ⊢
  obtain ⟨x, y, hx, hy, hab⟩ := hab
  obtain ⟨y', z, hy', hz, hbc⟩ := hbc
  rw [hy] at hy'
  cases hy'
  refine ⟨x, z, hx, hz, ?_⟩
  rcases hab with h1 | ⟨h1, i1⟩ <;> rcases hbc with h2 | ⟨h2, i2⟩
  · exact Or.inl (lt_trans h1 h2)
  · exact Or.inl (h2 ▸ h1)
  · exact Or.inl (h1 ▸ h2)
  · exact Or.inr ⟨h1.trans h2, Nat.lt_trans i2 i1⟩

theorem lt_total_pair {fo : FloatOrder V R} {a b : TopPair V}
    (ha : fo.number a.value ≠ none) (hb : fo.number b.value ≠ none) (h : a.id ≠ b.id) :
    a.lt fo b = true ∨ b.lt fo a = true := by
  obtain ⟨x, hx⟩ := Option.ne_none_iff_exists'.mp ha
  obtain ⟨y, hy⟩ := Option.ne_none_iff_exists'.mp hb
  rw [lt_iff, lt_iff]
  rcases lt_trichotomy x y with h1 | h1 | h1
  · exact Or.inl ⟨x, y, hx, hy, Or.inl h1⟩
  · rcases Nat.lt_or_gt_of_ne h with h2 | h2
    · exact Or.inr ⟨y, x, hy, hx, Or.inr ⟨h1.symm, h2⟩⟩
    · exact Or.inl ⟨x, y, hx, hy, Or.inr ⟨h1, h2⟩⟩
  · exact Or.inr ⟨y, x, hy, hx, Or.inl h1⟩

theorem lt_number {fo : FloatOrder V R} {a b : TopPair V} (h : a.lt fo b = true) :
    fo.number a.value ≠ none ∧ fo.number b.value ≠ none := by
  rw [lt_iff] at h
  obtain ⟨x, y, hx, hy, -⟩ := h
  rw [hx, hy]
  exact ⟨Option.some_ne_none _, Option.some_ne_none _⟩

theorem mem_insert (fo : FloatOrder V R) (kv x : TopPair V × Nat) :
    ∀ top : List (TopPair V × Nat), x ∈ Top.insert fo kv top → x = kv ∨ x ∈ top := by
  intro top
  induction top with
  | nil =>
    intro h
    unfold Top.insert at h
    exact Or.inl (List.mem_singleton.mp h)
  | cons e rest ih =>
    intro h
    unfold Top.insert at h
    split_ifs at h
    · rcases List.mem_cons.mp h with h | h
      · exact Or.inl h
      · exact Or.inr h
    · rcases List.mem_cons.mp h with h | h
      · exact Or.inr (h ▸ List.mem_cons_self _ _)
      · rcases ih h with h | h
        · exact Or.inl h
        · exact Or.inr (List.mem_cons_of_mem _ h)
    · exact Or.inr h

theorem mem_insert_of_mem (fo : FloatOrder V R) (kv x : TopPair V × Nat) :
    ∀ top : List (TopPair V × Nat), x ∈ top → x ∈ Top.insert fo kv top := by
  intro top
  induction top with
  | nil => intro h; cases h
  | cons e rest ih =>
    intro h
    unfold Top.insert
    split_ifs
    · exact List.mem_cons_of_mem _ h
    · rcases List.mem_cons.mp h with h | h
      · exact h ▸ List.mem_cons_self _ _
      · exact List.mem_cons_of_mem _ (ih h)
    · exact h

theorem mem_insert_self (fo : FloatOrder V R) (kv : TopPair V × Nat) :
    ∀ top : List (TopPair V × Nat),
      (∀ e ∈ top, kv.1.lt fo e.1 = true ∨ e.1.lt fo kv.1 = true) → kv ∈ Top.insert fo kv top := by
  intro top
  induction top with
  | nil =>
    intro _
    unfold Top.insert
    exact List.mem_singleton.mpr rfl
  | cons e rest ih =>
    intro hc
    unfold Top.insert
    split_ifs with h1 h2
    · exact List.mem_cons_self _ _
    · exact List.mem_cons_of_mem _ (ih (fun x hx => hc x (List.mem_cons_of_mem _ hx)))
    · rcases hc e (List.mem_cons_self _ _) with h | h
      · exact absurd h h1
      · exact absurd h h2

theorem length_insert (fo : FloatOrder V R) (kv : TopPair V × Nat) :
    ∀ top : List (TopPair V × Nat),
      (∀ e ∈ top, kv.1.lt fo e.1 = true ∨ e.1.lt fo kv.1 = true) →
      (Top.insert fo kv top).length = top.length + 1 := by
  intro top
  induction top with
  | nil =>
    intro _
    unfold Top.insert
    rfl
  | cons e rest ih =>
    intro hc
    unfold Top.insert
    split_ifs with h1 h2
    · rfl
    · rw [List.length_cons, ih (fun x hx => hc x (List.mem_cons_of_mem _ hx)),
        List.length_cons]
    · rcases hc e (List.mem_cons_self _ _) with h | h
      · exact absurd h h1
      · exact absurd h h2

theorem sorted_insert (fo : FloatOrder V R) (kv : TopPair V × Nat) :
    ∀ top : List (TopPair V × Nat), top.Pairwise (fun a b => a.1.lt fo b.1 = true) →
      (Top.insert fo kv top).Pairwise (fun a b => a.1.lt fo b.1 = true) := by
  intro top
  induction top with
  | nil =>
    intro _
    unfold Top.insert
    exact List.pairwise_singleton _ _
  | cons e rest ih =>
    intro hs
    obtain ⟨he, hrest⟩ := List.pairwise_cons.mp hs
    unfold Top.insert
    split_ifs with h1 h2
    · refine List.pairwise_cons.mpr ⟨?_, hs⟩
      intro x hx
      rcases List.mem_cons.mp hx with hx | hx
      · rw [hx]
        exact h1
      · exact lt_trans_pair h1 (he x hx)
    · refine List.pairwise_cons.mpr ⟨?_, ih hrest⟩
      intro x hx
      rcases mem_insert fo kv x rest hx with hx | hx
      · rw [hx]
        exact h2
      · exact he x hx
    · exact hs

end Order

section Keys

variable {D V : Type}

theorem keysFrom_length (nz : Normalize D V) (sum : V) (values : List D) :
    ∀ src, (keysFrom nz sum src values).length = values.length := by
  induction values with
  | nil => intro src; rfl
  | cons n rest ih =>
    intro src
    unfold keysFrom
    rw [List.length_cons, List.length_cons, ih]

end Keys

section Selection

variable {D V R : Type} [LinearOrder R]

theorem step_invariant (fo : FloatOrder V R) (topn : Int) (h1 : 1 ≤ topn)
    (h2 : topn < 2 ^ 31) (top seen : List (TopPair V × Nat)) (value : V) (src : Nat)
    (hv : fo.number value ≠ none) (hinv : printTop.Invariant fo topn top seen src) :
    ∃ top', printTop.step fo topn top value src = some top' ∧
      printTop.Invariant fo topn top' (seen ++ [(⟨value, src⟩, src)]) (src + 1) := by
  obtain ⟨hsort, hsub, hid, hlen, hdom⟩ := hinv
  have hcomp : ∀ e ∈ top, (⟨value, src⟩ : TopPair V).lt fo e.1 = true ∨
      e.1.lt fo (⟨value, src⟩ : TopPair V) = true := by
    intro e he
    have := hid e (hsub e he)
    apply lt_total_pair hv this.2
    dsimp only
    omega
  have hle : (top.length : Int) ≤ topn := by
    rw [hlen]
    exact min_le_left _ _
  have hi32 : Barrier.i32 (top.length : Int) = top.length :=
    Barrier.i32_eq_of_range (by omega) (by omega)
  have hids : ∀ e ∈ seen ++ [((⟨value, src⟩ : TopPair V), src)],
      e.1.id < src + 1 ∧ fo.number e.1.value ≠ none := by
    intro e he
    rcases List.mem_append.mp he with he | he
    · exact ⟨Nat.lt_succ_of_lt (hid e he).1, (hid e he).2⟩
    · rw [List.mem_singleton.mp he]
      exact ⟨Nat.lt_succ_self _, hv⟩
  have hseenlen : ((seen ++ [((⟨value, src⟩ : TopPair V), src)]).length : Int) =
      (seen.length : Int) + 1 := by
    rw [List.length_append, List.length_singleton, Nat.cast_add, Nat.cast_one]
  unfold printTop.step
  dsimp only
  rw [hi32]
  by_cases hlt : (top.length : Int) < topn
  · rw [if_pos hlt]
    refine ⟨_, rfl, sorted_insert fo _ top hsort, ?_, hids, ?_, ?_⟩
    · intro x hx
      rcases mem_insert fo _ x top hx with hx | hx
      · exact List.mem_append_right _ (List.mem_singleton.mpr hx)
      · exact List.mem_append_left _ (hsub x hx)
    · rw [length_insert fo _ top hcomp, hseenlen, Nat.cast_add, Nat.cast_one]
      rw [min_def] at hlen ⊢
      split_ifs at hlen ⊢ <;> omega
    · intro k hk
      left
      rcases List.mem_append.mp hk with hk | hk
      · rcases hdom k hk with hd | ⟨hd, _⟩
        · exact mem_insert_of_mem fo _ k top hd
        · omega
      · rw [List.mem_singleton.mp hk]
        exact mem_insert_self fo _ top hcomp
  · rw [if_neg hlt]
    have hfull : (top.length : Int) = topn := le_antisymm hle (not_lt.mp hlt)
    cases top with
    | nil =>
      rw [List.length_nil, Nat.cast_zero] at hfull
      omega
    | cons b rest =>
      obtain ⟨hb, hrest⟩ := List.pairwise_cons.mp hsort
      have hcomp' : ∀ e ∈ rest, (⟨value, src⟩ : TopPair V).lt fo e.1 = true ∨
          e.1.lt fo (⟨value, src⟩ : TopPair V) = true :=
        fun e he => hcomp e (List.mem_cons_of_mem _ he)
      have hfull' : ((rest.length + 1 : Nat) : Int) = topn := by
        rw [List.length_cons] at hfull
        exact hfull
      dsimp only
      by_cases hbk : b.1.lt fo (⟨value, src⟩ : TopPair V) = true
      · rw [if_pos hbk]
        refine ⟨_, rfl, sorted_insert fo _ rest hrest, ?_, hids, ?_, ?_⟩
        · intro x hx
          rcases mem_insert fo _ x rest hx with hx | hx
          · exact List.mem_append_right _ (List.mem_singleton.mpr hx)
          · exact List.mem_append_left _ (hsub x (List.mem_cons_of_mem _ hx))
        · rw [length_insert fo _ rest hcomp', hseenlen, hfull']
          rw [hfull, min_def] at hlen
          rw [min_def]
          split_ifs at hlen ⊢ <;> omega
        · intro k hk
          rcases List.mem_append.mp hk with hk | hk
          · rcases hdom k hk with hd | ⟨_, hd⟩
            · rcases List.mem_cons.mp hd with hd | hd
              · right
                refine ⟨by rw [length_insert fo _ rest hcomp']; exact hfull', ?_⟩
                intro e he
                rw [hd]
                rcases mem_insert fo _ e rest he with he | he
                · rw [he]
                  exact hbk
                · exact hb e he
              · left
                exact mem_insert_of_mem fo _ k rest hd
            · right
              refine ⟨by rw [length_insert fo _ rest hcomp']; exact hfull', ?_⟩
              intro e he
              rcases mem_insert fo _ e rest he with he | he
              · rw [he]
                exact lt_trans_pair (hd b (List.mem_cons_self _ _)) hbk
              · exact hd e (List.mem_cons_of_mem _ he)
          · left
            rw [List.mem_singleton.mp hk]
            exact mem_insert_self fo _ rest hcomp'
      · rw [if_neg hbk]
        refine ⟨_, rfl, hsort, ?_, hids, ?_, ?_⟩
        · intro x hx
          exact List.mem_append_left _ (hsub x hx)
        · rw [hseenlen, hfull]
          rw [hfull, min_def] at hlen
          rw [min_def]
          split_ifs at hlen ⊢ <;> omega
        · intro k hk
          rcases List.mem_append.mp hk with hk | hk
          · exact hdom k hk
          · right
            refine ⟨hfull, ?_⟩
            rw [List.mem_singleton.mp hk]
            have hkb : (⟨value, src⟩ : TopPair V).lt fo b.1 = true := by
              rcases hcomp b (List.mem_cons_self _ _) with h | h
              · exact h
              · exact absurd h hbk
            intro e he
            rcases List.mem_cons.mp he with he | he
            · rw [he]
              exact hkb
            · exact lt_trans_pair hkb (hb e he)

theorem select_invariant (fo : FloatOrder V R) (nz : Normalize D V) (topn : Int) (sum : V)
    (h1 : 1 ≤ topn) (h2 : topn < 2 ^ 31) (values : List D)
    (hv : ∀ n ∈ values, fo.number (nz.div n sum) ≠ none) :
    ∀ (top seen : List (TopPair V × Nat)) (src : Nat),
      printTop.Invariant fo topn top seen src →
      ∃ top', printTop.select fo nz topn sum top src values = some top' ∧
        printTop.Invariant fo topn top' (seen ++ keysFrom nz sum src values)
          (src + values.length) := by
  induction values with
  | nil =>
    intro top seen src hinv
    refine ⟨top, rfl, ?_⟩
    unfold keysFrom
    rw [List.append_nil]
    exact hinv
  | cons n rest ih =>
    intro top seen src hinv
    obtain ⟨top1, hstep, hinv1⟩ := step_invariant fo topn h1 h2 top seen (nz.div n sum) src
      (hv n (List.mem_cons_self _ _)) hinv
    obtain ⟨top', hsel, hinv'⟩ :=
      ih (fun m hm => hv m (List.mem_cons_of_mem _ hm)) top1 _ (src + 1) hinv1
    refine ⟨top', ?_, ?_⟩
    · unfold printTop.select
      rw [hstep]
      exact hsel
    · have hidx : src + (n :: rest).length = src + 1 + rest.length := by
        rw [List.length_cons]
        omega
      unfold keysFrom
      rw [List.append_assoc, List.singleton_append] at hinv'
      rw [hidx]
      exact hinv'

end Selection

section Samples

theorem sample_sum_zero : printTop.sum sampleOps [0, 0] = .fin 0 := by
  simp [printTop.sum, sampleOps]

theorem sample_sum_ten : printTop.sum sampleOps [1, 3, 2, 3, 1] = .fin 10 := by
  simp only [printTop.sum, sampleOps, List.foldl_cons, List.foldl_nil]
  norm_num

end Samples

section TopClaims

variable {D V R : Type} [LinearOrder R]

/-- Counterexample to C29: in a graph of two nodes with the value 0 the sum is 0 and both
normalized values are `0 / 0`, which is NaN.  Neither key is less than the other, although
the ids differ; the second key is taken for a key that the map already holds, so with
`topn = 2` the map ends with one entry and not with `min(2, 2)`. -/
theorem printTop_drops_nan_keys :
    keys sampleOps [0, 0] = [(⟨.nan, 0⟩, 0), (⟨.nan, 1⟩, 1)] ∧
    TopPair.lt sampleOrder ⟨.nan, 0⟩ ⟨.nan, 1⟩ = false ∧
    TopPair.lt sampleOrder ⟨.nan, 1⟩ ⟨.nan, 0⟩ = false ∧
    printTop.top sampleOrder sampleOps [0, 0] 2 = some [(⟨.nan, 0⟩, 0)] ∧
    (([(⟨.nan, 0⟩, 0)] : List (TopPair Sample × Nat)).length : Int) ≠
      min 2 (([0, 0] : List Rat).length : Int) := by
  have hdiv : sampleOps.div 0 (.fin 0) = .nan := by simp [sampleOps]
  have hlt1 : TopPair.lt sampleOrder ⟨.nan, 0⟩ ⟨.nan, 1⟩ = false := by
    simp [TopPair.lt, FloatOrder.eq, FloatOrder.lt, sampleOrder]
  have hlt2 : TopPair.lt sampleOrder ⟨.nan, 1⟩ ⟨.nan, 0⟩ = false := by
    simp [TopPair.lt, FloatOrder.eq, FloatOrder.lt, sampleOrder]
  refine ⟨?_, hlt1, hlt2, ?_, by decide⟩
  · simp only [keys, keysFrom, sample_sum_zero, hdiv]
  · have hi0 : Barrier.i32 (([] : List (TopPair Sample × Nat)).length : Int) = 0 := by decide
    have hi1 : Barrier.i32 (([(⟨.nan, 0⟩, 0)] : List (TopPair Sample × Nat)).length : Int) =
        1 := by decide
    have hi2 : Barrier.i32 (1 : Int) = 1 := by decide
    have hi3 : Barrier.i32 (0 : Int) = 0 := by decide
    simp [printTop.top, printTop.select, printTop.step, sample_sum_zero, hdiv, hi0, hi1, hi2,
      hi3, Top.insert, hlt1, hlt2]

/-- C29 as amended: `printTop` keeps the top `topn` nodes when no normalized value is NaN.
`TopPair::operator<` holds exactly between pairs of numbers of which the first has the
smaller value or, the values being equal, the larger id; it is irreflexive and transitive,
and of two pairs of numbers with distinct ids one is less than the other.  For `1 <= topn`
(an `int`) and every graph none of whose normalized values is NaN, the selection loop ends
with a map of `min(topn, number of nodes)` entries, in the order of their keys; every entry
is the key of a node; every key of a node that is not in the map is less than every key of
the map; and the entries are printed in reverse, from the greatest key to the least. -/
theorem printTop_keeps_greatest (fo : FloatOrder V R) (nz : Normalize D V) (graph : List D)
    (topn : Int) (h1 : 1 ≤ topn) (h2 : topn < 2 ^ 31)
    (hnum : ∀ n ∈ graph, fo.number (nz.div n (printTop.sum nz graph)) ≠ none) :
    (∀ a b : TopPair V,
      a.lt fo b = true ↔ ∃ x y, fo.number a.value = some x ∧ fo.number b.value = some y ∧
        (x < y ∨ (x = y ∧ b.id < a.id))) ∧
    (∀ a : TopPair V, a.lt fo a = false) ∧
    (∀ a b c : TopPair V, a.lt fo b = true → b.lt fo c = true → a.lt fo c = true) ∧
    (∀ a b : TopPair V, fo.number a.value ≠ none → fo.number b.value ≠ none → a.id ≠ b.id →
      (a.lt fo b = true ∨ b.lt fo a = true)) ∧
    ∃ top, printTop.top fo nz graph topn = some top ∧
      (top.length : Int) = min topn (graph.length : Int) ∧
      (∀ e ∈ top, e ∈ keys nz graph) ∧
      (∀ k ∈ keys nz graph, k ∉ top → ∀ e ∈ top, k.1.lt fo e.1 = true) ∧
      top.Pairwise (fun a b => a.1.lt fo b.1 = true) ∧
      printTop fo nz graph topn =
        some ((top.reverse.enumFrom 1).map fun e => (e.1, e.2.1.value, e.2.1.id)) ∧
      top.reverse.Pairwise (fun a b => b.1.lt fo a.1 = true) := by
  refine ⟨lt_iff fo, lt_irrefl_pair fo, fun a b c => lt_trans_pair,
    fun a b => lt_total_pair, ?_⟩
  have hstart : printTop.Invariant fo topn ([] : List (TopPair V × Nat)) [] 0 := by
    refine ⟨List.Pairwise.nil, fun e he => absurd he (List.not_mem_nil e),
      fun e he => absurd he (List.not_mem_nil e), ?_,
      fun e he => absurd he (List.not_mem_nil e)⟩
    rw [List.length_nil, Nat.cast_zero, min_def]
    split_ifs <;> omega
  obtain ⟨top, htop, hsort, hsub, -, hlen, hdom⟩ :=
    select_invariant fo nz topn (printTop.sum nz graph) h1 h2 graph hnum [] [] 0 hstart
  rw [List.nil_append] at hsub hlen hdom
  rw [keysFrom_length] at hlen
  refine ⟨top, htop, hlen, hsub, ?_, hsort, ?_, List.pairwise_reverse.mpr hsort⟩
  · intro k hk hnot e he
    rcases hdom k hk with hd | ⟨_, hd⟩
    · exact absurd hd hnot
    · exact hd e he
  · unfold printTop
    have htop' : printTop.top fo nz graph topn = some top := htop
    rw [htop']

/-- Witness of C29 as amended: of five nodes with the values 1, 3, 2, 3, 1, whose sum is
10, no normalized value is NaN, and the map ends with the three greatest keys. -/
theorem printTop_keeps_greatest_witness :
    (∀ n ∈ ([1, 3, 2, 3, 1] : List Rat),
      sampleOrder.number (sampleOps.div n (printTop.sum sampleOps [1, 3, 2, 3, 1])) ≠ none) ∧
    ∃ top, printTop.top sampleOrder sampleOps [1, 3, 2, 3, 1] 3 = some top ∧
      (top.length : Int) = min 3 (([1, 3, 2, 3, 1] : List Rat).length : Int) ∧
      ∀ k ∈ keys sampleOps [1, 3, 2, 3, 1], k ∉ top →
        ∀ e ∈ top, k.1.lt sampleOrder e.1 = true := by
  have hnum : ∀ n ∈ ([1, 3, 2, 3, 1] : List Rat),
      sampleOrder.number (sampleOps.div n (printTop.sum sampleOps [1, 3, 2, 3, 1])) ≠
        none := by
    intro n _
    rw [sample_sum_ten]
    simp [sampleOps, sampleOrder]
  obtain ⟨top, h1, h2, -, h3, -⟩ :=
    (printTop_keeps_greatest sampleOrder sampleOps [1, 3, 2, 3, 1] 3 (by decide) (by decide)
      hnum).2.2.2.2
  exact ⟨hnum, top, h1, h2, h3⟩

end TopClaims

end PageRankPush

namespace Barrier

/-- The position of a thread gives back its returns and the rank of its place. -/
theorem mcs_position_split (w : MCSBarrier.Threads) (u : Nat) :
    w.position u / 14 = w.returns u ∧ w.position u % 14 = (w.place u).rank := by
  have hr : (w.place u).rank < 14 := by
    cases w.place u with
    | idle => decide
    | check j => unfold MCSBarrier.PC.rank; dsimp only; omega
    | rearm i => unfold MCSBarrier.PC.rank; dsimp only; omega
    | notify => decide
    | sense => decide
    | signal k => unfold MCSBarrier.PC.rank; dsimp only; omega
    | flip => decide
  unfold MCSBarrier.Threads.position
  omega

/-- No thread has left its second loop more often than thread 0 has passed it. -/
theorem mcs_wake_bound (nodes : List MCSBarrier.treenode) (P : Nat) (w : MCSBarrier.Threads)
    (hinv : MCSBarrier.Invariant nodes P w) :
    ∀ a, a < P → w.count 11 a ≤ w.count 11 0 := by
  obtain ⟨-, -, -, -, -, h6⟩ := hinv
  intro a
  induction a using Nat.strong_induction_on with
  | _ a ih =>
    intro ha
    by_cases h0 : a = 0
    · rw [h0]
    · have h := (h6 a (by omega) ha).2
      have hi := ih ((a - 1) / 2) (by omega) (by omega)
      unfold MCSBarrier.Threads.count at h hi ⊢
      omega

/-- Every thread other than thread 0 has notified its parent as often as thread 0 has
passed its four tests. -/
theorem mcs_arrival_bound (nodes : List MCSBarrier.treenode) (P : Nat)
    (w : MCSBarrier.Threads) (hinv : MCSBarrier.Invariant nodes P w) :
    ∀ b, 1 ≤ b → b < P → w.count 5 0 ≤ w.count 10 b := by
  obtain ⟨-, -, -, -, h5, -⟩ := hinv
  intro b
  induction b using Nat.strong_induction_on with
  | _ b ih =>
    intro hb1 hb
    have hc : 4 * ((b - 1) / 4) + (b - 1) % 4 + 1 = b := by omega
    have h := ((h5 ((b - 1) / 4) ((b - 1) % 4) (by omega) (by omega)).1 (by omega)).2
    rw [hc] at h
    by_cases h0 : (b - 1) / 4 = 0
    · rw [h0] at h
      unfold MCSBarrier.Threads.count at h ⊢
      omega
    · have hi := ih ((b - 1) / 4) (by omega) (by omega) (by omega)
      unfold MCSBarrier.Threads.count at h hi ⊢
      omega

/-- No thread has left its second loop more often than any thread has notified its
parent (thread 0: has passed line 132). -/
theorem mcs_global (nodes : List MCSBarrier.treenode) (P : Nat) (w : MCSBarrier.Threads)
    (hinv : MCSBarrier.Invariant nodes P w) :
    ∀ a b, a < P → b < P → w.count 11 a ≤ w.count 10 b := by
  intro a b ha hb
  have h1 := mcs_wake_bound nodes P w hinv a ha
  by_cases h0 : b = 0
  · rw [h0]
    unfold MCSBarrier.Threads.count at h1 ⊢
    omega
  · have h2 := mcs_arrival_bound nodes P w hinv b (by omega) hb
    unfold MCSBarrier.Threads.count at h1 h2 ⊢
    omega

end Barrier

namespace Barrier

/-- The calls are counted rightly after a step in which the stepping thread has made as many
calls as it has reached the first test. -/
theorem mcs_calls_kept (w w' : MCSBarrier.Threads) (tid P : Nat)
    (hposne : ∀ u, u ≠ tid → w'.position u = w.position u)
    (hcallsne : ∀ u, u ≠ tid → w'.calls u = w.calls u)
    (hct : w'.calls tid = w'.count 1 tid)
    (hE : ∀ u, u < P → w.calls u = w.count 1 u) :
    ∀ u, u < P → w'.calls u = w'.count 1 u := by
  intro u hu
  by_cases hut : u = tid
  · rw [hut]
    exact hct
  · have := hE u hu
    unfold MCSBarrier.Threads.count at this ⊢
    rw [hcallsne u hut, hposne u hut]
    exact this

theorem mcs_sense_kept (w w' : MCSBarrier.Threads) (tid P : Nat)
    (hposne : ∀ u, u ≠ tid → w'.position u = w.position u)
    (hsnne : ∀ u, u ≠ tid → (w'.node u).sense = (w.node u).sense)
    (hst : (w'.node tid).sense = decide (w'.position tid / 14 % 2 = 0))
    (h1 : ∀ u, u < P → (w.node u).sense = decide (w.position u / 14 % 2 = 0)) :
    ∀ u, u < P → (w'.node u).sense = decide (w'.position u / 14 % 2 = 0) := by
  intro u hu
  by_cases hut : u = tid
  · rw [hut]
    exact hst
  · rw [hsnne u hut, hposne u hut]
    exact h1 u hu

/-- The flags stay in step with the counts in a step that writes no flag and in which the
stepping thread passes none of the places that the flags are compared with. -/
theorem mcs_flags_kept (w w' : MCSBarrier.Threads) (tid P : Nat)
    (hposne : ∀ u, u ≠ tid → w'.position u = w.position u)
    (hk2 : ∀ k, 2 ≤ k → k ≤ 5 → w'.count k tid ≤ w.count k tid)
    (hk : ∀ k, 6 ≤ k → k ≤ 9 → w'.count k tid = w.count k tid)
    (hk10 : tid = 0 ∨ w'.count 10 tid = w.count 10 tid)
    (hfl : ∀ u j, (w'.node u).childnotready.getD j false =
      (w.node u).childnotready.getD j false)
    (h5 : ∀ u j, u < P → j < 4 →
      (4 * u + j + 1 < P →
        (w.node u).childnotready.getD j false =
            decide (w.count 10 (4 * u + j + 1) = w.count (6 + j) u) ∧
          w.count (2 + j) u ≤ w.count 10 (4 * u + j + 1)) ∧
      (P ≤ 4 * u + j + 1 → (w.node u).childnotready.getD j false = false)) :
    ∀ u j, u < P → j < 4 →
      (4 * u + j + 1 < P →
        (w'.node u).childnotready.getD j false =
            decide (w'.count 10 (4 * u + j + 1) = w'.count (6 + j) u) ∧
          w'.count (2 + j) u ≤ w'.count 10 (4 * u + j + 1)) ∧
      (P ≤ 4 * u + j + 1 → (w'.node u).childnotready.getD j false = false) := by
  intro u j hu hj
  have old := h5 u j hu hj
  rw [hfl]
  refine ⟨fun hc => ?_, old.2⟩
  have c0 : ∀ k, 2 ≤ k → k ≤ 5 → w'.count k u ≤ w.count k u := by
    intro k k1 k2
    by_cases hut : u = tid
    · rw [hut]
      exact hk2 k k1 k2
    · unfold MCSBarrier.Threads.count
      rw [hposne u hut]
  have c1 : ∀ k, 6 ≤ k → k ≤ 9 → w'.count k u = w.count k u := by
    intro k k1 k2
    by_cases hut : u = tid
    · rw [hut]
      exact hk k k1 k2
    · unfold MCSBarrier.Threads.count
      rw [hposne u hut]
  have c2 : w'.count 10 (4 * u + j + 1) = w.count 10 (4 * u + j + 1) := by
    by_cases hut : 4 * u + j + 1 = tid
    · rcases hk10 with h0 | h0
      · omega
      · rw [hut]
        exact h0
    · unfold MCSBarrier.Threads.count
      rw [hposne _ hut]
  rw [c1 (6 + j) (by omega) (by omega), c2]
  exact ⟨(old.1 hc).1, Nat.le_trans (c0 (2 + j) (by omega) (by omega)) (old.1 hc).2⟩

/-- The `parentsense` flags stay in step with the counts in a step that writes none of them
and in which the stepping thread passes none of the places they are compared with. -/
theorem mcs_wake_kept (w w' : MCSBarrier.Threads) (tid P : Nat)
    (hposne : ∀ u, u ≠ tid → w'.position u = w.position u)
    (hk : ∀ k, 12 ≤ k → k ≤ 13 → w'.count k tid = w.count k tid)
    (hk11 : tid = 0 ∨ w'.count 11 tid = w.count 11 tid)
    (hps : ∀ u, (w'.node u).parentsense = (w.node u).parentsense)
    (h6 : ∀ a, 1 ≤ a → a < P →
      (w.node a).parentsense = decide (w.count (12 + (a - 1) % 2) ((a - 1) / 2) % 2 = 1) ∧
      w.count 11 a ≤ w.count (12 + (a - 1) % 2) ((a - 1) / 2)) :
    ∀ a, 1 ≤ a → a < P →
      (w'.node a).parentsense =
          decide (w'.count (12 + (a - 1) % 2) ((a - 1) / 2) % 2 = 1) ∧
        w'.count 11 a ≤ w'.count (12 + (a - 1) % 2) ((a - 1) / 2) := by
  intro a ha1 ha
  have old := h6 a ha1 ha
  rw [hps]
  have c1 : w'.count (12 + (a - 1) % 2) ((a - 1) / 2) =
      w.count (12 + (a - 1) % 2) ((a - 1) / 2) := by
    by_cases hut : (a - 1) / 2 = tid
    · rw [hut]
      exact hk _ (by omega) (by omega)
    · unfold MCSBarrier.Threads.count
      rw [hposne _ hut]
  have c2 : w'.count 11 a = w.count 11 a := by
    by_cases hut : a = tid
    · rcases hk11 with h0 | h0
      · omega
      · rw [hut]
        exact h0
    · unfold MCSBarrier.Threads.count
      rw [hposne _ hut]
  rw [c1, c2]
  exact old

/-- Every step of a thread below `P` keeps the invariant. -/
theorem mcs_invariant_step (nodes : List MCSBarrier.treenode) (P : Nat)
    (w : MCSBarrier.Threads) (tid : Nat) (hP : P ≤ nodes.length)
    (h3 : 4 * nodes.length < 2 ^ 32) (hinv : MCSBarrier.Invariant nodes P w)
    (ht : tid < P) : MCSBarrier.Invariant nodes P (MCSBarrier.step w tid) := by
  have hGl := mcs_global nodes P w hinv
  obtain ⟨hs, hsh, hE, h1, h5, h6⟩ := hinv
  have hts : tid < nodes.length := by omega
  have hs' := mcs_step_sized w tid nodes.length hs
  have hsh' : (MCSBarrier.step w tid).nodes.map MCSBarrier.shape =
      (MCSBarrier._reinit nodes P).map MCSBarrier.shape := by
    rw [mcs_step_shape]
    exact hsh
  obtain ⟨hpp, hcp, hhc⟩ := mcs_shape_facts nodes P w tid hs.1 hsh hts h3
  have hposne : ∀ u, u ≠ tid → (MCSBarrier.step w tid).position u = w.position u := by
    intro u hu
    obtain ⟨a, -, c, -⟩ := mcs_step_frame w tid u hu
    unfold MCSBarrier.Threads.position
    rw [a, c]
  have hcallsne : ∀ u, u ≠ tid → (MCSBarrier.step w tid).calls u = w.calls u :=
    fun u hu => (mcs_step_frame w tid u hu).2.1
  have hsnne : ∀ u, u ≠ tid →
      ((MCSBarrier.step w tid).node u).sense = (w.node u).sense :=
    fun u hu => (mcs_step_frame w tid u hu).2.2.2
  have hEt := hE tid ht
  have h1t := h1 tid ht
  unfold MCSBarrier.Threads.count at hEt
  refine ⟨hs', hsh', ?_⟩
  cases hp : w.place tid with
  | idle =>
    obtain ⟨hpos, hpos', hc', -, hn'⟩ := mcs_step_idle w nodes.length tid hs hts hp
    have hnode : ∀ u, (MCSBarrier.step w tid).node u = w.node u := by
      intro u
      unfold MCSBarrier.Threads.node
      rw [hn']
    refine ⟨mcs_calls_kept w _ tid P hposne hcallsne ?_ hE,
      mcs_sense_kept w _ tid P hposne hsnne ?_ h1,
      mcs_flags_kept w _ tid P hposne ?_ ?_ ?_ ?_ h5,
      mcs_wake_kept w _ tid P hposne ?_ ?_ ?_ h6⟩
    · unfold MCSBarrier.Threads.count
      omega
    · rw [hnode, h1t, decide_eq_decide]
      constructor <;> intro hh <;> omega
    · intro k k1 k2
      unfold MCSBarrier.Threads.count
      omega
    · intro k k1 k2
      unfold MCSBarrier.Threads.count
      omega
    · right
      unfold MCSBarrier.Threads.count
      omega
    · intro u j
      rw [hnode]
    · intro k k1 k2
      unfold MCSBarrier.Threads.count
      omega
    · right
      unfold MCSBarrier.Threads.count
      omega
    · intro u
      rw [hnode]
  | check j =>
    obtain ⟨hpos, hpos', hc', -, hn'⟩ := mcs_step_check w nodes.length tid j hs hts hp
    have hj4 := j.isLt
    have hnode : ∀ u, (MCSBarrier.step w tid).node u = w.node u := by
      intro u
      unfold MCSBarrier.Threads.node
      rw [hn']
    have hsense : ((MCSBarrier.step w tid).node tid).sense = (w.node tid).sense := by
      rw [hnode]
    have hflag : ∀ u jj, ((MCSBarrier.step w tid).node u).childnotready.getD jj false =
        (w.node u).childnotready.getD jj false := by
      intro u jj
      rw [hnode]
    have hps : ∀ u, ((MCSBarrier.step w tid).node u).parentsense = (w.node u).parentsense := by
      intro u
      rw [hnode]
    by_cases hf : (w.node tid).childnotready.getD j.val false = true
    · rw [if_pos hf] at hpos'
      refine ⟨mcs_calls_kept w _ tid P hposne hcallsne ?_ hE,
        mcs_sense_kept w _ tid P hposne hsnne ?_ h1,
        mcs_flags_kept w _ tid P hposne ?_ ?_ ?_ ?_ h5,
        mcs_wake_kept w _ tid P hposne ?_ ?_ ?_ h6⟩
      · unfold MCSBarrier.Threads.count
        omega
      · rw [hsense, h1t, decide_eq_decide]
        constructor <;> intro hh <;> omega
      · intro k k1 k2
        unfold MCSBarrier.Threads.count
        omega
      · intro k k1 k2
        unfold MCSBarrier.Threads.count
        omega
      · right
        unfold MCSBarrier.Threads.count
        omega
      · intro u jj
        rw [hflag]
      · intro k k1 k2
        unfold MCSBarrier.Threads.count
        omega
      · right
        unfold MCSBarrier.Threads.count
        omega
      · intro u
        rw [hps]
    · rw [if_neg hf] at hpos'
      have hne : 4 * tid + j.val + 1 < P →
          ¬ (w.count 10 (4 * tid + j.val + 1) = w.count (6 + j.val) tid) := by
        intro hc0 hAB
        apply hf
        rw [((h5 tid j.val ht hj4).1 hc0).1]
        exact decide_eq_true hAB
      unfold MCSBarrier.Threads.count at hne
      have e : ∀ v, (MCSBarrier.step w tid).position v =
          if v = tid then w.position tid + 1 else w.position v := by
        intro v
        split_ifs with hh
        · rw [hh, hpos']
        · exact hposne v hh
      refine ⟨mcs_calls_kept w _ tid P hposne hcallsne ?_ hE,
        mcs_sense_kept w _ tid P hposne hsnne ?_ h1, ?_,
        mcs_wake_kept w _ tid P hposne ?_ ?_ ?_ h6⟩
      · unfold MCSBarrier.Threads.count
        omega
      · rw [hsense, h1t, decide_eq_decide]
        constructor <;> intro hh <;> omega
      · intro u jj hu hjj
        have old := h5 u jj hu hjj
        rw [hflag]
        refine ⟨fun hc => ?_, old.2⟩
        obtain ⟨o1, o2⟩ := old.1 hc
        unfold MCSBarrier.Threads.count at o1 o2 ⊢
        rw [o1, decide_eq_decide, e u, e (4 * u + jj + 1)]
        by_cases g1 : u = tid
        · rw [if_pos g1, if_neg (by omega)]
          rw [g1] at o1 o2 hc ⊢
          by_cases g2 : jj = j.val
          · rw [g2] at o1 o2 hc ⊢
            have := hne hc
            constructor
            · constructor <;> intro hh <;> omega
            · omega
          · constructor
            · constructor <;> intro hh <;> omega
            · omega
        · rw [if_neg g1]
          by_cases g3 : 4 * u + jj + 1 = tid
          · rw [if_pos g3]
            rw [g3] at o1 o2 ⊢
            constructor
            · constructor <;> intro hh <;> omega
            · omega
          · rw [if_neg g3]
            exact ⟨Iff.rfl, o2⟩
      · intro k k1 k2
        unfold MCSBarrier.Threads.count
        omega
      · right
        unfold MCSBarrier.Threads.count
        omega
      · intro u
        rw [hps]
  | rearm i =>
    obtain ⟨hpos, hpos', hc', -, hsp, hfl'⟩ := mcs_step_rearm w nodes.length tid i hs hts hp
    have hi4 := i.isLt
    have hsense : ((MCSBarrier.step w tid).node tid).sense = (w.node tid).sense := (hsp tid).1
    have hps : ∀ u, ((MCSBarrier.step w tid).node u).parentsense = (w.node u).parentsense :=
      fun u => (hsp u).2
    have e : ∀ v, (MCSBarrier.step w tid).position v =
        if v = tid then w.position tid + 1 else w.position v := by
      intro v
      split_ifs with hh
      · rw [hh, hpos']
      · exact hposne v hh
    refine ⟨mcs_calls_kept w _ tid P hposne hcallsne ?_ hE,
      mcs_sense_kept w _ tid P hposne hsnne ?_ h1, ?_,
      mcs_wake_kept w _ tid P hposne ?_ ?_ ?_ h6⟩
    · unfold MCSBarrier.Threads.count
      omega
    · rw [hsense, h1t, decide_eq_decide]
      constructor <;> intro hh <;> omega
    · intro u jj hu hjj
      have old := h5 u jj hu hjj
      rw [hfl' u jj]
      by_cases g : u = tid ∧ jj = i.val
      · obtain ⟨g1, g2⟩ := g
        rw [if_pos ⟨g1, g2⟩, hhc i.val hi4, g1, g2]
        rw [g1, g2] at old
        constructor
        · intro hc
          have G := hGl (4 * tid + i.val + 1) tid hc ht
          obtain ⟨-, o2⟩ := old.1 hc
          unfold MCSBarrier.Threads.count at G o2 ⊢
          rw [hpos', hposne (4 * tid + i.val + 1) (by omega), decide_eq_true hc]
          constructor
          · symm
            rw [decide_eq_true_eq]
            omega
          · omega
        · intro hc
          exact decide_eq_false (by omega)
      · rw [if_neg g]
        refine ⟨fun hc => ?_, old.2⟩
        obtain ⟨o1, o2⟩ := old.1 hc
        unfold MCSBarrier.Threads.count at o1 o2 ⊢
        rw [o1, decide_eq_decide, e u, e (4 * u + jj + 1)]
        by_cases g1 : u = tid
        · rw [if_pos g1, if_neg (by omega)]
          have g2 : jj ≠ i.val := fun hh => g ⟨g1, hh⟩
          rw [g1] at o1 o2 ⊢
          constructor
          · constructor <;> intro hh <;> omega
          · omega
        · rw [if_neg g1]
          by_cases g3 : 4 * u + jj + 1 = tid
          · rw [if_pos g3]
            rw [g3] at o1 o2 ⊢
            constructor
            · constructor <;> intro hh <;> omega
            · omega
          · rw [if_neg g3]
            exact ⟨Iff.rfl, o2⟩
    · intro k k1 k2
      unfold MCSBarrier.Threads.count
      omega
    · right
      unfold MCSBarrier.Threads.count
      omega
    · intro u
      rw [hps]
  | notify =>
    obtain ⟨hpos, hpos', hc', -, hsp, hfl'⟩ := mcs_step_notify w nodes.length tid hs hts hp hpp
    have hsense : ((MCSBarrier.step w tid).node tid).sense = (w.node tid).sense := (hsp tid).1
    have hps : ∀ u, ((MCSBarrier.step w tid).node u).parentsense = (w.node u).parentsense :=
      fun u => (hsp u).2
    by_cases h0 : tid = 0
    · rw [if_pos h0] at hpos'
      have hflag : ∀ u jj, ((MCSBarrier.step w tid).node u).childnotready.getD jj false =
          (w.node u).childnotready.getD jj false := by
        intro u jj
        rw [hfl' u jj, if_neg (fun hh => hh.1 h0)]
      refine ⟨mcs_calls_kept w _ tid P hposne hcallsne ?_ hE,
        mcs_sense_kept w _ tid P hposne hsnne ?_ h1,
        mcs_flags_kept w _ tid P hposne ?_ ?_ ?_ ?_ h5,
        mcs_wake_kept w _ tid P hposne ?_ ?_ ?_ h6⟩
      · unfold MCSBarrier.Threads.count
        omega
      · rw [hsense, h1t, decide_eq_decide]
        constructor <;> intro hh <;> omega
      · intro k k1 k2
        unfold MCSBarrier.Threads.count
        omega
      · intro k k1 k2
        unfold MCSBarrier.Threads.count
        omega
      · left
        exact h0
      · intro u jj
        rw [hflag]
      · intro k k1 k2
        unfold MCSBarrier.Threads.count
        omega
      · left
        exact h0
      · intro u
        rw [hps]
    · rw [if_neg h0] at hpos'
      have e : ∀ v, (MCSBarrier.step w tid).position v =
          if v = tid then w.position tid + 1 else w.position v := by
        intro v
        split_ifs with hh
        · rw [hh, hpos']
        · exact hposne v hh
      refine ⟨mcs_calls_kept w _ tid P hposne hcallsne ?_ hE,
        mcs_sense_kept w _ tid P hposne hsnne ?_ h1, ?_,
        mcs_wake_kept w _ tid P hposne ?_ ?_ ?_ h6⟩
      · unfold MCSBarrier.Threads.count
        omega
      · rw [hsense, h1t, decide_eq_decide]
        constructor <;> intro hh <;> omega
      · intro u jj hu hjj
        have old := h5 u jj hu hjj
        rw [hfl' u jj]
        by_cases g : tid ≠ 0 ∧ u = (tid - 1) / 4 ∧ jj = (tid - 1) % 4
        · rw [if_pos g]
          have hct : 4 * u + jj + 1 = tid := by omega
          rw [hct]
          constructor
          · intro hc
            obtain ⟨o1, o2⟩ := old.1 (by omega)
            rw [hct] at o1 o2
            unfold MCSBarrier.Threads.count at o1 o2 ⊢
            rw [hpos', hposne u (by omega)]
            constructor
            · symm
              rw [decide_eq_false_iff_not]
              omega
            · omega
          · intro hc
            omega
        · rw [if_neg g]
          refine ⟨fun hc => ?_, old.2⟩
          obtain ⟨o1, o2⟩ := old.1 hc
          unfold MCSBarrier.Threads.count at o1 o2 ⊢
          rw [o1, decide_eq_decide, e u, e (4 * u + jj + 1)]
          by_cases g1 : u = tid
          · rw [if_pos g1, if_neg (by omega)]
            rw [g1] at o1 o2 ⊢
            constructor
            · constructor <;> intro hh <;> omega
            · omega
          · rw [if_neg g1]
            by_cases g3 : 4 * u + jj + 1 = tid
            · exact absurd ⟨h0, by omega, by omega⟩ g
            · rw [if_neg g3]
              exact ⟨Iff.rfl, o2⟩
      · intro k k1 k2
        unfold MCSBarrier.Threads.count
        omega
      · right
        unfold MCSBarrier.Threads.count
        omega
      · intro u
        rw [hps]
  | sense =>
    obtain ⟨hpos, hpos', hc', -, hn'⟩ := mcs_step_sense w nodes.length tid hs hts hp
    have hnode : ∀ u, (MCSBarrier.step w tid).node u = w.node u := by
      intro u
      unfold MCSBarrier.Threads.node
      rw [hn']
    have hsense : ((MCSBarrier.step w tid).node tid).sense = (w.node tid).sense := by
      rw [hnode]
    have hflag : ∀ u jj, ((MCSBarrier.step w tid).node u).childnotready.getD jj false =
        (w.node u).childnotready.getD jj false := by
      intro u jj
      rw [hnode]
    have hps : ∀ u, ((MCSBarrier.step w tid).node u).parentsense = (w.node u).parentsense := by
      intro u
      rw [hnode]
    by_cases hf : (w.node tid).parentsense = (w.node tid).sense
    · rw [if_pos hf] at hpos'
      have e : ∀ v, (MCSBarrier.step w tid).position v =
          if v = tid then w.position tid + 1 else w.position v := by
        intro v
        split_ifs with hh
        · rw [hh, hpos']
        · exact hposne v hh
      refine ⟨mcs_calls_kept w _ tid P hposne hcallsne ?_ hE,
        mcs_sense_kept w _ tid P hposne hsnne ?_ h1,
        mcs_flags_kept w _ tid P hposne ?_ ?_ ?_ ?_ h5, ?_⟩
      · unfold MCSBarrier.Threads.count
        omega
      · rw [hsense, h1t, decide_eq_decide]
        constructor <;> intro hh <;> omega
      · intro k k1 k2
        unfold MCSBarrier.Threads.count
        omega
      · intro k k1 k2
        unfold MCSBarrier.Threads.count
        omega
      · right
        unfold MCSBarrier.Threads.count
        omega
      · intro u jj
        rw [hflag]
      · intro a ha1 ha
        obtain ⟨o1, o2⟩ := h6 a ha1 ha
        rw [hps]
        by_cases g1 : a = tid
        · rw [g1] at o1 o2 ha1 ⊢
          have hpar : (w.count (12 + (tid - 1) % 2) ((tid - 1) / 2) % 2 = 1 ↔
              w.position tid / 14 % 2 = 0) := by
            rw [← decide_eq_decide, ← o1, ← h1t]
            exact hf
          have G := hGl ((tid - 1) / 2) tid (by omega) ht
          unfold MCSBarrier.Threads.count at o1 o2 hpar G ⊢
          rw [hpos', hposne ((tid - 1) / 2) (by omega)]
          refine ⟨o1, ?_⟩
          omega
        · unfold MCSBarrier.Threads.count at o1 o2 ⊢
          rw [o1, decide_eq_decide, e a, e ((a - 1) / 2), if_neg g1]
          by_cases g3 : (a - 1) / 2 = tid
          · rw [if_pos g3]
            rw [g3] at o1 o2 ⊢
            constructor
            · constructor <;> intro hh <;> omega
            · omega
          · rw [if_neg g3]
            exact ⟨Iff.rfl, o2⟩
    · rw [if_neg hf] at hpos'
      refine ⟨mcs_calls_kept w _ tid P hposne hcallsne ?_ hE,
        mcs_sense_kept w _ tid P hposne hsnne ?_ h1,
        mcs_flags_kept w _ tid P hposne ?_ ?_ ?_ ?_ h5,
        mcs_wake_kept w _ tid P hposne ?_ ?_ ?_ h6⟩
      · unfold MCSBarrier.Threads.count
        omega
      · rw [hsense, h1t, decide_eq_decide]
        constructor <;> intro hh <;> omega
      · intro k k1 k2
        unfold MCSBarrier.Threads.count
        omega
      · intro k k1 k2
        unfold MCSBarrier.Threads.count
        omega
      · right
        unfold MCSBarrier.Threads.count
        omega
      · intro u jj
        rw [hflag]
      · intro k k1 k2
        unfold MCSBarrier.Threads.count
        omega
      · right
        unfold MCSBarrier.Threads.count
        omega
      · intro u
        rw [hps]
  | signal k =>
    obtain ⟨hpos, hpos', hc', -, hsp, hps'⟩ :=
      mcs_step_signal w nodes.length tid P k hs hts hP hp (hcp k)
    have hk2 := k.isLt
    have hsense : ((MCSBarrier.step w tid).node tid).sense = (w.node tid).sense := (hsp tid).1
    have hflag : ∀ u jj, ((MCSBarrier.step w tid).node u).childnotready.getD jj false =
        (w.node u).childnotready.getD jj false := by
      intro u jj
      rw [(hsp u).2]
    have e : ∀ v, (MCSBarrier.step w tid).position v =
        if v = tid then w.position tid + 1 else w.position v := by
      intro v
      split_ifs with hh
      · rw [hh, hpos']
      · exact hposne v hh
    refine ⟨mcs_calls_kept w _ tid P hposne hcallsne ?_ hE,
      mcs_sense_kept w _ tid P hposne hsnne ?_ h1,
      mcs_flags_kept w _ tid P hposne ?_ ?_ ?_ ?_ h5, ?_⟩
    · unfold MCSBarrier.Threads.count
      omega
    · rw [hsense, h1t, decide_eq_decide]
      constructor <;> intro hh <;> omega
    · intro k k1 k2
      unfold MCSBarrier.Threads.count
      omega
    · intro k k1 k2
      unfold MCSBarrier.Threads.count
      omega
    · right
      unfold MCSBarrier.Threads.count
      omega
    · intro u jj
      rw [hflag]
    · intro a ha1 ha
      obtain ⟨o1, o2⟩ := h6 a ha1 ha
      rw [hps' a]
      by_cases g : a = 2 * tid + k.val + 1 ∧ a < P
      · rw [if_pos g]
        have ha2 : (a - 1) / 2 = tid := by omega
        have ha3 : (a - 1) % 2 = k.val := by omega
        rw [ha2, ha3] at o1 o2 ⊢
        unfold MCSBarrier.Threads.count at o1 o2 ⊢
        rw [hpos', hposne a (by omega), h1t, decide_eq_decide]
        constructor
        · constructor <;> intro hh <;> omega
        · omega
      · rw [if_neg g]
        unfold MCSBarrier.Threads.count at o1 o2 ⊢
        rw [o1, decide_eq_decide, e a, e ((a - 1) / 2)]
        by_cases g1 : a = tid
        · rw [if_pos g1, if_neg (by omega)]
          rw [g1] at o1 o2 ⊢
          constructor
          · constructor <;> intro hh <;> omega
          · omega
        · rw [if_neg g1]
          by_cases g3 : (a - 1) / 2 = tid
          · rw [if_pos g3]
            have g4 : (a - 1) % 2 ≠ k.val := fun hh => g ⟨by omega, ha⟩
            rw [g3] at o1 o2 ⊢
            constructor
            · constructor <;> intro hh <;> omega
            · omega
          · rw [if_neg g3]
            exact ⟨Iff.rfl, o2⟩
  | flip =>
    obtain ⟨hpos, hpos', hc', -, -, hsp, hsn'⟩ := mcs_step_flip w nodes.length tid hs hts hp
    have hps : ∀ u, ((MCSBarrier.step w tid).node u).parentsense = (w.node u).parentsense :=
      fun u => (hsp u).1
    have hflag : ∀ u jj, ((MCSBarrier.step w tid).node u).childnotready.getD jj false =
        (w.node u).childnotready.getD jj false := by
      intro u jj
      rw [(hsp u).2]
    refine ⟨mcs_calls_kept w _ tid P hposne hcallsne ?_ hE,
      mcs_sense_kept w _ tid P hposne hsnne ?_ h1,
      mcs_flags_kept w _ tid P hposne ?_ ?_ ?_ ?_ h5,
      mcs_wake_kept w _ tid P hposne ?_ ?_ ?_ h6⟩
    · unfold MCSBarrier.Threads.count
      omega
    · rw [hsn', h1t]
      by_cases hpar : w.position tid / 14 % 2 = 0
      · rw [decide_eq_true hpar, decide_eq_false (by omega)]
        rfl
      · rw [decide_eq_false hpar, decide_eq_true (by omega)]
        rfl
    · intro k k1 k2
      unfold MCSBarrier.Threads.count
      omega
    · intro k k1 k2
      unfold MCSBarrier.Threads.count
      omega
    · right
      unfold MCSBarrier.Threads.count
      omega
    · intro u jj
      rw [hflag]
    · intro k k1 k2
      unfold MCSBarrier.Threads.count
      omega
    · right
      unfold MCSBarrier.Threads.count
      omega
    · intro u
      rw [hps]

end Barrier

namespace Barrier

theorem mcs_start_position (nodes : List MCSBarrier.treenode) (P u : Nat) :
    (MCSBarrier.start nodes P).position u = 0 := by
  have h1 : (MCSBarrier.start nodes P).returns u = 0 := by
    unfold MCSBarrier.Threads.returns MCSBarrier.start
    dsimp only
    rw [List.getD_eq_getElem?_getD]
    by_cases hu : u < nodes.length
    · rw [List.getElem?_eq_getElem (by rw [List.length_replicate]; exact hu),
        List.getElem_replicate]
      rfl
    · rw [List.getElem?_eq_none (by rw [List.length_replicate]; omega)]
      rfl
  have h2 : (MCSBarrier.start nodes P).place u = .idle := by
    unfold MCSBarrier.Threads.place MCSBarrier.start
    dsimp only
    rw [List.getD_eq_getElem?_getD]
    by_cases hu : u < nodes.length
    · rw [List.getElem?_eq_getElem (by rw [List.length_replicate]; exact hu),
        List.getElem_replicate]
      rfl
    · rw [List.getElem?_eq_none (by rw [List.length_replicate]; omega)]
      rfl
  unfold MCSBarrier.Threads.position
  rw [h1, h2]
  rfl

theorem mcs_start_calls (nodes : List MCSBarrier.treenode) (P u : Nat) :
    (MCSBarrier.start nodes P).calls u = 0 := by
  unfold MCSBarrier.Threads.calls MCSBarrier.start
  dsimp only
  rw [List.getD_eq_getElem?_getD]
  by_cases hu : u < nodes.length
  · rw [List.getElem?_eq_getElem (by rw [List.length_replicate]; exact hu),
      List.getElem_replicate]
    rfl
  · rw [List.getElem?_eq_none (by rw [List.length_replicate]; omega)]
    rfl

/-- The invariant holds after `_reinit(P)`. -/
theorem mcs_invariant_start (nodes : List MCSBarrier.treenode) (P : Nat)
    (hP : P ≤ nodes.length) (h3 : 4 * nodes.length < 2 ^ 32) :
    MCSBarrier.Invariant nodes P (MCSBarrier.start nodes P) := by
  have hnode : ∀ u, u < P → (MCSBarrier.start nodes P).node u =
      (MCSBarrier._reinit nodes P).getD u MCSBarrier.noNode := fun u _ => rfl
  refine ⟨mcs_start_sized nodes P, rfl, ?_, ?_, ?_, ?_⟩
  · intro u _
    unfold MCSBarrier.Threads.count
    rw [mcs_start_calls, mcs_start_position]
  · intro u hu
    rw [hnode u hu, mcs_reinit_getD nodes P u (by omega), mcs_start_position]
    rfl
  · intro u j hu hj
    unfold MCSBarrier.Threads.count
    rw [hnode u hu, mcs_reinit_getD nodes P u (by omega), mcs_start_position,
      mcs_start_position]
    dsimp only
    rw [getD_map_range_four _ j hj, u32_of_lt (by omega)]
    constructor
    · intro hc
      rw [decide_eq_true hc]
      refine ⟨?_, by omega⟩
      symm
      rw [decide_eq_true_eq]
      omega
    · intro hc
      exact decide_eq_false (by omega)
  · intro a _ ha
    unfold MCSBarrier.Threads.count
    rw [hnode a ha, mcs_reinit_getD nodes P a (by omega), mcs_start_position,
      mcs_start_position]
    dsimp only
    constructor
    · symm
      rw [decide_eq_false_iff_not]
      omega
    · omega

/-- The invariant holds after every schedule of the threads below `P`. -/
theorem mcs_invariant_run (nodes : List MCSBarrier.treenode) (P : Nat)
    (hP : P ≤ nodes.length) (h3 : 4 * nodes.length < 2 ^ 32) (sched : List Nat) :
    ∀ w : MCSBarrier.Threads, MCSBarrier.Invariant nodes P w → (∀ t ∈ sched, t < P) →
      MCSBarrier.Invariant nodes P (MCSBarrier.run w sched) := by
  induction sched with
  | nil => intro w h _; exact h
  | cons t rest ih =>
    intro w h hs
    rw [mcs_run_cons]
    exact ih _ (mcs_invariant_step nodes P w t hP h3 h (hs t (List.mem_cons_self _ _)))
      (fun u hu => hs u (List.mem_cons_of_mem _ hu))

/-- In a state that satisfies the invariant no thread has returned from more calls of
`wait` than any thread has made. -/
theorem mcs_invariant_release (nodes : List MCSBarrier.treenode) (P : Nat)
    (w : MCSBarrier.Threads) (hinv : MCSBarrier.Invariant nodes P w) (t u : Nat)
    (ht : t < P) (hu : u < P) : w.returns t ≤ w.calls u := by
  have hG := mcs_global nodes P w hinv t u ht hu
  have h1 := (mcs_position_split w t).1
  have h2 := hinv.2.2.1 u hu
  unfold MCSBarrier.Threads.count at hG h2
  omega

end Barrier
